import Mathlib

/-!
# Simulated-annealing optimizer of `annealing.go`

A shallow embedding of `simAnnealingOptimizer` and of its `Optimize` loop.

Modelling conventions.

* `float64` values are exact rationals (`ℚ`): every finite `float64` is a
  rational number, and the arithmetic is the exact one, without rounding,
  infinities or NaN.  `math.E` is the rational value of the `float64` constant.
  The section *Float64 arithmetic* adds, next to these definitions, the
  rounding of the cooling statement (`round64`, `bodyR`, `OptimizeR`) and the
  non-finite results of `acceptanceProb` (`Float64`, `acceptanceProbF`); the
  exact definitions are their instances without rounding.
* `Track`, `Task` and `Candidate` are declared outside `annealing.go`; they are
  type parameters.  What the optimizer uses of them (`NewCandidateRandom`,
  `Candidate.Neighbour`, the field `Candidate.Task`, the zero value of
  `Candidate`) and the process-wide random source of `math/rand`
  (`rand.Seed`, `rand.Float64`) are the fields of `Collaborators`.  The random
  source is an explicit state `Rng` threaded through every call that draws from
  it.  Candidates are values: a neighbour never aliases the candidate it was
  derived from.
* `Score` is a pure function `Task → ℚ`; the nil function value the constructor
  leaves in the `score` field is `none`, and calling it fails.
* The `for` loop is run with a fuel bound; running out of fuel is `none`.
-/

namespace Igc

/-- The external collaborators of the optimizer and the global random source. -/
structure Collaborators (Track Task Candidate Rng : Type) where
  /-- The zero value of type `Candidate` (as produced by `make([]Candidate, 1)`). -/
  zeroCandidate : Candidate
  /-- Field access `candidate.Task`. -/
  task : Candidate → Task
  /-- State of the global source after `rand.Seed(seed)`. -/
  seed : Int → Rng
  /-- The draw `rand.Float64()` and the state of the source after it. -/
  float64 : Rng → ℚ × Rng
  /-- The call `NewCandidateRandom(nPoints, track)`. -/
  newCandidateRandom : Int → Track → Rng → Candidate × Rng
  /-- The method `Candidate.Neighbour()`. -/
  neighbour : Candidate → Rng → Candidate × Rng

/-- The struct `simAnnealingOptimizer`. -/
structure simAnnealingOptimizer (Track Task Candidate : Type) where
  score : Option (Task → ℚ)
  currentTemperature : ℚ
  minTemperature : ℚ
  alpha : ℚ
  track : Option Track
  nPoints : Int
  candidate : Candidate
  best : Candidate

/-- The struct `RunLog`. -/
structure RunLog (Candidate : Type) where
  Candidates : List Candidate
  Bests : List Candidate
  Temperature : List ℚ

/-- The constant `math.E` as a `float64`: `0x4005BF0A8B145769`. -/
def mathE : ℚ := 6121026514868073 / 2251799813685248

section
variable {Track Task Candidate Rng : Type}

/-- The constructor `NewSimAnnealingOptimizerParams`: the optimizer it returns and
the state of the global random source after `rand.Seed(seed)`. -/
def NewSimAnnealingOptimizerParams (E : Collaborators Track Task Candidate Rng)
    (startTemperature minTemperature alpha : ℚ) (seed : Int) :
    simAnnealingOptimizer Track Task Candidate × Rng :=
  ({ score := none
     currentTemperature := startTemperature
     minTemperature := minTemperature
     alpha := alpha
     track := none
     nPoints := 0
     candidate := E.zeroCandidate
     best := E.zeroCandidate },
   E.seed seed)

/-- The constructor `NewSimAnnealingOptimizer`; `now` is the reading
`time.Now().UTC().UnixNano()` of the clock, and the literal `0.003` is the
decimal fraction it denotes. -/
def NewSimAnnealingOptimizer (E : Collaborators Track Task Candidate Rng) (now : Int) :
    simAnnealingOptimizer Track Task Candidate × Rng :=
  NewSimAnnealingOptimizerParams E 1000 1 (3 / 1000) now

/-- The method `initialize` of the source (that name is reserved in Lean). -/
def initialise (E : Collaborators Track Task Candidate Rng)
    (sa : simAnnealingOptimizer Track Task Candidate) (track : Track) (nPoints : Int)
    (score : Task → ℚ) (rng : Rng) : simAnnealingOptimizer Track Task Candidate × Rng :=
  let sa1 := { sa with track := some track }
  let sa2 := { sa1 with nPoints := nPoints }
  let sa3 := { sa2 with score := some score }
  let c := E.newCandidateRandom nPoints track rng
  let sa4 := { sa3 with candidate := c.1 }
  ({ sa4 with best := sa4.candidate }, c.2)

/-- The method `neighbour`. -/
def neighbour (E : Collaborators Track Task Candidate Rng)
    (sa : simAnnealingOptimizer Track Task Candidate) (rng : Rng) : Candidate × Rng :=
  E.neighbour sa.candidate rng

/-- The method `acceptanceProb`; `none` when the `score` field is nil. -/
def acceptanceProb (E : Collaborators Track Task Candidate Rng)
    (sa : simAnnealingOptimizer Track Task Candidate) (task : Task) : Option ℚ :=
  match sa.score with
  | none => none
  | some score =>
    let diff := score (E.task sa.candidate) - score task
    if diff > 0 then some 1
    else some (mathE * (diff / sa.currentTemperature))

/-- The state the loop of `Optimize` works on: the receiver, the global random
source and the local `log`.  `generated` is a ghost field, never read by the
code: the values the local `candidate` has taken, in order. -/
structure Machine (Track Task Candidate Rng : Type) where
  sa : simAnnealingOptimizer Track Task Candidate
  rng : Rng
  log : RunLog Candidate
  generated : List Candidate

/-- One execution of the body of the `for` loop of `Optimize`. -/
def body (E : Collaborators Track Task Candidate Rng)
    (m : Machine Track Task Candidate Rng) : Option (Machine Track Task Candidate Rng) :=
  let n := neighbour E m.sa m.rng
  let candidate := n.1
  match acceptanceProb E m.sa (E.task candidate) with
  | none => none
  | some acceptanceProb =>
    let d := E.float64 n.2
    let sa1 := if acceptanceProb > d.1 then { m.sa with candidate := candidate } else m.sa
    match sa1.score with
    | none => none
    | some score =>
      let sa2 :=
        if score (E.task candidate) > score (E.task sa1.best) then
          { sa1 with best := candidate }
        else sa1
      let sa3 := { sa2 with currentTemperature := sa2.currentTemperature * (1 - sa2.alpha) }
      some
        { sa := sa3
          rng := d.2
          log :=
            { Candidates := m.log.Candidates ++ [sa3.candidate]
              Bests := m.log.Bests ++ [sa3.best]
              Temperature := m.log.Temperature ++ [sa3.currentTemperature] }
          generated := m.generated ++ [candidate] }

/-- The `for` loop of `Optimize`, with a bound on the number of iterations. -/
def loop (E : Collaborators Track Task Candidate Rng) :
    Nat → Machine Track Task Candidate Rng → Option (Machine Track Task Candidate Rng)
  | 0, m => if m.sa.currentTemperature > m.sa.minTemperature then none else some m
  | fuel + 1, m =>
    if m.sa.currentTemperature > m.sa.minTemperature then (body E m).bind (loop E fuel)
    else some m

/-- What a call of `Optimize` leaves behind: the returned pair `(Task, error)`
and the final machine state (receiver, random source, the printed log). -/
structure Outcome (Track Task Candidate Rng : Type) where
  task : Task
  err : Option String
  final : Machine Track Task Candidate Rng

/-- The method `Optimize`. -/
def Optimize (E : Collaborators Track Task Candidate Rng) (fuel : Nat)
    (sa : simAnnealingOptimizer Track Task Candidate) (track : Track) (nPoints : Int)
    (score : Task → ℚ) (rng : Rng) : Option (Outcome Track Task Candidate Rng) :=
  let i := initialise E sa track nPoints score rng
  let log : RunLog Candidate :=
    { Candidates := [E.zeroCandidate], Bests := [E.zeroCandidate], Temperature := [0] }
  match loop E fuel { sa := i.1, rng := i.2, log := log, generated := [] } with
  | none => none
  | some m => some { task := E.task m.sa.best, err := none, final := m }

/-- Number of loop iterations of a run: the entries appended to the log. -/
def iterations (o : Outcome Track Task Candidate Rng) : Nat :=
  o.final.log.Temperature.length - 1

/-- The candidate `NewCandidateRandom` returns in `initialize`. -/
def initialCandidate (E : Collaborators Track Task Candidate Rng) (track : Track)
    (nPoints : Int) (rng : Rng) : Candidate :=
  (E.newCandidateRandom nPoints track rng).1

end

section
variable {Track Task Candidate Rng : Type}

/-- The value the local `candidate` takes in the iteration that starts in `m`. -/
def nextCandidate (E : Collaborators Track Task Candidate Rng)
    (m : Machine Track Task Candidate Rng) : Candidate :=
  (neighbour E m.sa m.rng).1

/-- The value `rand.Float64()` returns in the iteration that starts in `m`. -/
def nextDraw (E : Collaborators Track Task Candidate Rng)
    (m : Machine Track Task Candidate Rng) : ℚ :=
  (E.float64 (neighbour E m.sa m.rng).2).1

/-- The machine state in which the loop of `Optimize` is entered. -/
def entry (E : Collaborators Track Task Candidate Rng)
    (sa : simAnnealingOptimizer Track Task Candidate) (track : Track) (nPoints : Int)
    (score : Task → ℚ) (rng : Rng) : Machine Track Task Candidate Rng :=
  { sa := (initialise E sa track nPoints score rng).1
    rng := (initialise E sa track nPoints score rng).2
    log := { Candidates := [E.zeroCandidate], Bests := [E.zeroCandidate], Temperature := [0] }
    generated := [] }

/-- The loop body executed `k` times in a row, without looking at the guard:
the machine state after the `k`-th iteration of a run that makes at least `k`
iterations. -/
def runBody (E : Collaborators Track Task Candidate Rng) :
    Nat → Machine Track Task Candidate Rng → Option (Machine Track Task Candidate Rng)
  | 0, m => some m
  | k + 1, m => (runBody E k m).bind (body E)

/-- Whether the iteration that starts in `m` takes the branch
`sa.candidate = candidate`: the test `acceptanceProb > rand.Float64()`. -/
def moveAccepted (E : Collaborators Track Task Candidate Rng)
    (m : Machine Track Task Candidate Rng) : Bool :=
  match acceptanceProb E m.sa (E.task (nextCandidate E m)) with
  | none => false
  | some p => decide (p > nextDraw E m)

end

section
variable {Candidate : Type}

/-- The element `b` is the first one of maximal value of `g` in `cs`. -/
def FirstMaximum (g : Candidate → ℚ) (cs : List Candidate) (b : Candidate) : Prop :=
  ∃ j : Nat, cs[j]? = some b ∧ (∀ (i : Nat) (d : Candidate), cs[i]? = some d → g d ≤ g b) ∧
    (∀ (i : Nat) (d : Candidate), i < j → cs[i]? = some d → g d < g b)

end

/-! ### Float64 arithmetic

The definitions above compute with exact rationals.  Where a claim depends on
the rounding of `float64` operations, the definitions below make it explicit:
the cooling statement `sa.currentTemperature *= (1 - sa.alpha)` rounds the
difference and the product, each by a rounding function `fl`.  With `fl = id`
the arithmetic is the exact one; with `fl = round64` it is that of binary64
(round to nearest, ties to even, gradual underflow).  A result beyond the
largest finite binary64 would be an infinity in the code; `round64` does not
model that, and the statements that use it keep the cooling factor within
`[-1, 1]`, where no cooling step can overflow. -/

/-- Round to the nearest integer, ties to the even one. -/
def roundNE (x : ℚ) : ℤ :=
  if x - ⌊x⌋ < 1 / 2 then ⌊x⌋
  else if 1 / 2 < x - ⌊x⌋ then ⌊x⌋ + 1
  else if ⌊x⌋ % 2 = 0 then ⌊x⌋ else ⌊x⌋ + 1

/-- Exponent of the unit in the last place of binary64 at `x`: `52` below the
exponent of `x`, and `-1074` in the subnormal range. -/
def quantum (x : ℚ) : ℤ := max (Int.log 2 |x| - 52) (-1074)

/-- The binary64 value nearest to `x`, ties to the even significand. -/
def round64 (x : ℚ) : ℚ := (roundNE (x / 2 ^ quantum x) : ℚ) * 2 ^ quantum x

/-- The statement `sa.currentTemperature *= (1 - sa.alpha)`: the new temperature,
each of the two operations rounded by `fl`. -/
def cool (fl : ℚ → ℚ) (alpha T : ℚ) : ℚ := fl (T * fl (1 - alpha))

section
variable {Track Task Candidate Rng : Type}

/-- One execution of the body of the `for` loop of `Optimize`, the cooling
statement computed with the rounding `fl`.  The move decision is that of `body`:
at a positive temperature and for a draw in `[0, 1)` it depends on the sign of
`diff` alone, which rounding does not change. -/
def bodyR (fl : ℚ → ℚ) (E : Collaborators Track Task Candidate Rng)
    (m : Machine Track Task Candidate Rng) : Option (Machine Track Task Candidate Rng) :=
  let n := neighbour E m.sa m.rng
  let candidate := n.1
  match acceptanceProb E m.sa (E.task candidate) with
  | none => none
  | some acceptanceProb =>
    let d := E.float64 n.2
    let sa1 := if acceptanceProb > d.1 then { m.sa with candidate := candidate } else m.sa
    match sa1.score with
    | none => none
    | some score =>
      let sa2 :=
        if score (E.task candidate) > score (E.task sa1.best) then
          { sa1 with best := candidate }
        else sa1
      let sa3 := { sa2 with currentTemperature := cool fl sa2.alpha sa2.currentTemperature }
      some
        { sa := sa3
          rng := d.2
          log :=
            { Candidates := m.log.Candidates ++ [sa3.candidate]
              Bests := m.log.Bests ++ [sa3.best]
              Temperature := m.log.Temperature ++ [sa3.currentTemperature] }
          generated := m.generated ++ [candidate] }

/-- The `for` loop of `Optimize` over `bodyR`, with a bound on the number of iterations. -/
def loopR (fl : ℚ → ℚ) (E : Collaborators Track Task Candidate Rng) :
    Nat → Machine Track Task Candidate Rng → Option (Machine Track Task Candidate Rng)
  | 0, m => if m.sa.currentTemperature > m.sa.minTemperature then none else some m
  | fuel + 1, m =>
    if m.sa.currentTemperature > m.sa.minTemperature then (bodyR fl E m).bind (loopR fl E fuel)
    else some m

/-- The method `Optimize`, the cooling statement computed with the rounding `fl`. -/
def OptimizeR (fl : ℚ → ℚ) (E : Collaborators Track Task Candidate Rng) (fuel : Nat)
    (sa : simAnnealingOptimizer Track Task Candidate) (track : Track) (nPoints : Int)
    (score : Task → ℚ) (rng : Rng) : Option (Outcome Track Task Candidate Rng) :=
  let i := initialise E sa track nPoints score rng
  let log : RunLog Candidate :=
    { Candidates := [E.zeroCandidate], Bests := [E.zeroCandidate], Temperature := [0] }
  match loopR fl E fuel { sa := i.1, rng := i.2, log := log, generated := [] } with
  | none => none
  | some m => some { task := E.task m.sa.best, err := none, final := m }

/-- The body `bodyR` executed `k` times in a row, without looking at the guard. -/
def runBodyR (fl : ℚ → ℚ) (E : Collaborators Track Task Candidate Rng) :
    Nat → Machine Track Task Candidate Rng → Option (Machine Track Task Candidate Rng)
  | 0, m => some m
  | k + 1, m => (runBodyR fl E k m).bind (bodyR fl E)

end

/-- The loop of `Optimize` reduced to its temperature: the number of iterations
it makes from temperature `T`, or `none` when the bound `fuel` is reached. -/
def coolingSteps (fl : ℚ → ℚ) (minTemperature alpha : ℚ) : Nat → ℚ → Option Nat
  | 0, T => if T > minTemperature then none else some 0
  | fuel + 1, T =>
    if T > minTemperature then
      (coolingSteps fl minTemperature alpha fuel (cool fl alpha T)).map (· + 1)
    else some 0

/-- A `float64` value as `acceptanceProb` can return it: a finite number, an
infinity, or NaN.  Zero has no sign here; as a divisor it is `+0`. -/
inductive Float64 where
  | finite (q : ℚ)
  | posInf
  | negInf
  | nan
  deriving DecidableEq

/-- The comparison `x > 0` of a `float64`. -/
def Float64.gtZero : Float64 → Bool
  | .finite q => decide (q > 0)
  | .posInf => true
  | .negInf => false
  | .nan => false

/-- The comparison `x > r` of a `float64` with a finite `r`. -/
def Float64.gt : Float64 → ℚ → Bool
  | .finite q, r => decide (q > r)
  | .posInf, _ => true
  | .negInf, _ => false
  | .nan, _ => false

/-- The quotient `x / t` of a `float64` by a finite `t`, rounded by `fl`;
division by zero gives an infinity, and `0 / 0` gives NaN.  The zero of `ℚ`
stands for the positive zero of `float64`. -/
def Float64.divBy (fl : ℚ → Float64) : Float64 → ℚ → Float64
  | .finite d, t =>
    if t = 0 then (if d = 0 then .nan else if d < 0 then .negInf else .posInf)
    else fl (d / t)
  | .posInf, t => if t < 0 then .negInf else .posInf
  | .negInf, t => if t < 0 then .posInf else .negInf
  | .nan, _ => .nan

/-- The product `c * x` of a finite `c` with a `float64`, rounded by `fl`. -/
def Float64.mulBy (fl : ℚ → Float64) (c : ℚ) : Float64 → Float64
  | .finite v => fl (c * v)
  | .posInf => if c > 0 then .posInf else if c < 0 then .negInf else .nan
  | .negInf => if c > 0 then .negInf else if c < 0 then .posInf else .nan
  | .nan => .nan

section
variable {Track Task Candidate Rng : Type}

/-- The method `acceptanceProb` with the value it returns as a `float64`: every
operation is rounded by `fl` (to a finite value or, on overflow, an infinity),
and the division by a zero temperature gives an infinity or NaN. -/
def acceptanceProbF (fl : ℚ → Float64) (E : Collaborators Track Task Candidate Rng)
    (sa : simAnnealingOptimizer Track Task Candidate) (task : Task) : Option Float64 :=
  match sa.score with
  | none => none
  | some score =>
    let diff := fl (score (E.task sa.candidate) - score task)
    if diff.gtZero then some (.finite 1)
    else some (Float64.mulBy fl mathE (Float64.divBy fl diff sa.currentTemperature))

end

/-! ### A concrete instance

Candidates are natural numbers, a neighbour is the successor, the task of a
candidate is the candidate itself, and the random source is a counter whose
draws alternate between `0` and `1/2`. -/

/-- Collaborators over `ℕ`. -/
def counterE : Collaborators Unit Nat Nat Nat where
  zeroCandidate := 0
  task := fun c => c
  seed := fun s => s.toNat
  float64 := fun g => (if g % 2 = 0 then 0 else 1 / 2, g + 1)
  newCandidateRandom := fun n _ g => (n.toNat + g, g + 1)
  neighbour := fun c g => (c + 1, g + 1)

/-- A score with a single peak at `7`. -/
def peakScore (t : Nat) : ℚ := if t ≤ 7 then (t : ℚ) else 14 - (t : ℚ)


/-- The optimizer `NewSimAnnealingOptimizerParams(10, 1, 0.5, 0)` over `counterE`. -/
def demoOptimizer : simAnnealingOptimizer Unit Nat Nat :=
  (NewSimAnnealingOptimizerParams counterE 10 1 (1 / 2) 0).1

/-- A run of `demoOptimizer` on three points; it takes four iterations. -/
def demoRun : Option (Outcome Unit Nat Nat Nat) :=
  Optimize counterE 5 demoOptimizer () 3 peakScore 0

/-- An initialised optimizer at temperature `0`, standing on candidate `5`. -/
def coldOptimizer : simAnnealingOptimizer Unit Nat Nat :=
  { score := some peakScore
    currentTemperature := 0
    minTemperature := 1
    alpha := 1 / 2
    track := some ()
    nPoints := 3
    candidate := 5
    best := 5 }

/-- The optimizer `NewSimAnnealingOptimizerParams(10, 9, 0.5, 42)` over `counterE`. -/
def oneStepOptimizer : simAnnealingOptimizer Unit Nat Nat :=
  (NewSimAnnealingOptimizerParams counterE 10 9 (1 / 2) 42).1

/-- The first call of `Optimize` on `oneStepOptimizer`. -/
def firstCall : Option (Outcome Unit Nat Nat Nat) :=
  Optimize counterE 5 oneStepOptimizer () 3 peakScore 42

/-- A second call of `Optimize` on the optimizer the first call left behind. -/
def secondCall : Option (Outcome Unit Nat Nat Nat) :=
  firstCall.bind fun o => Optimize counterE 5 o.final.sa () 3 peakScore o.final.rng

/-- An initialised optimizer at temperature `10`, standing on candidate `6`. -/
def warmOptimizer : simAnnealingOptimizer Unit Nat Nat :=
  { score := some peakScore
    currentTemperature := 10
    minTemperature := 1
    alpha := 1 / 2
    track := some ()
    nPoints := 3
    candidate := 6
    best := 6 }

/-- The machine state of an iteration that starts at `warmOptimizer`. -/
def warmMachine : Machine Unit Nat Nat Nat :=
  { sa := warmOptimizer
    rng := 0
    log := { Candidates := [0], Bests := [0], Temperature := [0] }
    generated := [] }

/-- As `warmMachine`, but standing on candidate `8`, whose neighbour `9` scores less. -/
def downhillMachine : Machine Unit Nat Nat Nat :=
  { warmMachine with sa := { warmOptimizer with candidate := 8 } }

/-- An optimizer on which rounding changes the count: start `1`, floor
`81/256 - 2⁻⁵⁴` and `alpha = 1/4 + 2⁻⁵⁴`, all three binary64 values. -/
def driftOptimizer : simAnnealingOptimizer Unit Nat Nat :=
  (NewSimAnnealingOptimizerParams counterE 1 (81 / 256 - 1 / 2 ^ 54) (1 / 4 + 1 / 2 ^ 54) 0).1

/-- The run of `driftOptimizer` in binary64 arithmetic. -/
def driftRun : Option (Outcome Unit Nat Nat Nat) :=
  OptimizeR round64 counterE 6 driftOptimizer () 3 peakScore 0

/-- An optimizer whose cooling factor rounds to `1`: start `2`, floor `1` and
`alpha = 2⁻⁶⁰`. -/
def stuckOptimizer : simAnnealingOptimizer Unit Nat Nat :=
  (NewSimAnnealingOptimizerParams counterE 2 1 (1 / 2 ^ 60) 0).1

/-- The state in which `stuckOptimizer` enters the loop. -/
def stuckMachine : Machine Unit Nat Nat Nat :=
  entry counterE stuckOptimizer () 3 peakScore 0

/-- A state at the smallest positive binary64 temperature, `2⁻¹⁰⁷⁴`, with floor
`0` and `alpha = 1/2`. -/
def vanishingMachine : Machine Unit Nat Nat Nat :=
  entry counterE (NewSimAnnealingOptimizerParams counterE (1 / 2 ^ 1074) 0 (1 / 2) 0).1
    () 3 peakScore 0

/-- The state in which `demoOptimizer` enters the loop on eight points: the
initial candidate is `8`, whose neighbour `9` scores less. -/
def descentMachine : Machine Unit Nat Nat Nat :=
  entry counterE demoOptimizer () 8 peakScore 0

/-! ### The loop body and the loop -/

section
variable {Track Task Candidate Rng : Type}

theorem acceptanceProb_of_score (E : Collaborators Track Task Candidate Rng)
    (sa : simAnnealingOptimizer Track Task Candidate) (task : Task) (f : Task → ℚ)
    (h : sa.score = some f) :
    acceptanceProb E sa task =
      some (if f (E.task sa.candidate) - f task > 0 then 1
            else mathE * ((f (E.task sa.candidate) - f task) / sa.currentTemperature)) := by
  unfold acceptanceProb
  rw [h]
  by_cases hd : f (E.task sa.candidate) - f task > 0 <;> simp [hd]

/-- With a score installed the loop body succeeds, and this is the state it produces. -/
theorem body_of_score (E : Collaborators Track Task Candidate Rng)
    (m : Machine Track Task Candidate Rng) (f : Task → ℚ) (h : m.sa.score = some f) :
    ∃ m', body E m = some m' ∧
      m'.sa.score = some f ∧
      m'.sa.minTemperature = m.sa.minTemperature ∧
      m'.sa.alpha = m.sa.alpha ∧
      m'.sa.currentTemperature = m.sa.currentTemperature * (1 - m.sa.alpha) ∧
      m'.sa.best =
        (if f (E.task (nextCandidate E m)) > f (E.task m.sa.best) then nextCandidate E m
         else m.sa.best) ∧
      m'.sa.candidate =
        (if (if f (E.task m.sa.candidate) - f (E.task (nextCandidate E m)) > 0 then (1 : ℚ)
             else mathE * ((f (E.task m.sa.candidate) - f (E.task (nextCandidate E m))) /
               m.sa.currentTemperature)) > nextDraw E m
         then nextCandidate E m else m.sa.candidate) ∧
      m'.generated = m.generated ++ [nextCandidate E m] ∧
      m'.log.Candidates = m.log.Candidates ++ [m'.sa.candidate] ∧
      m'.log.Bests = m.log.Bests ++ [m'.sa.best] ∧
      m'.log.Temperature = m.log.Temperature ++ [m'.sa.currentTemperature] := by
  simp only [body, nextCandidate, nextDraw, acceptanceProb_of_score E m.sa _ f h]
  generalize (if f (E.task m.sa.candidate) - f (E.task (neighbour E m.sa m.rng).1) > 0 then (1 : ℚ)
            else mathE * ((f (E.task m.sa.candidate) - f (E.task (neighbour E m.sa m.rng).1)) /
              m.sa.currentTemperature)) = p
  by_cases h2 : p > (E.float64 (neighbour E m.sa m.rng).2).1 <;>
  by_cases h3 : f (E.task (neighbour E m.sa m.rng).1) > f (E.task m.sa.best) <;>
  simp [h, h2, h3]

theorem loop_stop (E : Collaborators Track Task Candidate Rng) (fuel : Nat)
    (m : Machine Track Task Candidate Rng)
    (h : ¬ m.sa.currentTemperature > m.sa.minTemperature) : loop E fuel m = some m := by
  cases fuel <;> simp [loop, h]

theorem loop_step (E : Collaborators Track Task Candidate Rng) (fuel : Nat)
    (m : Machine Track Task Candidate Rng)
    (h : m.sa.currentTemperature > m.sa.minTemperature) :
    loop E (fuel + 1) m = (body E m).bind (loop E fuel) := by
  simp [loop, h]

/-- A property that holds on entry and that every executed iteration preserves
holds when the loop is left, where the guard is false. -/
theorem loop_invariant (E : Collaborators Track Task Candidate Rng)
    (P : Machine Track Task Candidate Rng → Prop)
    (hstep : ∀ m m', P m → m.sa.currentTemperature > m.sa.minTemperature →
      body E m = some m' → P m') :
    ∀ (fuel : Nat) (m r : Machine Track Task Candidate Rng), P m → loop E fuel m = some r →
      P r ∧ ¬ r.sa.currentTemperature > r.sa.minTemperature := by
  intro fuel
  induction fuel with
  | zero =>
    intro m r hP hl
    by_cases hg : m.sa.currentTemperature > m.sa.minTemperature
    · simp [loop, hg] at hl
    · simp only [loop, hg, if_false, Option.some.injEq] at hl
      subst hl
      exact ⟨hP, hg⟩
  | succ fuel ih =>
    intro m r hP hl
    by_cases hg : m.sa.currentTemperature > m.sa.minTemperature
    · rw [loop_step E fuel m hg] at hl
      cases hb : body E m with
      | none => simp [hb] at hl
      | some m' =>
        rw [hb] at hl
        exact ih m' r (hstep m m' hP hg hb) hl
    · rw [loop_stop E _ m hg, Option.some.injEq] at hl
      subst hl
      exact ⟨hP, hg⟩

theorem Optimize_eq (E : Collaborators Track Task Candidate Rng) (fuel : Nat)
    (sa : simAnnealingOptimizer Track Task Candidate) (track : Track) (nPoints : Int)
    (score : Task → ℚ) (rng : Rng) :
    Optimize E fuel sa track nPoints score rng =
      (loop E fuel (entry E sa track nPoints score rng)).map
        (fun m => { task := E.task m.sa.best, err := none, final := m }) := by
  simp only [Optimize, entry]
  cases loop E fuel _ <;> rfl

end

/-! ### The best candidate -/

section
variable {Candidate : Type}

theorem FirstMaximum.single (g : Candidate → ℚ) (c : Candidate) : FirstMaximum g [c] c := by
  refine ⟨0, rfl, ?_, ?_⟩
  · intro i d h
    cases i with
    | zero => simp at h; subst h; exact le_refl _
    | succ i => simp at h
  · intro i d hi
    exact absurd hi (Nat.not_lt_zero i)

theorem FirstMaximum.concat (g : Candidate → ℚ) (cs : List Candidate) (b x : Candidate)
    (h : FirstMaximum g cs b) :
    FirstMaximum g (cs ++ [x]) (if g x > g b then x else b) := by
  obtain ⟨j, hj, hmax, hlt⟩ := h
  have hjlen : j < cs.length := by
    rcases Nat.lt_or_ge j cs.length with h | h
    · exact h
    · rw [List.getElem?_eq_none h] at hj
      cases hj
  have key : ∀ i d, (cs ++ [x])[i]? = some d → cs[i]? = some d ∨ (i = cs.length ∧ d = x) := by
    intro i d hd
    rcases Nat.lt_or_ge i cs.length with hi | hi
    · left
      rwa [List.getElem?_append_left hi] at hd
    · right
      rw [List.getElem?_append_right hi] at hd
      cases hk : i - cs.length with
      | zero =>
        rw [hk] at hd
        simp at hd
        exact ⟨by omega, hd.symm⟩
      | succ k =>
        rw [hk] at hd
        simp at hd
  by_cases hx : g x > g b
  · rw [if_pos hx]
    refine ⟨cs.length, by simp, ?_, ?_⟩
    · intro i d hd
      rcases key i d hd with h | ⟨_, h⟩
      · exact le_of_lt (lt_of_le_of_lt (hmax i d h) hx)
      · rw [h]
    · intro i d hi hd
      rcases key i d hd with h | ⟨h, _⟩
      · exact lt_of_le_of_lt (hmax i d h) hx
      · omega
  · rw [if_neg hx]
    refine ⟨j, by rw [List.getElem?_append_left hjlen]; exact hj, ?_, ?_⟩
    · intro i d hd
      rcases key i d hd with h | ⟨_, h⟩
      · exact hmax i d h
      · rw [h]; exact not_lt.mp hx
    · intro i d hi hd
      rcases key i d hd with h | ⟨h, _⟩
      · exact hlt i d hi h
      · omega

end

section
variable {Track Task Candidate Rng : Type}

theorem entry_score (E : Collaborators Track Task Candidate Rng)
    (sa : simAnnealingOptimizer Track Task Candidate) (track : Track) (nPoints : Int)
    (score : Task → ℚ) (rng : Rng) :
    (entry E sa track nPoints score rng).sa.score = some score := rfl

theorem entry_best (E : Collaborators Track Task Candidate Rng)
    (sa : simAnnealingOptimizer Track Task Candidate) (track : Track) (nPoints : Int)
    (score : Task → ℚ) (rng : Rng) :
    (entry E sa track nPoints score rng).sa.best = initialCandidate E track nPoints rng := rfl

/-- Unfolding of a successful call of `Optimize`. -/
theorem Optimize_some (E : Collaborators Track Task Candidate Rng) (fuel : Nat)
    (sa : simAnnealingOptimizer Track Task Candidate) (track : Track) (nPoints : Int)
    (score : Task → ℚ) (rng : Rng) (o : Outcome Track Task Candidate Rng)
    (h : Optimize E fuel sa track nPoints score rng = some o) :
    loop E fuel (entry E sa track nPoints score rng) = some o.final ∧
      o.task = E.task o.final.sa.best ∧ o.err = none := by
  rw [Optimize_eq] at h
  cases hl : loop E fuel (entry E sa track nPoints score rng) with
  | none => simp [hl] at h
  | some m =>
    simp only [hl, Option.map_some', Option.some.injEq] at h
    subst h
    exact ⟨rfl, rfl, rfl⟩

/-- The loop keeps `best` the first candidate of maximal score among the initial
candidate and the neighbours generated so far, one per log entry. -/
theorem loop_best (E : Collaborators Track Task Candidate Rng) (score : Task → ℚ)
    (c0 : Candidate) (fuel : Nat) (m r : Machine Track Task Candidate Rng)
    (hs : m.sa.score = some score)
    (hb : FirstMaximum (fun c => score (E.task c)) (c0 :: m.generated) m.sa.best)
    (hn : m.generated.length + 1 = m.log.Temperature.length)
    (hl : loop E fuel m = some r) :
    FirstMaximum (fun c => score (E.task c)) (c0 :: r.generated) r.sa.best ∧
      r.generated.length + 1 = r.log.Temperature.length := by
  have inv := loop_invariant E
    (fun m => m.sa.score = some score ∧
      FirstMaximum (fun c => score (E.task c)) (c0 :: m.generated) m.sa.best ∧
      m.generated.length + 1 = m.log.Temperature.length)
    (by
      rintro m m' ⟨hs, hb, hn⟩ _ hbody
      obtain ⟨m'', hb'', hs', _, _, _, hbest, _, hgen, _, _, hT⟩ := body_of_score E m score hs
      rw [hbody, Option.some.injEq] at hb''
      subst hb''
      refine ⟨hs', ?_, ?_⟩
      · rw [hbest, hgen, ← List.cons_append]
        exact FirstMaximum.concat _ _ _ _ hb
      · rw [hgen, hT]
        simp [hn])
    fuel m r ⟨hs, hb, hn⟩ hl
  exact inv.1.2

end

/-! ### The number of iterations -/

section
variable {Track Task Candidate Rng : Type}

/-- More fuel does not change the result of a run that returns. -/
theorem loop_fuel_mono (E : Collaborators Track Task Candidate Rng) :
    ∀ (fuel fuel' : Nat) (m r : Machine Track Task Candidate Rng),
      loop E fuel m = some r → fuel ≤ fuel' → loop E fuel' m = some r := by
  intro fuel
  induction fuel with
  | zero =>
    intro fuel' m r hl _
    by_cases hg : m.sa.currentTemperature > m.sa.minTemperature
    · simp [loop, hg] at hl
    · rw [loop_stop E _ m hg] at hl ⊢
      exact hl
  | succ fuel ih =>
    intro fuel' m r hl hle
    by_cases hg : m.sa.currentTemperature > m.sa.minTemperature
    · obtain ⟨k, rfl⟩ : ∃ k, fuel' = k + 1 := ⟨fuel' - 1, by omega⟩
      rw [loop_step E _ m hg] at hl ⊢
      cases hb : body E m with
      | none => simp [hb] at hl
      | some m' =>
        rw [hb] at hl
        exact ih k m' r hl (by omega)
    · rw [loop_stop E _ m hg] at hl ⊢
      exact hl

/-- When the temperature falls to `minTemperature` after exactly `n` cooling
steps, the loop returns with fuel `n` after appending `n` entries to the log,
and leaves the temperature cooled `n` times. -/
theorem loop_count (E : Collaborators Track Task Candidate Rng) (f : Task → ℚ) :
    ∀ (n : Nat) (m : Machine Track Task Candidate Rng), m.sa.score = some f →
      (∀ k, k < n → m.sa.minTemperature < m.sa.currentTemperature * (1 - m.sa.alpha) ^ k) →
      m.sa.currentTemperature * (1 - m.sa.alpha) ^ n ≤ m.sa.minTemperature →
      ∃ r, loop E n m = some r ∧
        r.log.Temperature.length = m.log.Temperature.length + n ∧
        r.sa.currentTemperature = m.sa.currentTemperature * (1 - m.sa.alpha) ^ n ∧
        r.sa.minTemperature = m.sa.minTemperature ∧ r.sa.alpha = m.sa.alpha := by
  intro n
  induction n with
  | zero =>
    intro m _ _ hle
    have hg : ¬ m.sa.currentTemperature > m.sa.minTemperature := by
      simpa using hle
    exact ⟨m, loop_stop E 0 m hg, by simp, by simp, rfl, rfl⟩
  | succ n ih =>
    intro m hs hlt hle
    have hg : m.sa.currentTemperature > m.sa.minTemperature := by
      simpa using hlt 0 (Nat.succ_pos n)
    obtain ⟨m', hb, hs', hmin, hal, hT, _, _, _, _, _, hlog⟩ := body_of_score E m f hs
    obtain ⟨r, hr, hlen, hrT, hrmin, hral⟩ := ih m' hs'
      (by
        intro k hk
        rw [hmin, hT, hal, mul_assoc, ← pow_succ']
        exact hlt (k + 1) (by omega))
      (by
        rw [hmin, hT, hal, mul_assoc, ← pow_succ']
        exact hle)
    refine ⟨r, ?_, ?_, ?_, ?_, ?_⟩
    · rw [loop_step E n m hg, hb]
      exact hr
    · rw [hlen, hlog, List.length_append, List.length_singleton]
      omega
    · rw [hrT, hT, hal, mul_assoc, ← pow_succ']
    · rw [hrmin, hmin]
    · rw [hral, hal]

end

/-- The real-number count: with `0 < mn < s` and `0 < a < 1`, the number
`⌈log (mn / s) / log (1 - a)⌉` is the first `k` with `s * (1 - a) ^ k ≤ mn`. -/
theorem cooling_count_real (s mn a : ℝ) (hmn : 0 < mn) (hs : mn < s) (h0 : 0 < a)
    (h1 : a < 1) :
    (∀ k : ℕ, k < ⌈Real.log (mn / s) / Real.log (1 - a)⌉₊ → mn < s * (1 - a) ^ k) ∧
      s * (1 - a) ^ ⌈Real.log (mn / s) / Real.log (1 - a)⌉₊ ≤ mn := by
  have hspos : 0 < s := lt_trans hmn hs
  have hq0 : 0 < 1 - a := by linarith
  have hq1 : 1 - a < 1 := by linarith
  have hL : Real.log (1 - a) < 0 := Real.log_neg hq0 hq1
  have hr0 : 0 < mn / s := div_pos hmn hspos
  constructor
  · intro k hk
    have hk' : (k : ℝ) < Real.log (mn / s) / Real.log (1 - a) := Nat.lt_ceil.mp hk
    have h2 : Real.log (mn / s) < k * Real.log (1 - a) := by
      rw [lt_div_iff_of_neg hL] at hk'
      exact hk'
    rw [← Real.log_pow] at h2
    have h3 : mn / s < (1 - a) ^ k := (Real.log_lt_log_iff hr0 (pow_pos hq0 k)).mp h2
    rw [div_lt_iff₀ hspos] at h3
    linarith
  · have hN : Real.log (mn / s) / Real.log (1 - a) ≤
        (⌈Real.log (mn / s) / Real.log (1 - a)⌉₊ : ℝ) := Nat.le_ceil _
    have h2 : (⌈Real.log (mn / s) / Real.log (1 - a)⌉₊ : ℝ) * Real.log (1 - a) ≤
        Real.log (mn / s) := by
      rw [div_le_iff_of_neg hL] at hN
      exact hN
    rw [← Real.log_pow] at h2
    have h3 : (1 - a) ^ ⌈Real.log (mn / s) / Real.log (1 - a)⌉₊ ≤ mn / s :=
      (Real.log_le_log_iff (pow_pos hq0 _) hr0).mp h2
    rw [le_div_iff₀ hspos] at h3
    linarith

section
variable {Track Task Candidate Rng : Type}

/-- The run of `Optimize` on an optimizer whose temperature falls to
`minTemperature` after exactly `n` cooling steps: it returns whenever the fuel
is at least `n`, always with the same outcome, after `n` iterations. -/
theorem Optimize_count (E : Collaborators Track Task Candidate Rng)
    (sa : simAnnealingOptimizer Track Task Candidate) (track : Track) (nPoints : Int)
    (score : Task → ℚ) (rng : Rng) (n : Nat)
    (hlt : ∀ k, k < n → sa.minTemperature < sa.currentTemperature * (1 - sa.alpha) ^ k)
    (hle : sa.currentTemperature * (1 - sa.alpha) ^ n ≤ sa.minTemperature) :
    ∃ o, (∀ fuel, n ≤ fuel → Optimize E fuel sa track nPoints score rng = some o) ∧
      iterations o = n ∧
      o.final.sa.currentTemperature = sa.currentTemperature * (1 - sa.alpha) ^ n ∧
      o.final.sa.minTemperature = sa.minTemperature ∧ o.final.sa.alpha = sa.alpha := by
  obtain ⟨r, hr, hlen, hT, hmin, hal⟩ := loop_count E score n
    (entry E sa track nPoints score rng) (entry_score E sa track nPoints score rng) hlt hle
  refine ⟨{ task := E.task r.sa.best, err := none, final := r }, ?_, ?_, hT, hmin, hal⟩
  · intro fuel hfuel
    rw [Optimize_eq, loop_fuel_mono E n fuel _ r hr hfuel]
    rfl
  · show r.log.Temperature.length - 1 = n
    rw [hlen]
    show 1 + n - 1 = n
    omega

/-- Two returning runs from the same state agree, whatever their fuel. -/
theorem Optimize_fuel_irrelevant (E : Collaborators Track Task Candidate Rng)
    (sa : simAnnealingOptimizer Track Task Candidate) (track : Track) (nPoints : Int)
    (score : Task → ℚ) (rng : Rng) (fuel fuel' : Nat) (o o' : Outcome Track Task Candidate Rng)
    (h : Optimize E fuel sa track nPoints score rng = some o)
    (h' : Optimize E fuel' sa track nPoints score rng = some o') : o = o' := by
  have hl := (Optimize_some E fuel sa track nPoints score rng o h).1
  have hl' := (Optimize_some E fuel' sa track nPoints score rng o' h').1
  have e1 := loop_fuel_mono E fuel (max fuel fuel') _ _ hl (le_max_left _ _)
  have e2 := loop_fuel_mono E fuel' (max fuel fuel') _ _ hl' (le_max_right _ _)
  rw [e1, Option.some.injEq] at e2
  rw [Optimize_eq, hl] at h
  rw [Optimize_eq, hl'] at h'
  simp only [Option.map_some', Option.some.injEq] at h h'
  rw [← h, ← h', e2]

end

/-- A temperature that reaches `mn` after some number of cooling steps has a
first such step. -/
theorem exists_first_cool (t mn a : ℚ) (h : ∃ n : ℕ, t * (1 - a) ^ n ≤ mn) :
    ∃ n : ℕ, (∀ k, k < n → mn < t * (1 - a) ^ k) ∧ t * (1 - a) ^ n ≤ mn := by
  classical
  refine ⟨Nat.find h, ?_, Nat.find_spec h⟩
  intro k hk
  exact not_le.mp (Nat.find_min h hk)

/-- Geometric cooling with any `a > 0` brings a temperature to a positive floor. -/
theorem cooling_reaches_min (t mn a : ℚ) (hmn : 0 < mn) (ha : 0 < a) :
    ∃ n : ℕ, t * (1 - a) ^ n ≤ mn := by
  rcases le_or_lt t 0 with ht | ht
  · exact ⟨0, by simpa using le_trans ht (le_of_lt hmn)⟩
  rcases lt_or_le a 1 with h1 | h1
  · have hq0 : 0 ≤ 1 - a := by linarith
    have hq1 : 1 - a < 1 := by linarith
    obtain ⟨n, hn⟩ := exists_pow_lt_of_lt_one (div_pos hmn ht) hq1
    refine ⟨n, ?_⟩
    rw [lt_div_iff₀ ht] at hn
    linarith
  · refine ⟨1, ?_⟩
    have : t * (1 - a) ≤ 0 := mul_nonpos_of_nonneg_of_nonpos (le_of_lt ht) (by linarith)
    simpa using le_trans this (le_of_lt hmn)

/-! ### The run log -/

/-- Extending a chain whose last element is `a` by an element related to `a`. -/
theorem chain_snoc {α : Type} (R : α → α → Prop) (x : α) (l : List α) (a b : α)
    (hc : List.Chain' R (x :: l)) (hlast : (x :: l).getLast? = some a) (hr : R a b) :
    List.Chain' R (x :: (l ++ [b])) ∧ (x :: (l ++ [b])).getLast? = some b := by
  rw [← List.cons_append]
  refine ⟨List.Chain'.append hc (List.chain'_singleton b) ?_, List.getLast?_concat _⟩
  intro y hy z hz
  rw [hlast] at hy
  cases hy
  simp only [List.head?_cons, Option.mem_def, Option.some.injEq] at hz
  rw [← hz]
  exact hr

section
variable {Track Task Candidate Rng : Type}

/-- The `Bests` log after the placeholder, headed by the initial candidate, is a
chain in which the score never decreases and a changed best scores strictly
higher; its last entry is the current best. -/
theorem loop_bests (E : Collaborators Track Task Candidate Rng) (score : Task → ℚ)
    (c0 : Candidate) (fuel : Nat) (m r : Machine Track Task Candidate Rng)
    (hs : m.sa.score = some score)
    (hc : List.Chain'
      (fun a b => score (E.task a) ≤ score (E.task b) ∧
        (b ≠ a → score (E.task a) < score (E.task b)))
      (c0 :: m.log.Bests.tail))
    (hlast : (c0 :: m.log.Bests.tail).getLast? = some m.sa.best)
    (hne : m.log.Bests ≠ [])
    (hl : loop E fuel m = some r) :
    List.Chain'
      (fun a b => score (E.task a) ≤ score (E.task b) ∧
        (b ≠ a → score (E.task a) < score (E.task b)))
      (c0 :: r.log.Bests.tail) ∧
    (c0 :: r.log.Bests.tail).getLast? = some r.sa.best := by
  have inv := loop_invariant E
    (fun m => m.sa.score = some score ∧
      List.Chain'
        (fun a b => score (E.task a) ≤ score (E.task b) ∧
          (b ≠ a → score (E.task a) < score (E.task b)))
        (c0 :: m.log.Bests.tail) ∧
      (c0 :: m.log.Bests.tail).getLast? = some m.sa.best ∧ m.log.Bests ≠ [])
    (by
      rintro m m' ⟨hs, hc, hlast, hne⟩ _ hbody
      obtain ⟨m'', hb'', hs', _, _, _, hbest, _, _, _, hB, _⟩ := body_of_score E m score hs
      rw [hbody, Option.some.injEq] at hb''
      subst hb''
      have hr : score (E.task m.sa.best) ≤ score (E.task m'.sa.best) ∧
          (m'.sa.best ≠ m.sa.best → score (E.task m.sa.best) < score (E.task m'.sa.best)) := by
        rw [hbest]
        by_cases hx : score (E.task (nextCandidate E m)) > score (E.task m.sa.best)
        · rw [if_pos hx]
          exact ⟨le_of_lt hx, fun _ => hx⟩
        · rw [if_neg hx]
          exact ⟨le_refl _, fun hne => absurd rfl hne⟩
      have := chain_snoc _ c0 m.log.Bests.tail m.sa.best m'.sa.best hc hlast hr
      rw [hB, List.tail_append_of_ne_nil hne]
      exact ⟨hs', this.1, this.2, by simp⟩)
    fuel m r ⟨hs, hc, hlast, hne⟩ hl
  exact ⟨inv.1.2.1, inv.1.2.2.1⟩

/-- With `0 ≤ minTemperature` and `alpha` in `(0, 1)`, the `Temperature` log
after the placeholder, headed by the temperature on entry, is a chain in which
every entry is strictly below its predecessor and strictly positive; its last
entry is the current temperature. -/
theorem loop_temperatures (E : Collaborators Track Task Candidate Rng) (score : Task → ℚ)
    (t0 : ℚ) (fuel : Nat) (m r : Machine Track Task Candidate Rng)
    (hs : m.sa.score = some score)
    (hmin : 0 ≤ m.sa.minTemperature) (h0 : 0 < m.sa.alpha) (h1 : m.sa.alpha < 1)
    (hc : List.Chain' (fun a b : ℚ => b < a ∧ 0 < b) (t0 :: m.log.Temperature.tail))
    (hlast : (t0 :: m.log.Temperature.tail).getLast? = some m.sa.currentTemperature)
    (hne : m.log.Temperature ≠ [])
    (hl : loop E fuel m = some r) :
    List.Chain' (fun a b : ℚ => b < a ∧ 0 < b) (t0 :: r.log.Temperature.tail) ∧
    (t0 :: r.log.Temperature.tail).getLast? = some r.sa.currentTemperature := by
  have inv := loop_invariant E
    (fun m => m.sa.score = some score ∧
      (0 ≤ m.sa.minTemperature ∧ 0 < m.sa.alpha ∧ m.sa.alpha < 1) ∧
      List.Chain' (fun a b : ℚ => b < a ∧ 0 < b) (t0 :: m.log.Temperature.tail) ∧
      (t0 :: m.log.Temperature.tail).getLast? = some m.sa.currentTemperature ∧
      m.log.Temperature ≠ [])
    (by
      rintro m m' ⟨hs, ⟨hmin, h0, h1⟩, hc, hlast, hne⟩ hg hbody
      obtain ⟨m'', hb'', hs', hmin', hal', hT, _, _, _, _, _, hlog⟩ :=
        body_of_score E m score hs
      rw [hbody, Option.some.injEq] at hb''
      subst hb''
      have hpos : 0 < m.sa.currentTemperature := lt_of_le_of_lt hmin hg
      have hr : m'.sa.currentTemperature < m.sa.currentTemperature ∧
          0 < m'.sa.currentTemperature := by
        rw [hT]
        constructor
        · nlinarith
        · exact mul_pos hpos (by linarith)
      have := chain_snoc _ t0 m.log.Temperature.tail m.sa.currentTemperature
        m'.sa.currentTemperature hc hlast hr
      rw [hlog, List.tail_append_of_ne_nil hne]
      refine ⟨hs', ⟨?_, ?_, ?_⟩, this.1, this.2, by simp⟩
      · rw [hmin']; exact hmin
      · rw [hal']; exact h0
      · rw [hal']; exact h1)
    fuel m r ⟨hs, ⟨hmin, h0, h1⟩, hc, hlast, hne⟩ hl
  exact ⟨inv.1.2.2.1, inv.1.2.2.2.1⟩

end

section
variable {Track Task Candidate Rng : Type}

/-- The three sequences of the log grow together. -/
theorem loop_log_lengths (E : Collaborators Track Task Candidate Rng) (score : Task → ℚ)
    (fuel : Nat) (m r : Machine Track Task Candidate Rng)
    (hs : m.sa.score = some score)
    (hC : m.log.Candidates.length = m.log.Temperature.length)
    (hB : m.log.Bests.length = m.log.Temperature.length)
    (hl : loop E fuel m = some r) :
    r.log.Candidates.length = r.log.Temperature.length ∧
      r.log.Bests.length = r.log.Temperature.length := by
  have inv := loop_invariant E
    (fun m => m.sa.score = some score ∧
      m.log.Candidates.length = m.log.Temperature.length ∧
      m.log.Bests.length = m.log.Temperature.length)
    (by
      rintro m m' ⟨hs, hC, hB⟩ _ hbody
      obtain ⟨m'', hb'', hs', _, _, _, _, _, _, hlC, hlB, hlT⟩ := body_of_score E m score hs
      rw [hbody, Option.some.injEq] at hb''
      subst hb''
      refine ⟨hs', ?_, ?_⟩
      · rw [hlC, hlT, List.length_append, List.length_append, hC]
        rfl
      · rw [hlB, hlT, List.length_append, List.length_append, hB]
        rfl)
    fuel m r ⟨hs, hC, hB⟩ hl
  exact inv.1.2

/-- When `Optimize` returns, the temperature of the receiver is at or below the floor. -/
theorem Optimize_final_cold (E : Collaborators Track Task Candidate Rng) (fuel : Nat)
    (sa : simAnnealingOptimizer Track Task Candidate) (track : Track) (nPoints : Int)
    (score : Task → ℚ) (rng : Rng) (o : Outcome Track Task Candidate Rng)
    (h : Optimize E fuel sa track nPoints score rng = some o) :
    o.final.sa.currentTemperature ≤ o.final.sa.minTemperature := by
  have hl := (Optimize_some E fuel sa track nPoints score rng o h).1
  have inv := loop_invariant E (fun _ => True) (fun _ _ _ _ _ => trivial) fuel _ _ trivial hl
  exact not_lt.mp inv.2

/-- A call of `Optimize` on an optimizer whose temperature is at or below the
floor returns, whatever the fuel, without executing the loop body. -/
theorem Optimize_cold (E : Collaborators Track Task Candidate Rng) (fuel : Nat)
    (sa : simAnnealingOptimizer Track Task Candidate) (track : Track) (nPoints : Int)
    (score : Task → ℚ) (rng : Rng) (h : sa.currentTemperature ≤ sa.minTemperature) :
    Optimize E fuel sa track nPoints score rng =
      some { task := E.task (initialCandidate E track nPoints rng), err := none,
             final := entry E sa track nPoints score rng } := by
  rw [Optimize_eq, loop_stop E fuel (entry E sa track nPoints score rng) (not_lt.mpr h)]
  rfl

end

/-! ### Further facts on cooling -/

/-- With a cooling factor in `[0, 1]` and a non-negative temperature, a
temperature still above the floor after `n` steps was above it at every earlier step. -/
theorem cooling_above_before (t mn a : ℚ) (n : ℕ) (ht : 0 ≤ t) (h0 : 0 ≤ a) (h1 : a ≤ 1)
    (h : mn < t * (1 - a) ^ n) : ∀ k, k ≤ n → mn < t * (1 - a) ^ k := by
  intro k hk
  have hq0 : 0 ≤ 1 - a := by linarith
  have hq1 : 1 - a ≤ 1 := by linarith
  have hp : (1 - a) ^ n ≤ (1 - a) ^ k := pow_le_pow_of_le_one hq0 hq1 hk
  exact lt_of_lt_of_le h (mul_le_mul_of_nonneg_left hp ht)

/-- The first step at which the temperature reaches the floor is no later than
any step at which it has. -/
theorem exists_first_cool_le (t mn a : ℚ) (n : ℕ) (h : t * (1 - a) ^ n ≤ mn) :
    ∃ n' : ℕ, n' ≤ n ∧ (∀ k, k < n' → mn < t * (1 - a) ^ k) ∧ t * (1 - a) ^ n' ≤ mn := by
  classical
  have hex : ∃ n : ℕ, t * (1 - a) ^ n ≤ mn := ⟨n, h⟩
  refine ⟨Nat.find hex, Nat.find_min' hex h, ?_, Nat.find_spec hex⟩
  intro k hk
  exact not_le.mp (Nat.find_min hex hk)

/-! ### The move decision -/

theorem mathE_pos : (0 : ℚ) < mathE := by
  unfold mathE
  norm_num

section
variable {Track Task Candidate Rng : Type}

/-- At a positive temperature and with a draw in `[0, 1)`, the move is accepted
exactly when the neighbour scores strictly less than the current candidate. -/
theorem moveAccepted_iff (E : Collaborators Track Task Candidate Rng)
    (m : Machine Track Task Candidate Rng) (score : Task → ℚ)
    (hs : m.sa.score = some score) (hT : 0 < m.sa.currentTemperature)
    (hr0 : 0 ≤ nextDraw E m) (hr1 : nextDraw E m < 1) :
    moveAccepted E m = true ↔
      score (E.task (nextCandidate E m)) < score (E.task m.sa.candidate) := by
  unfold moveAccepted
  rw [acceptanceProb_of_score E m.sa _ score hs]
  by_cases hd : score (E.task m.sa.candidate) - score (E.task (nextCandidate E m)) > 0
  · simp only [if_pos hd, decide_eq_true_eq]
    constructor
    · intro _
      linarith
    · intro _
      exact hr1
  · simp only [if_neg hd, decide_eq_true_eq]
    have hq : (score (E.task m.sa.candidate) - score (E.task (nextCandidate E m))) /
        m.sa.currentTemperature ≤ 0 :=
      div_nonpos_of_nonpos_of_nonneg (not_lt.mp hd) (le_of_lt hT)
    have hp : mathE * ((score (E.task m.sa.candidate) -
        score (E.task (nextCandidate E m))) / m.sa.currentTemperature) ≤ 0 :=
      mul_nonpos_of_nonneg_of_nonpos (le_of_lt mathE_pos) hq
    constructor
    · intro h
      linarith
    · intro h
      exact absurd (by linarith) hd

/-- The current candidate after an iteration, in terms of the move decision. -/
theorem body_candidate (E : Collaborators Track Task Candidate Rng)
    (m : Machine Track Task Candidate Rng) (score : Task → ℚ)
    (hs : m.sa.score = some score) :
    ∃ m', body E m = some m' ∧
      m'.sa.candidate = (if moveAccepted E m = true then nextCandidate E m else m.sa.candidate) := by
  obtain ⟨m', hb, _, _, _, _, _, hc, _⟩ := body_of_score E m score hs
  refine ⟨m', hb, ?_⟩
  rw [hc]
  unfold moveAccepted
  rw [acceptanceProb_of_score E m.sa _ score hs]
  simp only [decide_eq_true_eq]

end

/-! ### The states of a run, iteration by iteration -/

section
variable {Track Task Candidate Rng : Type}

theorem runBody_succ (E : Collaborators Track Task Candidate Rng) (k : Nat)
    (m : Machine Track Task Candidate Rng) :
    runBody E (k + 1) m = (runBody E k m).bind (body E) := rfl

/-- Executing `k + 1` iterations is executing one and then `k`. -/
theorem runBody_succ_head (E : Collaborators Track Task Candidate Rng) :
    ∀ (k : Nat) (m : Machine Track Task Candidate Rng),
      runBody E (k + 1) m = (body E m).bind (runBody E k) := by
  intro k
  induction k with
  | zero =>
    intro m
    show body E m = (body E m).bind (runBody E 0)
    cases body E m <;> rfl
  | succ k ih =>
    intro m
    rw [runBody_succ E (k + 1) m, ih m]
    cases hb : body E m with
    | none => rfl
    | some m' =>
      show (runBody E k m').bind (body E) = runBody E (k + 1) m'
      rfl

/-- A run of the loop that returns is a number `n` of executions of the body,
the guard being true before each of them and false after the last. -/
theorem loop_eq_runBody (E : Collaborators Track Task Candidate Rng) :
    ∀ (fuel : Nat) (m r : Machine Track Task Candidate Rng), loop E fuel m = some r →
      ∃ n : Nat, runBody E n m = some r ∧
        (∀ k, k < n → ∃ mk, runBody E k m = some mk ∧
          mk.sa.currentTemperature > mk.sa.minTemperature) ∧
        ¬ r.sa.currentTemperature > r.sa.minTemperature := by
  intro fuel
  induction fuel with
  | zero =>
    intro m r hl
    by_cases hg : m.sa.currentTemperature > m.sa.minTemperature
    · simp [loop, hg] at hl
    · rw [loop_stop E _ m hg, Option.some.injEq] at hl
      subst hl
      exact ⟨0, rfl, fun k hk => absurd hk (Nat.not_lt_zero k), hg⟩
  | succ fuel ih =>
    intro m r hl
    by_cases hg : m.sa.currentTemperature > m.sa.minTemperature
    · rw [loop_step E fuel m hg] at hl
      cases hb : body E m with
      | none => simp [hb] at hl
      | some m' =>
        rw [hb] at hl
        obtain ⟨n, hn, hk, hr⟩ := ih m' r hl
        refine ⟨n + 1, ?_, ?_, hr⟩
        · rw [runBody_succ_head, hb]
          exact hn
        · intro k hkn
          cases k with
          | zero => exact ⟨m, rfl, hg⟩
          | succ j =>
            obtain ⟨mk, hmk, hgk⟩ := hk j (by omega)
            refine ⟨mk, ?_, hgk⟩
            rw [runBody_succ_head, hb]
            exact hmk
    · rw [loop_stop E _ m hg, Option.some.injEq] at hl
      subst hl
      exact ⟨0, rfl, fun k hk => absurd hk (Nat.not_lt_zero k), hg⟩

/-- With a score installed the body can be executed any number of times; the
temperature is cooled once per execution and each log grows by one entry. -/
theorem runBody_of_score (E : Collaborators Track Task Candidate Rng)
    (m : Machine Track Task Candidate Rng) (f : Task → ℚ) (hs : m.sa.score = some f) :
    ∀ n : Nat, ∃ r, runBody E n m = some r ∧ r.sa.score = some f ∧
      r.sa.currentTemperature = m.sa.currentTemperature * (1 - m.sa.alpha) ^ n ∧
      r.sa.alpha = m.sa.alpha ∧ r.sa.minTemperature = m.sa.minTemperature ∧
      r.log.Candidates.length = m.log.Candidates.length + n ∧
      r.log.Bests.length = m.log.Bests.length + n ∧
      r.log.Temperature.length = m.log.Temperature.length + n ∧
      r.generated.length = m.generated.length + n := by
  intro n
  induction n with
  | zero => exact ⟨m, rfl, hs, by simp, rfl, rfl, rfl, rfl, rfl, rfl⟩
  | succ n ih =>
    obtain ⟨r, hr, hrs, hT, hal, hmin, hC, hB, hTl, hG⟩ := ih
    obtain ⟨r', hb, hs', hmin', hal', hT', _, _, hgen, hlC, hlB, hlT⟩ :=
      body_of_score E r f hrs
    refine ⟨r', ?_, hs', ?_, ?_, ?_, ?_, ?_, ?_, ?_⟩
    · rw [runBody_succ, hr]
      exact hb
    · rw [hT', hT, hal, pow_succ, mul_assoc]
    · rw [hal', hal]
    · rw [hmin', hmin]
    · rw [hlC, List.length_append, hC]
      rfl
    · rw [hlB, List.length_append, hB]
      rfl
    · rw [hlT, List.length_append, hTl]
      rfl
    · rw [hgen, List.length_append, hG]
      rfl

/-- Later iterations leave the entries already in the log as they are. -/
theorem runBody_log_stable (E : Collaborators Track Task Candidate Rng)
    (m : Machine Track Task Candidate Rng) (f : Task → ℚ) (hs : m.sa.score = some f)
    (k : Nat) (mk : Machine Track Task Candidate Rng) (hk : runBody E k m = some mk) :
    ∀ (j : Nat) (r : Machine Track Task Candidate Rng), runBody E (k + j) m = some r →
      (∀ i, i < mk.log.Candidates.length → r.log.Candidates[i]? = mk.log.Candidates[i]?) ∧
      (∀ i, i < mk.log.Bests.length → r.log.Bests[i]? = mk.log.Bests[i]?) ∧
      (∀ i, i < mk.log.Temperature.length →
        r.log.Temperature[i]? = mk.log.Temperature[i]?) := by
  intro j
  induction j with
  | zero =>
    intro r hr
    rw [Nat.add_zero, hk, Option.some.injEq] at hr
    subst hr
    exact ⟨fun _ _ => rfl, fun _ _ => rfl, fun _ _ => rfl⟩
  | succ j ih =>
    intro r hr
    obtain ⟨p, hp, hps, _, _, _, hC, hB, hT, _⟩ := runBody_of_score E m f hs (k + j)
    obtain ⟨hkC, hkB, hkT⟩ := ih p hp
    obtain ⟨_, hkc, _, _, _, _, hlC, hlB, hlT, _⟩ := runBody_of_score E m f hs k
    rw [hk, Option.some.injEq] at hkc
    subst hkc
    rw [← Nat.add_assoc, runBody_succ, hp] at hr
    obtain ⟨r', hb, _, _, _, _, _, _, _, hrC, hrB, hrT⟩ := body_of_score E p f hps
    rw [show (some p).bind (body E) = body E p from rfl, hb, Option.some.injEq] at hr
    subst hr
    refine ⟨?_, ?_, ?_⟩
    · intro i hi
      rw [hrC, List.getElem?_append_left (by omega)]
      exact hkC i hi
    · intro i hi
      rw [hrB, List.getElem?_append_left (by omega)]
      exact hkB i hi
    · intro i hi
      rw [hrT, List.getElem?_append_left (by omega)]
      exact hkT i hi

/-- After at least one iteration, the last entry of each log is the current
value of what it records. -/
theorem runBody_log_last (E : Collaborators Track Task Candidate Rng)
    (m : Machine Track Task Candidate Rng) (f : Task → ℚ) (hs : m.sa.score = some f)
    (k : Nat) (r : Machine Track Task Candidate Rng) (hr : runBody E (k + 1) m = some r) :
    r.log.Candidates[m.log.Candidates.length + k]? = some r.sa.candidate ∧
      r.log.Bests[m.log.Bests.length + k]? = some r.sa.best ∧
      r.log.Temperature[m.log.Temperature.length + k]? = some r.sa.currentTemperature := by
  obtain ⟨p, hp, hps, _, _, _, hC, hB, hT, _⟩ := runBody_of_score E m f hs k
  rw [runBody_succ, hp] at hr
  obtain ⟨r', hb, _, _, _, _, _, _, _, hrC, hrB, hrT⟩ := body_of_score E p f hps
  rw [show (some p).bind (body E) = body E p from rfl, hb, Option.some.injEq] at hr
  subst hr
  refine ⟨?_, ?_, ?_⟩
  · rw [hrC, ← hC, List.getElem?_append_right (le_refl _)]
    simp
  · rw [hrB, ← hB, List.getElem?_append_right (le_refl _)]
    simp
  · rw [hrT, ← hT, List.getElem?_append_right (le_refl _)]
    simp

end

section
variable {Track Task Candidate Rng : Type}

/-- A returning call of `Optimize` is a number of executions of the loop body
from the entry state, the guard being true before each; that number is the
number of iterations, of generated neighbours, and of entries each log holds
after its placeholder. -/
theorem Optimize_trace (E : Collaborators Track Task Candidate Rng) (fuel : Nat)
    (sa : simAnnealingOptimizer Track Task Candidate) (track : Track) (nPoints : Int)
    (score : Task → ℚ) (rng : Rng) (o : Outcome Track Task Candidate Rng)
    (h : Optimize E fuel sa track nPoints score rng = some o) :
    runBody E (iterations o) (entry E sa track nPoints score rng) = some o.final ∧
      (∀ k, k < iterations o → ∃ mk, runBody E k (entry E sa track nPoints score rng) = some mk ∧
        mk.sa.currentTemperature > mk.sa.minTemperature) ∧
      o.final.generated.length = iterations o ∧
      o.final.log.Candidates.length = iterations o + 1 ∧
      o.final.log.Bests.length = iterations o + 1 ∧
      o.final.log.Temperature.length = iterations o + 1 := by
  obtain ⟨hl, _, _⟩ := Optimize_some E fuel sa track nPoints score rng o h
  obtain ⟨n, hn, hg, _⟩ := loop_eq_runBody E fuel _ _ hl
  obtain ⟨r, hr, _, _, _, _, hC, hB, hT, hG⟩ := runBody_of_score E
    (entry E sa track nPoints score rng) score (entry_score E sa track nPoints score rng) n
  rw [hn, Option.some.injEq] at hr
  subst hr
  have hit : iterations o = n := by
    unfold iterations
    rw [hT]
    show 1 + n - 1 = n
    omega
  rw [hit]
  refine ⟨hn, hg, ?_, ?_, ?_, ?_⟩
  · rw [hG]
    show 0 + n = n
    omega
  · rw [hC]
    show 1 + n = n + 1
    omega
  · rw [hB]
    show 1 + n = n + 1
    omega
  · rw [hT]
    show 1 + n = n + 1
    omega

/-- At a positive temperature and with a draw in `[0, 1)`, an iteration never
raises the score of the current candidate, and lowers it exactly when the move
is accepted. -/
theorem body_current_score (E : Collaborators Track Task Candidate Rng)
    (m m' : Machine Track Task Candidate Rng) (score : Task → ℚ)
    (hs : m.sa.score = some score) (hT : 0 < m.sa.currentTemperature)
    (hr0 : 0 ≤ nextDraw E m) (hr1 : nextDraw E m < 1) (hb : body E m = some m') :
    score (E.task m'.sa.candidate) ≤ score (E.task m.sa.candidate) ∧
      (score (E.task m'.sa.candidate) < score (E.task m.sa.candidate) ↔
        moveAccepted E m = true) := by
  obtain ⟨m'', hb', hc⟩ := body_candidate E m score hs
  rw [hb, Option.some.injEq] at hb'
  subst hb'
  have hiff := moveAccepted_iff E m score hs hT hr0 hr1
  by_cases ha : moveAccepted E m = true
  · rw [hc, if_pos ha]
    exact ⟨le_of_lt (hiff.mp ha), fun _ => ha, fun _ => hiff.mp ha⟩
  · rw [hc, if_neg ha]
    exact ⟨le_refl _, fun h => absurd h (lt_irrefl _), fun h => absurd h ha⟩

/-- While the guard has been true before every iteration so far, the current
candidate scores no more than the one the run started from. -/
theorem runBody_current_le (E : Collaborators Track Task Candidate Rng)
    (m : Machine Track Task Candidate Rng) (score : Task → ℚ)
    (hs : m.sa.score = some score) (hmin : 0 ≤ m.sa.minTemperature)
    (hdraw : ∀ g : Rng, 0 ≤ (E.float64 g).1 ∧ (E.float64 g).1 < 1) :
    ∀ (n : Nat) (r : Machine Track Task Candidate Rng), runBody E n m = some r →
      (∀ k, k < n → ∃ mk, runBody E k m = some mk ∧
        mk.sa.currentTemperature > mk.sa.minTemperature) →
      score (E.task r.sa.candidate) ≤ score (E.task m.sa.candidate) := by
  intro n
  induction n with
  | zero =>
    intro r hr _
    rw [show runBody E 0 m = some m from rfl, Option.some.injEq] at hr
    rw [← hr]
  | succ n ih =>
    intro r hr hg
    obtain ⟨p, hp, hps, _, _, hpmin, _⟩ := runBody_of_score E m score hs n
    obtain ⟨p', hp', hgp⟩ := hg n (Nat.lt_succ_self n)
    rw [hp, Option.some.injEq] at hp'
    subst hp'
    rw [runBody_succ, hp] at hr
    have hT : 0 < p.sa.currentTemperature := by
      rw [hpmin] at hgp
      exact lt_of_le_of_lt hmin hgp
    have hstep := body_current_score E p r score hps hT (hdraw _).1 (hdraw _).2 hr
    exact le_trans hstep.1 (ih p hp (fun k hk => hg k (by omega)))

end

section
variable {Track Task Candidate Rng : Type}

/-- Entry `k ≥ 1` of each log of a returning run records the state the `k`-th
iteration leaves. -/
theorem Optimize_log_entry (E : Collaborators Track Task Candidate Rng) (fuel : Nat)
    (sa : simAnnealingOptimizer Track Task Candidate) (track : Track) (nPoints : Int)
    (score : Task → ℚ) (rng : Rng) (o : Outcome Track Task Candidate Rng)
    (h : Optimize E fuel sa track nPoints score rng = some o) (j : Nat)
    (hj : j + 1 ≤ iterations o) :
    ∃ mk : Machine Track Task Candidate Rng,
      runBody E (j + 1) (entry E sa track nPoints score rng) = some mk ∧
      mk.sa.currentTemperature = sa.currentTemperature * (1 - sa.alpha) ^ (j + 1) ∧
      o.final.log.Candidates[j + 1]? = some mk.sa.candidate ∧
      o.final.log.Bests[j + 1]? = some mk.sa.best ∧
      o.final.log.Temperature[j + 1]? = some mk.sa.currentTemperature := by
  obtain ⟨hrun, _, _, _, _, _⟩ := Optimize_trace E fuel sa track nPoints score rng o h
  have hes := entry_score E sa track nPoints score rng
  obtain ⟨mk, hmk, _, hT, _, _, hC, hB, hTl, _⟩ := runBody_of_score E
    (entry E sa track nPoints score rng) score hes (j + 1)
  obtain ⟨d, hd⟩ : ∃ d, iterations o = j + 1 + d := ⟨iterations o - (j + 1), by omega⟩
  have hst := runBody_log_stable E (entry E sa track nPoints score rng) score hes (j + 1) mk
    hmk d o.final (by rw [← hd]; exact hrun)
  have hlast := runBody_log_last E (entry E sa track nPoints score rng) score hes j mk hmk
  have eC : (entry E sa track nPoints score rng).log.Candidates.length + j = j + 1 := by
    show 1 + j = j + 1
    omega
  have eB : (entry E sa track nPoints score rng).log.Bests.length + j = j + 1 := by
    show 1 + j = j + 1
    omega
  have eT : (entry E sa track nPoints score rng).log.Temperature.length + j = j + 1 := by
    show 1 + j = j + 1
    omega
  rw [eC, eB, eT] at hlast
  refine ⟨mk, hmk, hT, ?_, ?_, ?_⟩
  · rw [hst.1 (j + 1) (by rw [hC]; show j + 1 < 1 + (j + 1); omega), hlast.1]
  · rw [hst.2.1 (j + 1) (by rw [hB]; show j + 1 < 1 + (j + 1); omega), hlast.2.1]
  · rw [hst.2.2 (j + 1) (by rw [hTl]; show j + 1 < 1 + (j + 1); omega), hlast.2.2]

end

/-! ### The loop with rounded cooling -/

section
variable {Track Task Candidate Rng : Type}

/-- With exact arithmetic the cooling statement multiplies by `1 - alpha`. -/
theorem cool_id (alpha T : ℚ) : cool id alpha T = T * (1 - alpha) := rfl

theorem bodyR_id (E : Collaborators Track Task Candidate Rng)
    (m : Machine Track Task Candidate Rng) : bodyR id E m = body E m := rfl

theorem loopR_id (E : Collaborators Track Task Candidate Rng) :
    ∀ (fuel : Nat) (m : Machine Track Task Candidate Rng), loopR id E fuel m = loop E fuel m := by
  intro fuel
  induction fuel with
  | zero => intro m; rfl
  | succ fuel ih =>
    intro m
    show (if m.sa.currentTemperature > m.sa.minTemperature then
        (bodyR id E m).bind (loopR id E fuel) else some m) =
      (if m.sa.currentTemperature > m.sa.minTemperature then
        (body E m).bind (loop E fuel) else some m)
    rw [bodyR_id, show loopR id E fuel = loop E fuel from funext ih]

theorem OptimizeR_id (E : Collaborators Track Task Candidate Rng) (fuel : Nat)
    (sa : simAnnealingOptimizer Track Task Candidate) (track : Track) (nPoints : Int)
    (score : Task → ℚ) (rng : Rng) :
    OptimizeR id E fuel sa track nPoints score rng = Optimize E fuel sa track nPoints score rng := by
  simp only [OptimizeR, Optimize, loopR_id]

theorem runBodyR_id (E : Collaborators Track Task Candidate Rng) :
    ∀ (k : Nat) (m : Machine Track Task Candidate Rng), runBodyR id E k m = runBody E k m := by
  intro k
  induction k with
  | zero => intro m; rfl
  | succ k ih =>
    intro m
    show (runBodyR id E k m).bind (bodyR id E) = (runBody E k m).bind (body E)
    rw [ih m, show bodyR id E = body E from funext (bodyR_id E)]

/-- With a score installed the loop body succeeds, and this is the state it produces. -/
theorem bodyR_of_score (fl : ℚ → ℚ) (E : Collaborators Track Task Candidate Rng)
    (m : Machine Track Task Candidate Rng) (f : Task → ℚ) (h : m.sa.score = some f) :
    ∃ m', bodyR fl E m = some m' ∧
      m'.sa.score = some f ∧
      m'.sa.minTemperature = m.sa.minTemperature ∧
      m'.sa.alpha = m.sa.alpha ∧
      m'.sa.currentTemperature = cool fl m.sa.alpha m.sa.currentTemperature ∧
      m'.sa.best =
        (if f (E.task (nextCandidate E m)) > f (E.task m.sa.best) then nextCandidate E m
         else m.sa.best) ∧
      m'.sa.candidate =
        (if moveAccepted E m = true then nextCandidate E m else m.sa.candidate) ∧
      m'.generated = m.generated ++ [nextCandidate E m] ∧
      m'.log.Candidates = m.log.Candidates ++ [m'.sa.candidate] ∧
      m'.log.Bests = m.log.Bests ++ [m'.sa.best] ∧
      m'.log.Temperature = m.log.Temperature ++ [m'.sa.currentTemperature] := by
  simp only [bodyR, moveAccepted, nextCandidate, nextDraw, acceptanceProb_of_score E m.sa _ f h,
    decide_eq_true_eq]
  generalize (if f (E.task m.sa.candidate) - f (E.task (neighbour E m.sa m.rng).1) > 0 then (1 : ℚ)
            else mathE * ((f (E.task m.sa.candidate) - f (E.task (neighbour E m.sa m.rng).1)) /
              m.sa.currentTemperature)) = p
  by_cases h2 : p > (E.float64 (neighbour E m.sa m.rng).2).1 <;>
  by_cases h3 : f (E.task (neighbour E m.sa m.rng).1) > f (E.task m.sa.best) <;>
  simp [h, h2, h3]

theorem loopR_stop (fl : ℚ → ℚ) (E : Collaborators Track Task Candidate Rng) (fuel : Nat)
    (m : Machine Track Task Candidate Rng)
    (h : ¬ m.sa.currentTemperature > m.sa.minTemperature) : loopR fl E fuel m = some m := by
  cases fuel <;> simp [loopR, h]

theorem loopR_step (fl : ℚ → ℚ) (E : Collaborators Track Task Candidate Rng) (fuel : Nat)
    (m : Machine Track Task Candidate Rng)
    (h : m.sa.currentTemperature > m.sa.minTemperature) :
    loopR fl E (fuel + 1) m = (bodyR fl E m).bind (loopR fl E fuel) := by
  simp [loopR, h]

theorem loopR_zero (fl : ℚ → ℚ) (E : Collaborators Track Task Candidate Rng)
    (m : Machine Track Task Candidate Rng)
    (h : m.sa.currentTemperature > m.sa.minTemperature) : loopR fl E 0 m = none := by
  simp [loopR, h]

theorem OptimizeR_eq (fl : ℚ → ℚ) (E : Collaborators Track Task Candidate Rng) (fuel : Nat)
    (sa : simAnnealingOptimizer Track Task Candidate) (track : Track) (nPoints : Int)
    (score : Task → ℚ) (rng : Rng) :
    OptimizeR fl E fuel sa track nPoints score rng =
      (loopR fl E fuel (entry E sa track nPoints score rng)).map
        (fun m => { task := E.task m.sa.best, err := none, final := m }) := by
  simp only [OptimizeR, entry]
  cases loopR fl E fuel _ <;> rfl

/-- Unfolding of a successful call of `OptimizeR`. -/
theorem OptimizeR_some (fl : ℚ → ℚ) (E : Collaborators Track Task Candidate Rng) (fuel : Nat)
    (sa : simAnnealingOptimizer Track Task Candidate) (track : Track) (nPoints : Int)
    (score : Task → ℚ) (rng : Rng) (o : Outcome Track Task Candidate Rng)
    (h : OptimizeR fl E fuel sa track nPoints score rng = some o) :
    loopR fl E fuel (entry E sa track nPoints score rng) = some o.final ∧
      o.task = E.task o.final.sa.best ∧ o.err = none := by
  rw [OptimizeR_eq] at h
  cases hl : loopR fl E fuel (entry E sa track nPoints score rng) with
  | none => simp [hl] at h
  | some m =>
    simp only [hl, Option.map_some', Option.some.injEq] at h
    subst h
    exact ⟨rfl, rfl, rfl⟩

theorem runBodyR_succ (fl : ℚ → ℚ) (E : Collaborators Track Task Candidate Rng) (k : Nat)
    (m : Machine Track Task Candidate Rng) :
    runBodyR fl E (k + 1) m = (runBodyR fl E k m).bind (bodyR fl E) := rfl

/-- Executing `k + 1` iterations is executing one and then `k`. -/
theorem runBodyR_succ_head (fl : ℚ → ℚ) (E : Collaborators Track Task Candidate Rng) :
    ∀ (k : Nat) (m : Machine Track Task Candidate Rng),
      runBodyR fl E (k + 1) m = (bodyR fl E m).bind (runBodyR fl E k) := by
  intro k
  induction k with
  | zero =>
    intro m
    show bodyR fl E m = (bodyR fl E m).bind (runBodyR fl E 0)
    cases bodyR fl E m <;> rfl
  | succ k ih =>
    intro m
    rw [runBodyR_succ fl E (k + 1) m, ih m]
    cases hb : bodyR fl E m with
    | none => rfl
    | some m' =>
      show (runBodyR fl E k m').bind (bodyR fl E) = runBodyR fl E (k + 1) m'
      rfl

/-- A run of the loop that returns is a number `n` of executions of the body,
the guard being true before each of them and false after the last. -/
theorem loopR_eq_runBodyR (fl : ℚ → ℚ) (E : Collaborators Track Task Candidate Rng) :
    ∀ (fuel : Nat) (m r : Machine Track Task Candidate Rng), loopR fl E fuel m = some r →
      ∃ n : Nat, runBodyR fl E n m = some r ∧
        (∀ k, k < n → ∃ mk, runBodyR fl E k m = some mk ∧
          mk.sa.currentTemperature > mk.sa.minTemperature) ∧
        ¬ r.sa.currentTemperature > r.sa.minTemperature := by
  intro fuel
  induction fuel with
  | zero =>
    intro m r hl
    by_cases hg : m.sa.currentTemperature > m.sa.minTemperature
    · simp [loopR, hg] at hl
    · rw [loopR_stop fl E _ m hg, Option.some.injEq] at hl
      subst hl
      exact ⟨0, rfl, fun k hk => absurd hk (Nat.not_lt_zero k), hg⟩
  | succ fuel ih =>
    intro m r hl
    by_cases hg : m.sa.currentTemperature > m.sa.minTemperature
    · rw [loopR_step fl E fuel m hg] at hl
      cases hb : bodyR fl E m with
      | none => simp [hb] at hl
      | some m' =>
        rw [hb] at hl
        obtain ⟨n, hn, hk, hr⟩ := ih m' r hl
        refine ⟨n + 1, ?_, ?_, hr⟩
        · rw [runBodyR_succ_head, hb]
          exact hn
        · intro k hkn
          cases k with
          | zero => exact ⟨m, rfl, hg⟩
          | succ j =>
            obtain ⟨mk, hmk, hgk⟩ := hk j (by omega)
            refine ⟨mk, ?_, hgk⟩
            rw [runBodyR_succ_head, hb]
            exact hmk
    · rw [loopR_stop fl E _ m hg, Option.some.injEq] at hl
      subst hl
      exact ⟨0, rfl, fun k hk => absurd hk (Nat.not_lt_zero k), hg⟩

/-- With a score installed the body can be executed any number of times; the
temperature is cooled once per execution and each log grows by one entry. -/
theorem runBodyR_of_score (fl : ℚ → ℚ) (E : Collaborators Track Task Candidate Rng)
    (m : Machine Track Task Candidate Rng) (f : Task → ℚ) (hs : m.sa.score = some f) :
    ∀ n : Nat, ∃ r, runBodyR fl E n m = some r ∧ r.sa.score = some f ∧
      r.sa.currentTemperature = (cool fl m.sa.alpha)^[n] m.sa.currentTemperature ∧
      r.sa.alpha = m.sa.alpha ∧ r.sa.minTemperature = m.sa.minTemperature ∧
      r.log.Candidates.length = m.log.Candidates.length + n ∧
      r.log.Bests.length = m.log.Bests.length + n ∧
      r.log.Temperature.length = m.log.Temperature.length + n ∧
      r.generated.length = m.generated.length + n := by
  intro n
  induction n with
  | zero => exact ⟨m, rfl, hs, rfl, rfl, rfl, rfl, rfl, rfl, rfl⟩
  | succ n ih =>
    obtain ⟨r, hr, hrs, hT, hal, hmin, hC, hB, hTl, hG⟩ := ih
    obtain ⟨r', hb, hs', hmin', hal', hT', _, _, hgen, hlC, hlB, hlT⟩ :=
      bodyR_of_score fl E r f hrs
    refine ⟨r', ?_, hs', ?_, ?_, ?_, ?_, ?_, ?_, ?_⟩
    · rw [runBodyR_succ, hr]
      exact hb
    · rw [hT', hT, hal, Function.iterate_succ_apply']
    · rw [hal', hal]
    · rw [hmin', hmin]
    · rw [hlC, List.length_append, hC]
      rfl
    · rw [hlB, List.length_append, hB]
      rfl
    · rw [hlT, List.length_append, hTl]
      rfl
    · rw [hgen, List.length_append, hG]
      rfl

end

/-! ### The states of a run with rounded cooling -/

section
variable {Track Task Candidate Rng : Type}

/-- More fuel does not change the result of a run that returns. -/
theorem loopR_fuel_mono (fl : ℚ → ℚ) (E : Collaborators Track Task Candidate Rng) :
    ∀ (fuel fuel' : Nat) (m r : Machine Track Task Candidate Rng),
      loopR fl E fuel m = some r → fuel ≤ fuel' → loopR fl E fuel' m = some r := by
  intro fuel
  induction fuel with
  | zero =>
    intro fuel' m r hl _
    by_cases hg : m.sa.currentTemperature > m.sa.minTemperature
    · simp [loopR, hg] at hl
    · rw [loopR_stop fl E _ m hg] at hl ⊢
      exact hl
  | succ fuel ih =>
    intro fuel' m r hl hle
    by_cases hg : m.sa.currentTemperature > m.sa.minTemperature
    · obtain ⟨k, rfl⟩ : ∃ k, fuel' = k + 1 := ⟨fuel' - 1, by omega⟩
      rw [loopR_step fl E _ m hg] at hl ⊢
      cases hb : bodyR fl E m with
      | none => simp [hb] at hl
      | some m' =>
        rw [hb] at hl
        exact ih k m' r hl (by omega)
    · rw [loopR_stop fl E _ m hg] at hl ⊢
      exact hl

/-- Later iterations leave the entries already in the log as they are. -/
theorem runBodyR_log_stable (fl : ℚ → ℚ) (E : Collaborators Track Task Candidate Rng)
    (m : Machine Track Task Candidate Rng) (f : Task → ℚ) (hs : m.sa.score = some f)
    (k : Nat) (mk : Machine Track Task Candidate Rng) (hk : runBodyR fl E k m = some mk) :
    ∀ (j : Nat) (r : Machine Track Task Candidate Rng), runBodyR fl E (k + j) m = some r →
      (∀ i, i < mk.log.Candidates.length → r.log.Candidates[i]? = mk.log.Candidates[i]?) ∧
      (∀ i, i < mk.log.Bests.length → r.log.Bests[i]? = mk.log.Bests[i]?) ∧
      (∀ i, i < mk.log.Temperature.length →
        r.log.Temperature[i]? = mk.log.Temperature[i]?) := by
  intro j
  induction j with
  | zero =>
    intro r hr
    rw [Nat.add_zero, hk, Option.some.injEq] at hr
    subst hr
    exact ⟨fun _ _ => rfl, fun _ _ => rfl, fun _ _ => rfl⟩
  | succ j ih =>
    intro r hr
    obtain ⟨p, hp, hps, _, _, _, hC, hB, hT, _⟩ := runBodyR_of_score fl E m f hs (k + j)
    obtain ⟨hkC, hkB, hkT⟩ := ih p hp
    obtain ⟨_, hkc, _, _, _, _, hlC, hlB, hlT, _⟩ := runBodyR_of_score fl E m f hs k
    rw [hk, Option.some.injEq] at hkc
    subst hkc
    rw [← Nat.add_assoc, runBodyR_succ, hp] at hr
    obtain ⟨r', hb, _, _, _, _, _, _, _, hrC, hrB, hrT⟩ := bodyR_of_score fl E p f hps
    rw [show (some p).bind (bodyR fl E) = bodyR fl E p from rfl, hb, Option.some.injEq] at hr
    subst hr
    refine ⟨?_, ?_, ?_⟩
    · intro i hi
      rw [hrC, List.getElem?_append_left (by omega)]
      exact hkC i hi
    · intro i hi
      rw [hrB, List.getElem?_append_left (by omega)]
      exact hkB i hi
    · intro i hi
      rw [hrT, List.getElem?_append_left (by omega)]
      exact hkT i hi

/-- After at least one iteration, the last entry of each log is the current
value of what it records. -/
theorem runBodyR_log_last (fl : ℚ → ℚ) (E : Collaborators Track Task Candidate Rng)
    (m : Machine Track Task Candidate Rng) (f : Task → ℚ) (hs : m.sa.score = some f)
    (k : Nat) (r : Machine Track Task Candidate Rng) (hr : runBodyR fl E (k + 1) m = some r) :
    r.log.Candidates[m.log.Candidates.length + k]? = some r.sa.candidate ∧
      r.log.Bests[m.log.Bests.length + k]? = some r.sa.best ∧
      r.log.Temperature[m.log.Temperature.length + k]? = some r.sa.currentTemperature := by
  obtain ⟨p, hp, hps, _, _, _, hC, hB, hT, _⟩ := runBodyR_of_score fl E m f hs k
  rw [runBodyR_succ, hp] at hr
  obtain ⟨r', hb, _, _, _, _, _, _, _, hrC, hrB, hrT⟩ := bodyR_of_score fl E p f hps
  rw [show (some p).bind (bodyR fl E) = bodyR fl E p from rfl, hb, Option.some.injEq] at hr
  subst hr
  refine ⟨?_, ?_, ?_⟩
  · rw [hrC, ← hC, List.getElem?_append_right (le_refl _)]
    simp
  · rw [hrB, ← hB, List.getElem?_append_right (le_refl _)]
    simp
  · rw [hrT, ← hT, List.getElem?_append_right (le_refl _)]
    simp

/-- A returning call of `Optimize` is a number of executions of the loop body
from the entry state, the guard being true before each; that number is the
number of iterations, of generated neighbours, and of entries each log holds
after its placeholder. -/
theorem OptimizeR_trace (fl : ℚ → ℚ) (E : Collaborators Track Task Candidate Rng) (fuel : Nat)
    (sa : simAnnealingOptimizer Track Task Candidate) (track : Track) (nPoints : Int)
    (score : Task → ℚ) (rng : Rng) (o : Outcome Track Task Candidate Rng)
    (h : OptimizeR fl E fuel sa track nPoints score rng = some o) :
    runBodyR fl E (iterations o) (entry E sa track nPoints score rng) = some o.final ∧
      (∀ k, k < iterations o → ∃ mk, runBodyR fl E k (entry E sa track nPoints score rng) = some mk ∧
        mk.sa.currentTemperature > mk.sa.minTemperature) ∧
      o.final.generated.length = iterations o ∧
      o.final.log.Candidates.length = iterations o + 1 ∧
      o.final.log.Bests.length = iterations o + 1 ∧
      o.final.log.Temperature.length = iterations o + 1 := by
  obtain ⟨hl, _, _⟩ := OptimizeR_some fl E fuel sa track nPoints score rng o h
  obtain ⟨n, hn, hg, _⟩ := loopR_eq_runBodyR fl E fuel _ _ hl
  obtain ⟨r, hr, _, _, _, _, hC, hB, hT, hG⟩ := runBodyR_of_score fl E
    (entry E sa track nPoints score rng) score (entry_score E sa track nPoints score rng) n
  rw [hn, Option.some.injEq] at hr
  subst hr
  have hit : iterations o = n := by
    unfold iterations
    rw [hT]
    show 1 + n - 1 = n
    omega
  rw [hit]
  refine ⟨hn, hg, ?_, ?_, ?_, ?_⟩
  · rw [hG]
    show 0 + n = n
    omega
  · rw [hC]
    show 1 + n = n + 1
    omega
  · rw [hB]
    show 1 + n = n + 1
    omega
  · rw [hT]
    show 1 + n = n + 1
    omega

/-- At a positive temperature and with a draw in `[0, 1)`, an iteration never
raises the score of the current candidate, and lowers it exactly when the move
is accepted. -/
theorem bodyR_current_score (fl : ℚ → ℚ) (E : Collaborators Track Task Candidate Rng)
    (m m' : Machine Track Task Candidate Rng) (score : Task → ℚ)
    (hs : m.sa.score = some score) (hT : 0 < m.sa.currentTemperature)
    (hr0 : 0 ≤ nextDraw E m) (hr1 : nextDraw E m < 1) (hb : bodyR fl E m = some m') :
    score (E.task m'.sa.candidate) ≤ score (E.task m.sa.candidate) ∧
      (score (E.task m'.sa.candidate) < score (E.task m.sa.candidate) ↔
        moveAccepted E m = true) := by
  obtain ⟨m'', hb', _, _, _, _, _, hc, _⟩ := bodyR_of_score fl E m score hs
  rw [hb, Option.some.injEq] at hb'
  subst hb'
  have hiff := moveAccepted_iff E m score hs hT hr0 hr1
  by_cases ha : moveAccepted E m = true
  · rw [hc, if_pos ha]
    exact ⟨le_of_lt (hiff.mp ha), fun _ => ha, fun _ => hiff.mp ha⟩
  · rw [hc, if_neg ha]
    exact ⟨le_refl _, fun h => absurd h (lt_irrefl _), fun h => absurd h ha⟩

/-- While the guard has been true before every iteration so far, the current
candidate scores no more than the one the run started from. -/
theorem runBodyR_current_le (fl : ℚ → ℚ) (E : Collaborators Track Task Candidate Rng)
    (m : Machine Track Task Candidate Rng) (score : Task → ℚ)
    (hs : m.sa.score = some score) (hmin : 0 ≤ m.sa.minTemperature)
    (hdraw : ∀ g : Rng, 0 ≤ (E.float64 g).1 ∧ (E.float64 g).1 < 1) :
    ∀ (n : Nat) (r : Machine Track Task Candidate Rng), runBodyR fl E n m = some r →
      (∀ k, k < n → ∃ mk, runBodyR fl E k m = some mk ∧
        mk.sa.currentTemperature > mk.sa.minTemperature) →
      score (E.task r.sa.candidate) ≤ score (E.task m.sa.candidate) := by
  intro n
  induction n with
  | zero =>
    intro r hr _
    rw [show runBodyR fl E 0 m = some m from rfl, Option.some.injEq] at hr
    rw [← hr]
  | succ n ih =>
    intro r hr hg
    obtain ⟨p, hp, hps, _, _, hpmin, _⟩ := runBodyR_of_score fl E m score hs n
    obtain ⟨p', hp', hgp⟩ := hg n (Nat.lt_succ_self n)
    rw [hp, Option.some.injEq] at hp'
    subst hp'
    rw [runBodyR_succ, hp] at hr
    have hT : 0 < p.sa.currentTemperature := by
      rw [hpmin] at hgp
      exact lt_of_le_of_lt hmin hgp
    have hstep := bodyR_current_score fl E p r score hps hT (hdraw _).1 (hdraw _).2 hr
    exact le_trans hstep.1 (ih p hp (fun k hk => hg k (by omega)))

/-- Two returning runs from the same state agree, whatever their fuel. -/
theorem OptimizeR_fuel_irrelevant (fl : ℚ → ℚ) (E : Collaborators Track Task Candidate Rng)
    (sa : simAnnealingOptimizer Track Task Candidate) (track : Track) (nPoints : Int)
    (score : Task → ℚ) (rng : Rng) (fuel fuel' : Nat) (o o' : Outcome Track Task Candidate Rng)
    (h : OptimizeR fl E fuel sa track nPoints score rng = some o)
    (h' : OptimizeR fl E fuel' sa track nPoints score rng = some o') : o = o' := by
  have hl := (OptimizeR_some fl E fuel sa track nPoints score rng o h).1
  have hl' := (OptimizeR_some fl E fuel' sa track nPoints score rng o' h').1
  have e1 := loopR_fuel_mono fl E fuel (max fuel fuel') _ _ hl (le_max_left _ _)
  have e2 := loopR_fuel_mono fl E fuel' (max fuel fuel') _ _ hl' (le_max_right _ _)
  rw [e1, Option.some.injEq] at e2
  rw [OptimizeR_eq, hl] at h
  rw [OptimizeR_eq, hl'] at h'
  simp only [Option.map_some', Option.some.injEq] at h h'
  rw [← h, ← h', e2]


/-- Entry `k ≥ 1` of each log of a returning run records the state the `k`-th
iteration leaves, whose temperature has been cooled `k` times. -/
theorem OptimizeR_log_entry (fl : ℚ → ℚ) (E : Collaborators Track Task Candidate Rng)
    (fuel : Nat) (sa : simAnnealingOptimizer Track Task Candidate) (track : Track)
    (nPoints : Int) (score : Task → ℚ) (rng : Rng) (o : Outcome Track Task Candidate Rng)
    (h : OptimizeR fl E fuel sa track nPoints score rng = some o) (j : Nat)
    (hj : j + 1 ≤ iterations o) :
    ∃ mk : Machine Track Task Candidate Rng,
      runBodyR fl E (j + 1) (entry E sa track nPoints score rng) = some mk ∧
      mk.sa.currentTemperature = (cool fl sa.alpha)^[j + 1] sa.currentTemperature ∧
      o.final.log.Candidates[j + 1]? = some mk.sa.candidate ∧
      o.final.log.Bests[j + 1]? = some mk.sa.best ∧
      o.final.log.Temperature[j + 1]? = some mk.sa.currentTemperature := by
  obtain ⟨hrun, _, _, _, _, _⟩ := OptimizeR_trace fl E fuel sa track nPoints score rng o h
  have hes := entry_score E sa track nPoints score rng
  obtain ⟨mk, hmk, _, hT, _, _, hC, hB, hTl, _⟩ := runBodyR_of_score fl E
    (entry E sa track nPoints score rng) score hes (j + 1)
  obtain ⟨d, hd⟩ : ∃ d, iterations o = j + 1 + d := ⟨iterations o - (j + 1), by omega⟩
  have hst := runBodyR_log_stable fl E (entry E sa track nPoints score rng) score hes (j + 1)
    mk hmk d o.final (by rw [← hd]; exact hrun)
  have hlast := runBodyR_log_last fl E (entry E sa track nPoints score rng) score hes j mk hmk
  have eC : (entry E sa track nPoints score rng).log.Candidates.length + j = j + 1 := by
    show 1 + j = j + 1
    omega
  have eB : (entry E sa track nPoints score rng).log.Bests.length + j = j + 1 := by
    show 1 + j = j + 1
    omega
  have eT : (entry E sa track nPoints score rng).log.Temperature.length + j = j + 1 := by
    show 1 + j = j + 1
    omega
  rw [eC, eB, eT] at hlast
  refine ⟨mk, hmk, hT, ?_, ?_, ?_⟩
  · rw [hst.1 (j + 1) (by rw [hC]; show j + 1 < 1 + (j + 1); omega), hlast.1]
  · rw [hst.2.1 (j + 1) (by rw [hB]; show j + 1 < 1 + (j + 1); omega), hlast.2.1]
  · rw [hst.2.2 (j + 1) (by rw [hTl]; show j + 1 < 1 + (j + 1); omega), hlast.2.2]

/-- The number of iterations of the loop is that of the loop reduced to its
temperature: the loop returns after `n` iterations exactly when `coolingSteps`
counts `n`, and runs out of fuel exactly when `coolingSteps` does. -/
theorem loopR_coolingSteps (fl : ℚ → ℚ) (E : Collaborators Track Task Candidate Rng)
    (f : Task → ℚ) :
    ∀ (fuel : Nat) (m : Machine Track Task Candidate Rng), m.sa.score = some f →
      (loopR fl E fuel m).map (fun r => r.log.Temperature.length) =
        (coolingSteps fl m.sa.minTemperature m.sa.alpha fuel m.sa.currentTemperature).map
          (fun n => m.log.Temperature.length + n) := by
  intro fuel
  induction fuel with
  | zero =>
    intro m _
    by_cases hg : m.sa.currentTemperature > m.sa.minTemperature
    · simp [loopR, coolingSteps, hg]
    · simp [loopR, coolingSteps, hg]
  | succ fuel ih =>
    intro m hs
    by_cases hg : m.sa.currentTemperature > m.sa.minTemperature
    · obtain ⟨m', hb, hs', hmin, hal, hT, _, _, _, _, _, hlog⟩ := bodyR_of_score fl E m f hs
      rw [loopR_step fl E fuel m hg, hb]
      show (loopR fl E fuel m').map (fun r => r.log.Temperature.length) = _
      rw [ih m' hs', hmin, hal, hT, hlog]
      simp only [coolingSteps, hg, if_true, Option.map_map]
      congr 1
      funext n
      simp only [Function.comp, List.length_append, List.length_singleton]
      omega
    · simp [loopR, coolingSteps, hg]

/-- The number of iterations of a call depends on the three temperatures alone. -/
theorem OptimizeR_coolingSteps (fl : ℚ → ℚ) (E : Collaborators Track Task Candidate Rng)
    (fuel : Nat) (sa : simAnnealingOptimizer Track Task Candidate) (track : Track)
    (nPoints : Int) (score : Task → ℚ) (rng : Rng) :
    (OptimizeR fl E fuel sa track nPoints score rng).map iterations =
      coolingSteps fl sa.minTemperature sa.alpha fuel sa.currentTemperature := by
  have h := loopR_coolingSteps fl E score fuel (entry E sa track nPoints score rng)
    (entry_score E sa track nPoints score rng)
  rw [OptimizeR_eq, Option.map_map]
  have e : (iterations ∘ fun m : Machine Track Task Candidate Rng =>
      ({ task := E.task m.sa.best, err := none, final := m } :
        Outcome Track Task Candidate Rng)) =
      (fun n => n - 1) ∘ (fun r : Machine Track Task Candidate Rng =>
        r.log.Temperature.length) := rfl
  rw [e, ← Option.map_map, h, Option.map_map]
  show Option.map _ (coolingSteps fl sa.minTemperature sa.alpha fuel sa.currentTemperature) = _
  have e2 : ((fun n => n - 1) ∘ fun n =>
      (entry E sa track nPoints score rng).log.Temperature.length + n) = id := by
    funext n
    show 1 + n - 1 = n
    omega
  rw [e2, Option.map_id]
  rfl

end

/-! ### Rounding to binary64 -/

theorem roundNE_floor_or (x : ℚ) : roundNE x = ⌊x⌋ ∨ (roundNE x = ⌊x⌋ + 1 ∧ 1 / 2 ≤ x - ⌊x⌋) := by
  unfold roundNE
  split_ifs with h1 h2 h3
  · exact Or.inl rfl
  · exact Or.inr ⟨rfl, le_of_lt h2⟩
  · exact Or.inl rfl
  · exact Or.inr ⟨rfl, not_lt.mp h1⟩

/-- Rounding to the nearest integer does not cross an integer bound. -/
theorem roundNE_le_of_le (x : ℚ) (K : ℤ) (h : x ≤ K) : roundNE x ≤ K := by
  have hf : ⌊x⌋ ≤ K := Int.cast_le.mp (le_trans (Int.floor_le x) h)
  rcases roundNE_floor_or x with hr | ⟨hr, hhalf⟩
  · rw [hr]; exact hf
  · rw [hr]
    have hne : (⌊x⌋ : ℚ) ≠ x := by
      intro e
      rw [e, sub_self] at hhalf
      norm_num at hhalf
    have hlt : x < K := by
      rcases lt_or_eq_of_le h with h' | h'
      · exact h'
      · exfalso
        apply hne
        rw [h', Int.floor_intCast]
    have : ⌊x⌋ < K := by
      have := lt_of_le_of_lt (Int.floor_le x) hlt
      exact_mod_cast this
    omega

theorem roundNE_nonneg (x : ℚ) (h : 0 ≤ x) : 0 ≤ roundNE x := by
  have hf : 0 ≤ ⌊x⌋ := Int.floor_nonneg.mpr h
  rcases roundNE_floor_or x with hr | ⟨hr, _⟩ <;> rw [hr] <;> omega

theorem roundNE_nonpos (x : ℚ) (h : x ≤ 0) : roundNE x ≤ 0 := by
  have := roundNE_le_of_le x 0 (by simpa using h)
  exact this

theorem roundNE_intCast (k : ℤ) : roundNE (k : ℚ) = k := by
  unfold roundNE
  simp

theorem two_zpow_pos (p : ℤ) : (0 : ℚ) < 2 ^ p := zpow_pos (by norm_num) p

theorem round64_nonneg (x : ℚ) (h : 0 ≤ x) : 0 ≤ round64 x := by
  unfold round64
  have h1 : 0 ≤ roundNE (x / 2 ^ quantum x) :=
    roundNE_nonneg _ (div_nonneg h (le_of_lt (two_zpow_pos _)))
  exact mul_nonneg (by exact_mod_cast h1) (le_of_lt (two_zpow_pos _))

theorem round64_nonpos (x : ℚ) (h : x ≤ 0) : round64 x ≤ 0 := by
  unfold round64
  have h1 : roundNE (x / 2 ^ quantum x) ≤ 0 :=
    roundNE_nonpos _ (div_nonpos_of_nonpos_of_nonneg h (le_of_lt (two_zpow_pos _)))
  exact mul_nonpos_of_nonpos_of_nonneg (by exact_mod_cast h1) (le_of_lt (two_zpow_pos _))

theorem quantum_mono (x y : ℚ) (hx : 0 < |x|) (h : |x| ≤ |y|) : quantum x ≤ quantum y := by
  unfold quantum
  have := Int.log_mono_right (b := 2) hx h
  exact max_le_max (by omega) (le_refl _)

/-- Rounding does not cross a binary64 value above: for `0 ≤ x ≤ y` with `y` a
binary64 value, the rounded `x` is still at most `y`. -/
theorem round64_le_of_le (x y : ℚ) (hx : 0 ≤ x) (h : x ≤ y) (hy : round64 y = y) :
    round64 x ≤ y := by
  rcases eq_or_lt_of_le hx with h0 | hpos
  · rw [← h0]
    have : round64 0 = 0 := by
      unfold round64
      simp [roundNE]
    rw [this]
    exact le_trans hx h
  have hq : quantum x ≤ quantum y :=
    quantum_mono x y (abs_pos.mpr (ne_of_gt hpos))
      (by rw [abs_of_pos hpos, abs_of_nonneg (le_trans hx h)]; exact h)
  obtain ⟨d, hd⟩ : ∃ d : ℕ, quantum y = quantum x + d :=
    ⟨(quantum y - quantum x).toNat, by omega⟩
  -- `y` is an integer multiple of `2 ^ quantum x`
  have hyK : y = ((roundNE (y / 2 ^ quantum y) * 2 ^ d : ℤ) : ℚ) * 2 ^ quantum x := by
    conv_lhs => rw [← hy]
    unfold round64
    rw [hd, zpow_add₀ (by norm_num : (2 : ℚ) ≠ 0), zpow_natCast]
    push_cast
    ring
  have hle : x / 2 ^ quantum x ≤ ((roundNE (y / 2 ^ quantum y) * 2 ^ d : ℤ) : ℚ) := by
    rw [div_le_iff₀ (two_zpow_pos _), ← hyK]
    exact h
  have hr := roundNE_le_of_le _ _ hle
  unfold round64
  calc (roundNE (x / 2 ^ quantum x) : ℚ) * 2 ^ quantum x
      ≤ ((roundNE (y / 2 ^ quantum y) * 2 ^ d : ℤ) : ℚ) * 2 ^ quantum x :=
        mul_le_mul_of_nonneg_right (by exact_mod_cast hr) (le_of_lt (two_zpow_pos _))
    _ = y := hyK.symm

theorem roundNE_ge_of_ge (x : ℚ) (K : ℤ) (h : (K : ℚ) ≤ x) : K ≤ roundNE x := by
  have hf : K ≤ ⌊x⌋ := Int.le_floor.mpr h
  rcases roundNE_floor_or x with hr | ⟨hr, _⟩ <;> rw [hr] <;> omega

theorem round64_zero : round64 0 = 0 := by
  unfold round64
  simp [roundNE]

/-- The significand of a rounded value has at most 53 bits, the carry included. -/
theorem roundNE_quantum_abs_le (x : ℚ) : |(roundNE (x / 2 ^ quantum x) : ℚ)| ≤ 2 ^ (53 : ℕ) := by
  rcases eq_or_ne x 0 with h0 | hne
  · rw [h0, zero_div]
    have : roundNE (0 : ℚ) = 0 := by simp [roundNE]
    rw [this]
    norm_num
  have hpos : 0 < |x| := abs_pos.mpr hne
  have hlt : |x| < 2 ^ (Int.log 2 |x| + 1) := by
    have := Int.lt_zpow_succ_log_self (b := 2) (by norm_num) |x|
    exact_mod_cast this
  have hq : Int.log 2 |x| + 1 ≤ quantum x + 53 := by
    unfold quantum
    have := le_max_left (Int.log 2 |x| - 52) (-1074)
    omega
  have hbound : |x| / 2 ^ quantum x ≤ 2 ^ (53 : ℕ) := by
    rw [div_le_iff₀ (two_zpow_pos _)]
    calc |x| ≤ 2 ^ (Int.log 2 |x| + 1) := le_of_lt hlt
      _ ≤ 2 ^ (quantum x + 53) := zpow_le_zpow_right₀ (by norm_num) hq
      _ = 2 ^ (53 : ℕ) * 2 ^ quantum x := by
        rw [zpow_add₀ (by norm_num : (2 : ℚ) ≠ 0), mul_comm]
        norm_cast
  have habs : |x / 2 ^ quantum x| ≤ 2 ^ (53 : ℕ) := by
    rw [abs_div, abs_of_pos (two_zpow_pos _)]
    exact hbound
  rw [abs_le] at habs ⊢
  constructor
  · have := roundNE_ge_of_ge (x / 2 ^ quantum x) (-(2 ^ (53 : ℕ))) (by push_cast; exact habs.1)
    have h2 : ((-(2 ^ (53 : ℕ)) : ℤ) : ℚ) ≤ (roundNE (x / 2 ^ quantum x) : ℚ) :=
      Int.cast_le.mpr this
    push_cast at h2
    exact h2
  · have := roundNE_le_of_le (x / 2 ^ quantum x) (2 ^ (53 : ℕ)) (by push_cast; exact habs.2)
    have h2 : (roundNE (x / 2 ^ quantum x) : ℚ) ≤ ((2 ^ (53 : ℕ) : ℤ) : ℚ) :=
      Int.cast_le.mpr this
    push_cast at h2
    exact h2

/-- A value that is an integer multiple of its own unit in the last place is a
binary64 value: rounding leaves it as it is. -/
theorem round64_of_multiple (y : ℚ) (k : ℤ) (h : y = (k : ℚ) * 2 ^ quantum y) :
    round64 y = y := by
  unfold round64
  have : y / 2 ^ quantum y = (k : ℚ) := by
    rw [div_eq_iff (ne_of_gt (two_zpow_pos _))]
    exact h
  rw [this, roundNE_intCast]
  exact h.symm

/-- A significand of at most 53 bits (the carry `2 ^ 53` included) times a power
of two that is at least `2 ^ (-1074)` is a binary64 value. -/
theorem round64_of_significand (m q : ℤ) (y : ℚ) (hy : y = (m : ℚ) * 2 ^ q)
    (hm : |(m : ℚ)| ≤ 2 ^ (53 : ℕ)) (hqlow : -1074 ≤ q) : round64 y = y := by
  rcases eq_or_ne y 0 with h0 | hne
  · rw [h0, round64_zero]
  have hypos : 0 < |y| := abs_pos.mpr hne
  have hyle : |y| ≤ 2 ^ (q + 53) := by
    rw [hy, abs_mul, abs_of_pos (two_zpow_pos _), zpow_add₀ (by norm_num : (2 : ℚ) ≠ 0),
      mul_comm]
    have : ((2 : ℚ) ^ (53 : ℤ)) = 2 ^ (53 : ℕ) := by norm_cast
    rw [this]
    exact mul_le_mul_of_nonneg_left hm (le_of_lt (two_zpow_pos _))
  rcases le_or_lt (quantum y) q with hq | hq
  · -- the unit in the last place of `y` is at most `2 ^ q`
    obtain ⟨d, hd⟩ : ∃ d : ℕ, q = quantum y + d := ⟨(q - quantum y).toNat, by omega⟩
    apply round64_of_multiple y (m * 2 ^ d)
    conv_lhs => rw [hy, hd]
    rw [zpow_add₀ (by norm_num : (2 : ℚ) ≠ 0), zpow_natCast]
    push_cast
    ring
  · -- otherwise `y` is the power of two `2 ^ (q + 53)` up to sign
    have hlog : q + 53 ≤ Int.log 2 |y| := by
      have : quantum y = max (Int.log 2 |y| - 52) (-1074) := rfl
      rcases le_total (Int.log 2 |y| - 52) (-1074) with hc | hc
      · rw [max_eq_right hc] at this
        omega
      · rw [max_eq_left hc] at this
        omega
    have hge : (2 : ℚ) ^ (q + 53) ≤ |y| := by
      have h1 : (2 : ℚ) ^ (q + 53) ≤ 2 ^ Int.log 2 |y| :=
        zpow_le_zpow_right₀ (by norm_num) hlog
      have h2 := Int.zpow_log_le_self (b := 2) (r := |y|) (by norm_num) hypos
      exact le_trans h1 (by exact_mod_cast h2)
    have habs : |y| = 2 ^ (q + 53) := le_antisymm hyle hge
    have hlogeq : Int.log 2 |y| = q + 53 := by
      rw [habs]
      have := Int.log_zpow (R := ℚ) (b := 2) (by norm_num) (q + 53)
      exact_mod_cast this
    have hqy : quantum y = q + 1 := by
      show max (Int.log 2 |y| - 52) (-1074) = q + 1
      rw [hlogeq, max_eq_left (by omega)]
      omega
    have hsplit : (2 : ℚ) ^ (q + 53) = 2 ^ (52 : ℕ) * 2 ^ (q + 1) := by
      rw [show q + 53 = (52 : ℤ) + (q + 1) by ring, zpow_add₀ (by norm_num : (2 : ℚ) ≠ 0)]
      norm_cast
    rcases abs_cases y with ⟨he, _⟩ | ⟨he, _⟩
    · apply round64_of_multiple y (2 ^ (52 : ℕ))
      rw [hqy]
      conv_lhs => rw [← he, habs, hsplit]
      push_cast
      rfl
    · apply round64_of_multiple y (-(2 ^ (52 : ℕ)))
      rw [hqy]
      have : y = -(2 ^ (q + 53)) := by
        rw [← habs, he, neg_neg]
      conv_lhs => rw [this, hsplit]
      push_cast
      ring

/-- Rounding a rounded value changes nothing. -/
theorem round64_idem (x : ℚ) : round64 (round64 x) = round64 x :=
  round64_of_significand (roundNE (x / 2 ^ quantum x)) (quantum x) (round64 x) rfl
    (roundNE_quantum_abs_le x) (le_max_right _ _)

/-! ### Counting iterations with rounded cooling -/

section
variable {Track Task Candidate Rng : Type}

/-- More fuel does not change the outcome of a call that returns. -/
theorem OptimizeR_mono (fl : ℚ → ℚ) (E : Collaborators Track Task Candidate Rng)
    (fuel fuel' : Nat) (sa : simAnnealingOptimizer Track Task Candidate) (track : Track)
    (nPoints : Int) (score : Task → ℚ) (rng : Rng) (o : Outcome Track Task Candidate Rng)
    (h : OptimizeR fl E fuel sa track nPoints score rng = some o) (hle : fuel ≤ fuel') :
    OptimizeR fl E fuel' sa track nPoints score rng = some o := by
  obtain ⟨hl, ht, he⟩ := OptimizeR_some fl E fuel sa track nPoints score rng o h
  rw [OptimizeR_eq, loopR_fuel_mono fl E fuel fuel' _ _ hl hle, Option.map_some']
  rw [OptimizeR_eq, hl, Option.map_some'] at h
  exact h

/-- When the loop reduced to its temperature counts `n` iterations, the call
returns, after `n` iterations. -/
theorem OptimizeR_of_coolingSteps (fl : ℚ → ℚ) (E : Collaborators Track Task Candidate Rng)
    (fuel : Nat) (sa : simAnnealingOptimizer Track Task Candidate) (track : Track)
    (nPoints : Int) (score : Task → ℚ) (rng : Rng) (n : Nat)
    (h : coolingSteps fl sa.minTemperature sa.alpha fuel sa.currentTemperature = some n) :
    ∃ o, OptimizeR fl E fuel sa track nPoints score rng = some o ∧ iterations o = n := by
  have hc := OptimizeR_coolingSteps fl E fuel sa track nPoints score rng
  rw [h] at hc
  cases ho : OptimizeR fl E fuel sa track nPoints score rng with
  | none => simp [ho] at hc
  | some o =>
    rw [ho, Option.map_some', Option.some.injEq] at hc
    exact ⟨o, rfl, hc⟩

end

/-- A temperature above the floor that the cooling statement leaves as it is
never reaches the floor. -/
theorem coolingSteps_stuck (fl : ℚ → ℚ) (mn alpha T : ℚ) (hT : T > mn)
    (hstuck : cool fl alpha T = T) : ∀ fuel : Nat, coolingSteps fl mn alpha fuel T = none := by
  intro fuel
  induction fuel with
  | zero => simp [coolingSteps, hT]
  | succ fuel ih => simp [coolingSteps, hT, hstuck, ih]

/-- The real-number count is `k + 1` when `k` exact cooling steps leave the
temperature above the floor and `k + 1` do not. -/
theorem ceil_cooling_eq (s mn a : ℝ) (k : ℕ) (hmn : 0 < mn) (hs : mn < s) (h0 : 0 < a)
    (h1 : a < 1) (hk : mn < s * (1 - a) ^ k) (hk1 : s * (1 - a) ^ (k + 1) ≤ mn) :
    ⌈Real.log (mn / s) / Real.log (1 - a)⌉₊ = k + 1 := by
  obtain ⟨hlt, hle⟩ := cooling_count_real s mn a hmn hs h0 h1
  have hspos : 0 ≤ s := le_of_lt (lt_trans hmn hs)
  have hq0 : 0 ≤ 1 - a := by linarith
  have hq1 : 1 - a ≤ 1 := by linarith
  rcases Nat.lt_trichotomy ⌈Real.log (mn / s) / Real.log (1 - a)⌉₊ (k + 1) with hN | hN | hN
  · exfalso
    have hp : (1 - a) ^ k ≤ (1 - a) ^ ⌈Real.log (mn / s) / Real.log (1 - a)⌉₊ :=
      pow_le_pow_of_le_one hq0 hq1 (by omega)
    have := mul_le_mul_of_nonneg_left hp hspos
    linarith
  · exact hN
  · exfalso
    have := hlt (k + 1) hN
    linarith

/-! ### The acceptance probability as a float64 -/

section
variable {Track Task Candidate Rng : Type}

theorem acceptanceProbF_of_score (fl : ℚ → Float64)
    (E : Collaborators Track Task Candidate Rng)
    (sa : simAnnealingOptimizer Track Task Candidate) (task : Task) (f : Task → ℚ)
    (h : sa.score = some f) :
    acceptanceProbF fl E sa task =
      some (if (fl (f (E.task sa.candidate) - f task)).gtZero = true then Float64.finite 1
            else Float64.mulBy fl mathE
              (Float64.divBy fl (fl (f (E.task sa.candidate) - f task)) sa.currentTemperature)) := by
  unfold acceptanceProbF
  rw [h]
  by_cases hd : (fl (f (E.task sa.candidate) - f task)).gtZero = true <;> simp [hd]

/-- Away from temperature `0`, and in exact arithmetic, the float64 returned is
the finite value `acceptanceProb` computes. -/
theorem acceptanceProbF_finite (E : Collaborators Track Task Candidate Rng)
    (sa : simAnnealingOptimizer Track Task Candidate) (task : Task)
    (hT : sa.currentTemperature ≠ 0) :
    acceptanceProbF Float64.finite E sa task =
      (acceptanceProb E sa task).map Float64.finite := by
  cases hs : sa.score with
  | none => simp [acceptanceProbF, acceptanceProb, hs]
  | some f =>
    rw [acceptanceProbF_of_score Float64.finite E sa task f hs,
      acceptanceProb_of_score E sa task f hs, Option.map_some']
    by_cases hd : f (E.task sa.candidate) - f task > 0
    · simp [Float64.gtZero, hd]
    · simp [Float64.gtZero, Float64.divBy, Float64.mulBy, hd, hT]

end

/-- Half of the smallest positive binary64 value rounds to zero. -/
theorem round64_underflow : round64 (1 / 2 ^ 1075) = 0 := by
  have hx : (1 : ℚ) / 2 ^ 1075 = 2 ^ (-1075 : ℤ) := by
    rw [zpow_neg, one_div]
    norm_cast
  have hq : quantum (1 / 2 ^ 1075) = -1074 := by
    unfold quantum
    rw [hx, abs_of_pos (two_zpow_pos _)]
    have := Int.log_zpow (R := ℚ) (b := 2) (by norm_num) (-1075)
    have h2 : Int.log 2 ((2 : ℚ) ^ (-1075 : ℤ)) = -1075 := by exact_mod_cast this
    rw [h2]
    norm_num
  unfold round64
  rw [hq, hx, ← zpow_sub₀ (by norm_num : (2 : ℚ) ≠ 0)]
  have hhalf : roundNE ((2 : ℚ) ^ ((-1075 : ℤ) - (-1074))) = 0 := by
    have : (2 : ℚ) ^ ((-1075 : ℤ) - (-1074)) = 1 / 2 := by norm_num
    rw [this]
    decide!
  rw [hhalf]
  simp

/-- With exact arithmetic `k` cooling steps multiply by `(1 - alpha) ^ k`. -/
theorem cool_id_iterate (alpha T : ℚ) (k : ℕ) : (cool id alpha)^[k] T = T * (1 - alpha) ^ k := by
  induction k with
  | zero => simp
  | succ k ih => rw [Function.iterate_succ_apply', ih, cool_id, pow_succ, mul_assoc]

section
variable {Track Task Candidate Rng : Type}

/-- After `n` executions of the loop body from the entry state, entry `0` of the
`Temperature` log is the placeholder and entry `k` of each log, for
`1 ≤ k ≤ n`, records the state the `k`-th execution leaves, whose temperature
has been cooled `k` times. -/
theorem runBodyR_log_entry (fl : ℚ → ℚ) (E : Collaborators Track Task Candidate Rng)
    (sa : simAnnealingOptimizer Track Task Candidate) (track : Track)
    (nPoints : Int) (score : Task → ℚ) (rng : Rng) (n : Nat) :
    ∃ mn : Machine Track Task Candidate Rng,
      runBodyR fl E n (entry E sa track nPoints score rng) = some mn ∧
      mn.log.Temperature[0]? = some 0 ∧
      ∀ j : Nat, j + 1 ≤ n →
        ∃ mk : Machine Track Task Candidate Rng,
          runBodyR fl E (j + 1) (entry E sa track nPoints score rng) = some mk ∧
          mk.sa.currentTemperature = (cool fl sa.alpha)^[j + 1] sa.currentTemperature ∧
          mn.log.Candidates[j + 1]? = some mk.sa.candidate ∧
          mn.log.Bests[j + 1]? = some mk.sa.best ∧
          mn.log.Temperature[j + 1]? = some mk.sa.currentTemperature := by
  have hes := entry_score E sa track nPoints score rng
  obtain ⟨mn, hmn, _⟩ := runBodyR_of_score fl E
    (entry E sa track nPoints score rng) score hes n
  have h0 := runBodyR_log_stable fl E (entry E sa track nPoints score rng) score hes 0 _ rfl
    n mn (by rw [Nat.zero_add]; exact hmn)
  refine ⟨mn, hmn, h0.2.2 0 Nat.zero_lt_one, ?_⟩
  intro j hj
  obtain ⟨mk, hmk, _, hT, _, _, hC, hB, hTl, _⟩ := runBodyR_of_score fl E
    (entry E sa track nPoints score rng) score hes (j + 1)
  obtain ⟨d, hd⟩ : ∃ d, n = j + 1 + d := ⟨n - (j + 1), by omega⟩
  have hst := runBodyR_log_stable fl E (entry E sa track nPoints score rng) score hes (j + 1)
    mk hmk d mn (by rw [← hd]; exact hmn)
  have hlast := runBodyR_log_last fl E (entry E sa track nPoints score rng) score hes j mk hmk
  have eC : (entry E sa track nPoints score rng).log.Candidates.length + j = j + 1 := by
    show 1 + j = j + 1
    omega
  have eB : (entry E sa track nPoints score rng).log.Bests.length + j = j + 1 := by
    show 1 + j = j + 1
    omega
  have eT : (entry E sa track nPoints score rng).log.Temperature.length + j = j + 1 := by
    show 1 + j = j + 1
    omega
  rw [eC, eB, eT] at hlast
  refine ⟨mk, hmk, hT, ?_, ?_, ?_⟩
  · rw [hst.1 (j + 1) (by rw [hC]; show j + 1 < 1 + (j + 1); omega), hlast.1]
  · rw [hst.2.1 (j + 1) (by rw [hB]; show j + 1 < 1 + (j + 1); omega), hlast.2.1]
  · rw [hst.2.2 (j + 1) (by rw [hTl]; show j + 1 < 1 + (j + 1); omega), hlast.2.2]

end

/-! ### The claims -/

section
variable {Track Task Candidate Rng : Type}

/-- C1. In a terminating run of `Optimize`, let `c 0` be the initial random
candidate and `c 1, …, c n` the neighbours generated in iterations `1, …, n`
(one per iteration, accepted or not).  The returned task is the task of `c j`,
where `c j` has the maximal score among all of them and every earlier candidate
scores strictly less: the earliest candidate of maximal score. -/
theorem Optimize_returns_earliest_maximum (E : Collaborators Track Task Candidate Rng)
    (fuel : Nat) (sa : simAnnealingOptimizer Track Task Candidate) (track : Track)
    (nPoints : Int) (score : Task → ℚ) (rng : Rng) (o : Outcome Track Task Candidate Rng)
    (h : Optimize E fuel sa track nPoints score rng = some o) :
    o.final.generated.length = iterations o ∧
    ∃ (j : Nat) (c : Candidate),
      (initialCandidate E track nPoints rng :: o.final.generated)[j]? = some c ∧
      o.task = E.task c ∧
      (∀ (i : Nat) (d : Candidate),
        (initialCandidate E track nPoints rng :: o.final.generated)[i]? = some d →
          score (E.task d) ≤ score (E.task c)) ∧
      (∀ (i : Nat) (d : Candidate), i < j →
        (initialCandidate E track nPoints rng :: o.final.generated)[i]? = some d →
          score (E.task d) < score (E.task c)) := by
  obtain ⟨hl, ht, _⟩ := Optimize_some E fuel sa track nPoints score rng o h
  have hb := loop_best E score (initialCandidate E track nPoints rng) fuel
    (entry E sa track nPoints score rng) o.final (entry_score E sa track nPoints score rng)
    (by rw [entry_best]; exact FirstMaximum.single _ _) rfl hl
  obtain ⟨⟨j, hj, hmax, hlt⟩, hn⟩ := hb
  refine ⟨?_, j, o.final.sa.best, hj, ht, hmax, hlt⟩
  unfold iterations
  omega

/-- Witness for C1: the run `demoRun` returns, and its task is the earliest
candidate of maximal score. -/
theorem Optimize_returns_earliest_maximum_witness :
    ∃ o : Outcome Unit Nat Nat Nat, demoRun = some o ∧
      o.final.generated.length = iterations o ∧
      ∃ (j : Nat) (c : Nat),
        (initialCandidate counterE () 3 0 :: o.final.generated)[j]? = some c ∧
        o.task = counterE.task c ∧
        (∀ (i : Nat) (d : Nat),
          (initialCandidate counterE () 3 0 :: o.final.generated)[i]? = some d →
            peakScore (counterE.task d) ≤ peakScore (counterE.task c)) ∧
        (∀ (i : Nat) (d : Nat), i < j →
          (initialCandidate counterE () 3 0 :: o.final.generated)[i]? = some d →
            peakScore (counterE.task d) < peakScore (counterE.task c)) :=
  have hs : demoRun.isSome = true := by decide!
  ⟨demoRun.get hs, (Option.some_get hs).symm,
    Optimize_returns_earliest_maximum counterE 5 demoOptimizer () 3 peakScore 0
      (demoRun.get hs) (Option.some_get hs).symm⟩

/-- Counterexample to C2: start `1`, floor `81/256 - 2⁻⁵⁴` and `alpha = 1/4 + 2⁻⁵⁴`
are binary64 values with `start > floor > 0` and `alpha` in `(0, 1)`.  In
binary64 arithmetic `1 - alpha` rounds to `3/4`, and the loop of `Optimize`
makes `5` iterations, where
`⌈log (minTemperature / startTemperature) / log (1 - alpha)⌉` is `4`. -/
theorem iteration_count_counterexample :
    ((0 : ℚ) < 81 / 256 - 1 / 2 ^ 54 ∧ (81 / 256 - 1 / 2 ^ 54 : ℚ) < 1 ∧
      (0 : ℚ) < 1 / 4 + 1 / 2 ^ 54 ∧ (1 / 4 + 1 / 2 ^ 54 : ℚ) < 1) ∧
    (round64 1 = 1 ∧ round64 (81 / 256 - 1 / 2 ^ 54) = 81 / 256 - 1 / 2 ^ 54 ∧
      round64 (1 / 4 + 1 / 2 ^ 54) = 1 / 4 + 1 / 2 ^ 54) ∧
    (OptimizeR round64 counterE 6
        (NewSimAnnealingOptimizerParams counterE 1 (81 / 256 - 1 / 2 ^ 54)
          (1 / 4 + 1 / 2 ^ 54) 0).1 () 3 peakScore 0).map iterations = some 5 ∧
    ⌈Real.log (((81 / 256 - 1 / 2 ^ 54 : ℚ) : ℝ) / ((1 : ℚ) : ℝ)) /
        Real.log (1 - ((1 / 4 + 1 / 2 ^ 54 : ℚ) : ℝ))⌉₊ = 4 := by
  refine ⟨by norm_num, by decide!, by decide!, ?_⟩
  exact ceil_cooling_eq _ _ _ 3 (by push_cast; norm_num) (by push_cast; norm_num)
    (by push_cast; norm_num) (by push_cast; norm_num) (by push_cast; norm_num)
    (by push_cast; norm_num)

/-- C2, amended.  For `startTemperature > minTemperature > 0` and `alpha` in
`(0, 1)`, and for every state of the random source, every score and every
behaviour of the candidate collaborator, the number of iterations of the loop of
`Optimize` depends on the three temperature parameters alone: whatever the
rounding `fl` of the cooling statement, the loop makes as many iterations as the
loop reduced to its temperature, which stops at the first `k` for which `k`
cooling steps `T ← fl (T * fl (1 - alpha))` bring the temperature to
`minTemperature` or below.  When the arithmetic is exact that number is
`⌈log (minTemperature / startTemperature) / log (1 - alpha)⌉`, and the run
returns as soon as the fuel allows that many iterations. -/
theorem OptimizeR_iteration_count (E : Collaborators Track Task Candidate Rng)
    (startTemperature minTemperature alpha : ℚ) (seed : Int) (track : Track)
    (nPoints : Int) (score : Task → ℚ) (rng : Rng)
    (hmin : 0 < minTemperature) (hstart : minTemperature < startTemperature)
    (h0 : 0 < alpha) (h1 : alpha < 1) :
    (∀ (fl : ℚ → ℚ) (fuel : Nat),
      (OptimizeR fl E fuel
          (NewSimAnnealingOptimizerParams E startTemperature minTemperature alpha seed).1
          track nPoints score rng).map iterations =
        coolingSteps fl minTemperature alpha fuel startTemperature) ∧
    ∃ o : Outcome Track Task Candidate Rng,
      (∀ fuel : Nat,
        ⌈Real.log ((minTemperature : ℝ) / (startTemperature : ℝ)) /
          Real.log (1 - (alpha : ℝ))⌉₊ ≤ fuel →
        OptimizeR id E fuel
          (NewSimAnnealingOptimizerParams E startTemperature minTemperature alpha seed).1
          track nPoints score rng = some o) ∧
      iterations o =
        ⌈Real.log ((minTemperature : ℝ) / (startTemperature : ℝ)) /
          Real.log (1 - (alpha : ℝ))⌉₊ := by
  refine ⟨fun fl fuel => OptimizeR_coolingSteps fl E fuel _ track nPoints score rng, ?_⟩
  obtain ⟨hlt, hle⟩ := cooling_count_real (startTemperature : ℝ) (minTemperature : ℝ)
    (alpha : ℝ) (by exact_mod_cast hmin) (by exact_mod_cast hstart) (by exact_mod_cast h0)
    (by exact_mod_cast h1)
  obtain ⟨o, ho, hit, _⟩ := Optimize_count E
    (NewSimAnnealingOptimizerParams E startTemperature minTemperature alpha seed).1
    track nPoints score rng
    ⌈Real.log ((minTemperature : ℝ) / (startTemperature : ℝ)) / Real.log (1 - (alpha : ℝ))⌉₊
    (by
      intro k hk
      have hk' := hlt k hk
      show minTemperature < startTemperature * (1 - alpha) ^ k
      exact_mod_cast hk')
    (by
      show startTemperature * (1 - alpha) ^ _ ≤ minTemperature
      exact_mod_cast hle)
  refine ⟨o, ?_, hit⟩
  intro fuel hfuel
  rw [OptimizeR_id]
  exact ho fuel hfuel

/-- Witness for C2, amended: start `10`, floor `1`, `alpha = 1/2`, where binary64
arithmetic is exact; the loop reduced to its temperature counts `4`
iterations, and so does `⌈log (1/10) / log (1/2)⌉`. -/
theorem OptimizeR_iteration_count_witness :
    ((0 : ℚ) < 1 ∧ (1 : ℚ) < 10 ∧ (0 : ℚ) < 1 / 2 ∧ (1 / 2 : ℚ) < 1) ∧
    coolingSteps round64 1 (1 / 2) 5 10 = some 4 ∧
    ((∀ (fl : ℚ → ℚ) (fuel : Nat),
      (OptimizeR fl counterE fuel (NewSimAnnealingOptimizerParams counterE 10 1 (1 / 2) 0).1
          () 3 peakScore 0).map iterations =
        coolingSteps fl 1 (1 / 2) fuel 10) ∧
    ∃ o : Outcome Unit Nat Nat Nat,
      (∀ fuel : Nat,
        ⌈Real.log (((1 : ℚ) : ℝ) / ((10 : ℚ) : ℝ)) / Real.log (1 - ((1 / 2 : ℚ) : ℝ))⌉₊ ≤ fuel →
        OptimizeR id counterE fuel (NewSimAnnealingOptimizerParams counterE 10 1 (1 / 2) 0).1
          () 3 peakScore 0 = some o) ∧
      iterations o =
        ⌈Real.log (((1 : ℚ) : ℝ) / ((10 : ℚ) : ℝ)) / Real.log (1 - ((1 / 2 : ℚ) : ℝ))⌉₊) ∧
    ⌈Real.log (((1 : ℚ) : ℝ) / ((10 : ℚ) : ℝ)) / Real.log (1 - ((1 / 2 : ℚ) : ℝ))⌉₊ = 4 := by
  have hyp : (0 : ℚ) < 1 ∧ (1 : ℚ) < 10 ∧ (0 : ℚ) < 1 / 2 ∧ (1 / 2 : ℚ) < 1 := by
    norm_num
  refine ⟨hyp, by decide!,
    OptimizeR_iteration_count counterE 10 1 (1 / 2) 0 () 3 peakScore 0
      hyp.1 hyp.2.1 hyp.2.2.1 hyp.2.2.2, ?_⟩
  exact ceil_cooling_eq _ _ _ 3 (by push_cast; norm_num) (by push_cast; norm_num)
    (by push_cast; norm_num) (by push_cast; norm_num) (by push_cast; norm_num)
    (by push_cast; norm_num)

/-- C3. Best monotonicity.  In a run of `Optimize` that returns, the `Bests` log
holds, after its placeholder, the best candidate after each iteration.  Starting
from the initial random candidate, each best scores at least as much as the one
before it, and a best that differs from the one before it scores strictly more. -/
theorem Optimize_best_monotone (E : Collaborators Track Task Candidate Rng)
    (fuel : Nat) (sa : simAnnealingOptimizer Track Task Candidate) (track : Track)
    (nPoints : Int) (score : Task → ℚ) (rng : Rng) (o : Outcome Track Task Candidate Rng)
    (h : Optimize E fuel sa track nPoints score rng = some o) :
    o.final.log.Bests.tail.length = iterations o ∧
    List.Chain'
      (fun a b => score (E.task a) ≤ score (E.task b) ∧
        (b ≠ a → score (E.task a) < score (E.task b)))
      (initialCandidate E track nPoints rng :: o.final.log.Bests.tail) ∧
    (initialCandidate E track nPoints rng :: o.final.log.Bests.tail).getLast? =
      some o.final.sa.best := by
  obtain ⟨hl, _, _⟩ := Optimize_some E fuel sa track nPoints score rng o h
  have hlen := loop_log_lengths E score fuel (entry E sa track nPoints score rng) o.final
    (entry_score E sa track nPoints score rng) rfl rfl hl
  have hb := loop_bests E score (initialCandidate E track nPoints rng) fuel
    (entry E sa track nPoints score rng) o.final (entry_score E sa track nPoints score rng)
    (List.chain'_singleton _) rfl (by simp [entry]) hl
  refine ⟨?_, hb.1, hb.2⟩
  rw [List.length_tail, hlen.2]
  rfl

/-- Witness for C3: the run `demoRun`. -/
theorem Optimize_best_monotone_witness :
    ∃ o : Outcome Unit Nat Nat Nat, demoRun = some o ∧
      o.final.log.Bests.tail.length = iterations o ∧
      List.Chain'
        (fun a b => peakScore (counterE.task a) ≤ peakScore (counterE.task b) ∧
          (b ≠ a → peakScore (counterE.task a) < peakScore (counterE.task b)))
        (initialCandidate counterE () 3 0 :: o.final.log.Bests.tail) ∧
      (initialCandidate counterE () 3 0 :: o.final.log.Bests.tail).getLast? =
        some o.final.sa.best :=
  have hs : demoRun.isSome = true := by decide!
  ⟨demoRun.get hs, (Option.some_get hs).symm,
    Optimize_best_monotone counterE 5 demoOptimizer () 3 peakScore 0
      (demoRun.get hs) (Option.some_get hs).symm⟩

/-- C4. Always-accept branch: whenever `diff = score(current.Task) - score(task)`
is positive, `acceptanceProb(task)` returns exactly `1`, for every current
candidate, every task and every value of `currentTemperature`, zero and
negative ones included. -/
theorem acceptanceProb_always_accept (E : Collaborators Track Task Candidate Rng)
    (sa : simAnnealingOptimizer Track Task Candidate) (task : Task) (score : Task → ℚ)
    (hs : sa.score = some score)
    (hd : score (E.task sa.candidate) - score task > 0) :
    acceptanceProb E sa task = some 1 := by
  rw [acceptanceProb_of_score E sa task score hs, if_pos hd]

/-- Witness for C4: at temperature `0`, from candidate `5` to the task `4`. -/
theorem acceptanceProb_always_accept_witness :
    coldOptimizer.score = some peakScore ∧
      peakScore (counterE.task coldOptimizer.candidate) - peakScore 4 > 0 ∧
      coldOptimizer.currentTemperature = 0 ∧
      acceptanceProb counterE coldOptimizer 4 = some 1 :=
  have hd : peakScore (counterE.task coldOptimizer.candidate) - peakScore 4 > 0 := by
    decide!
  ⟨rfl, hd, rfl, acceptanceProb_always_accept counterE coldOptimizer 4 peakScore rfl hd⟩

/-- C5. Linear branch: whenever the computed `diff = score(current.Task) - score(task)`
is not `> 0`, `acceptanceProb(task)` returns `math.E * (diff / currentTemperature)`,
for every temperature and whatever the rounding `fl` of the three operations.
The constant `math.E` is Euler's number `exp 1` to within `10⁻⁹`.  With exact
arithmetic the returned value is the finite number
`math.E * (diff / currentTemperature)` at every temperature other than `0`, and
at temperature `0` it is `-Inf` when `diff` is negative and NaN when `diff` is
`0`; at a positive temperature it is at most `0`, and so lies strictly below
the exponential form `exp (diff / currentTemperature)`. -/
theorem acceptanceProb_linear (fl : ℚ → Float64)
    (E : Collaborators Track Task Candidate Rng)
    (sa : simAnnealingOptimizer Track Task Candidate) (task : Task) (score : Task → ℚ)
    (hs : sa.score = some score)
    (hd : (fl (score (E.task sa.candidate) - score task)).gtZero = false) :
    acceptanceProbF fl E sa task =
      some (Float64.mulBy fl mathE
        (Float64.divBy fl (fl (score (E.task sa.candidate) - score task))
          sa.currentTemperature)) ∧
    |(mathE : ℝ) - Real.exp 1| < 1 / 10 ^ 9 ∧
    (fl = Float64.finite →
      (sa.currentTemperature ≠ 0 →
        acceptanceProbF fl E sa task =
            some (Float64.finite
              (mathE * ((score (E.task sa.candidate) - score task) / sa.currentTemperature))) ∧
          acceptanceProb E sa task =
            some (mathE * ((score (E.task sa.candidate) - score task) / sa.currentTemperature))) ∧
      (sa.currentTemperature = 0 →
        acceptanceProbF fl E sa task =
          some (if score (E.task sa.candidate) - score task < 0 then Float64.negInf
                else Float64.nan)) ∧
      (0 < sa.currentTemperature →
        ((mathE * ((score (E.task sa.candidate) - score task) / sa.currentTemperature) : ℚ) : ℝ)
          < Real.exp
            (((score (E.task sa.candidate) - score task) / sa.currentTemperature : ℚ) : ℝ))) := by
  have hgen : acceptanceProbF fl E sa task =
      some (Float64.mulBy fl mathE
        (Float64.divBy fl (fl (score (E.task sa.candidate) - score task))
          sa.currentTemperature)) := by
    rw [acceptanceProbF_of_score fl E sa task score hs, hd]
    simp
  refine ⟨hgen, ?_, ?_⟩
  · have hE : (mathE : ℝ) = 6121026514868073 / 2251799813685248 := by
      simp [mathE]
    have hlo := Real.exp_one_gt_d9
    have hhi := Real.exp_one_lt_d9
    rw [hE, abs_lt]
    constructor <;> norm_num at hlo hhi ⊢ <;> linarith
  · intro hfl
    subst hfl
    have hle : ¬ score (E.task sa.candidate) - score task > 0 := by
      simpa [Float64.gtZero] using hd
    refine ⟨?_, ?_, ?_⟩
    · intro hT
      refine ⟨?_, ?_⟩
      · rw [hgen]
        simp [Float64.divBy, Float64.mulBy, hT]
      · rw [acceptanceProb_of_score E sa task score hs, if_neg hle]
    · intro hT
      rw [hgen, hT]
      by_cases hz : score (E.task sa.candidate) - score task = 0
      · simp [Float64.divBy, Float64.mulBy, hz]
      · have hneg : score (E.task sa.candidate) - score task < 0 :=
          lt_of_le_of_ne (not_lt.mp hle) hz
        have hmE : (0 : ℚ) < mathE := mathE_pos
        simp [Float64.divBy, Float64.mulBy, hz, hneg, hmE]
    · intro hT
      have hq : (score (E.task sa.candidate) - score task) / sa.currentTemperature ≤ 0 :=
        div_nonpos_of_nonpos_of_nonneg (not_lt.mp hle) (le_of_lt hT)
      have hprod : mathE * ((score (E.task sa.candidate) - score task) /
          sa.currentTemperature) ≤ 0 :=
        mul_nonpos_of_nonneg_of_nonpos (le_of_lt mathE_pos) hq
      have hprod' : ((mathE * ((score (E.task sa.candidate) - score task) /
          sa.currentTemperature) : ℚ) : ℝ) ≤ 0 := by
        exact_mod_cast hprod
      exact lt_of_le_of_lt hprod' (Real.exp_pos _)

/-- Witness for C5: from candidate `6` to the better task `7` at temperature `10`
the value is `math.E * (-1 / 10)`; from candidate `5` at temperature `0` it is
`-Inf` for the better task `6` and NaN for the task `5` itself. -/
theorem acceptanceProb_linear_witness :
    (warmOptimizer.score = some peakScore ∧
      (Float64.finite (peakScore (counterE.task warmOptimizer.candidate) - peakScore 7)).gtZero
        = false) ∧
    acceptanceProbF Float64.finite counterE warmOptimizer 7 =
      some (Float64.finite (mathE * (-1 / 10))) ∧
    acceptanceProbF Float64.finite counterE coldOptimizer 6 = some Float64.negInf ∧
    acceptanceProbF Float64.finite counterE coldOptimizer 5 = some Float64.nan ∧
    acceptanceProbF Float64.finite counterE warmOptimizer 7 =
      some (Float64.mulBy Float64.finite mathE
        (Float64.divBy Float64.finite
          (Float64.finite (peakScore (counterE.task warmOptimizer.candidate) - peakScore 7))
          warmOptimizer.currentTemperature)) := by
  have hd : (Float64.finite
      (peakScore (counterE.task warmOptimizer.candidate) - peakScore 7)).gtZero = false := by
    decide!
  exact ⟨⟨rfl, hd⟩, by decide!, by decide!, by decide!,
    (acceptanceProb_linear Float64.finite counterE warmOptimizer 7 peakScore rfl hd).1⟩

/-- C6. Acceptance boundary: when the task scores exactly as the current candidate
(`diff = 0`), `acceptanceProb` returns `0`, not `1`, at every positive
`currentTemperature`. -/
theorem acceptanceProb_boundary (E : Collaborators Track Task Candidate Rng)
    (sa : simAnnealingOptimizer Track Task Candidate) (task : Task) (score : Task → ℚ)
    (hs : sa.score = some score)
    (hd : score (E.task sa.candidate) = score task)
    (hT : 0 < sa.currentTemperature) :
    acceptanceProb E sa task = some 0 ∧ acceptanceProb E sa task ≠ some 1 := by
  have hne : sa.currentTemperature ≠ 0 := ne_of_gt hT
  have h0 : acceptanceProb E sa task = some 0 := by
    rw [acceptanceProb_of_score E sa task score hs, hd, sub_self, if_neg (lt_irrefl 0),
      zero_div, mul_zero]
  refine ⟨h0, ?_⟩
  rw [h0]
  simp

/-- Witness for C6: candidate `6` and task `8` both score `6`, at temperature `10`. -/
theorem acceptanceProb_boundary_witness :
    warmOptimizer.score = some peakScore ∧
      peakScore (counterE.task warmOptimizer.candidate) = peakScore 8 ∧
      0 < warmOptimizer.currentTemperature ∧
      acceptanceProb counterE warmOptimizer 8 = some 0 ∧
      acceptanceProb counterE warmOptimizer 8 ≠ some 1 :=
  have hd : peakScore (counterE.task warmOptimizer.candidate) = peakScore 8 := by decide!
  have hT : 0 < warmOptimizer.currentTemperature := by decide!
  ⟨rfl, hd, hT, acceptanceProb_boundary counterE warmOptimizer 8 peakScore rfl hd hT⟩

/-- Counterexample to C7: start `2`, floor `1` and `alpha = 2⁻⁶⁰` are strictly
positive binary64 values.  In binary64 arithmetic `1 - alpha` rounds to `1`,
the cooling statement leaves the temperature at `2`, and the loop of `Optimize`
does not terminate: no bound on the number of iterations lets the call return. -/
theorem termination_counterexample :
    ((0 : ℚ) < 2 ∧ (0 : ℚ) < 1 ∧ (0 : ℚ) < 1 / 2 ^ 60) ∧
    (round64 2 = 2 ∧ round64 1 = 1 ∧ round64 (1 / 2 ^ 60) = 1 / 2 ^ 60) ∧
    (round64 (1 - 1 / 2 ^ 60) = 1 ∧ cool round64 (1 / 2 ^ 60) 2 = 2) ∧
    ¬ ∃ fuel : Nat,
      (OptimizeR round64 counterE fuel
        (NewSimAnnealingOptimizerParams counterE 2 1 (1 / 2 ^ 60) 0).1
        () 3 peakScore 0).isSome = true := by
  have hcool : cool round64 (1 / 2 ^ 60) 2 = 2 := by decide!
  have hrep : round64 (1 / 2 ^ 60) = 1 / 2 ^ 60 :=
    round64_of_significand 1 (-60) _ (by rw [zpow_neg]; norm_num) (by norm_num) (by norm_num)
  refine ⟨by norm_num, ⟨by decide!, by decide!, hrep⟩, ⟨by decide!, hcool⟩, ?_⟩
  rintro ⟨fuel, hf⟩
  have hc := OptimizeR_coolingSteps round64 counterE fuel
    (NewSimAnnealingOptimizerParams counterE 2 1 (1 / 2 ^ 60) 0).1 () 3 peakScore 0
  have hnone : coolingSteps round64 1 (1 / 2 ^ 60) fuel 2 = none :=
    coolingSteps_stuck round64 1 (1 / 2 ^ 60) 2 (by norm_num) hcool fuel
  have hc' : (OptimizeR round64 counterE fuel
      (NewSimAnnealingOptimizerParams counterE 2 1 (1 / 2 ^ 60) 0).1
      () 3 peakScore 0).map iterations = none := by
    rw [hc]
    exact hnone
  cases ho : OptimizeR round64 counterE fuel
      (NewSimAnnealingOptimizerParams counterE 2 1 (1 / 2 ^ 60) 0).1 () 3 peakScore 0 with
  | none => rw [ho] at hf; exact absurd hf (by simp)
  | some o => rw [ho] at hc'; exact absurd hc' (by simp)

/-- C7, amended.  For strictly positive `startTemperature` and `minTemperature`
and any `alpha > 0`, the loop of `Optimize` terminates when the cooling
arithmetic is exact, for every state of the random source, every score and
every behaviour of the candidate collaborator: there is a number `n` of
iterations after which the run has returned, whenever the fuel allows `n`
iterations.  In binary64 arithmetic it terminates when `alpha ≥ 1`, after at
most one iteration. -/
theorem OptimizeR_terminates (E : Collaborators Track Task Candidate Rng)
    (startTemperature minTemperature alpha : ℚ) (seed : Int) (track : Track)
    (nPoints : Int) (score : Task → ℚ) (rng : Rng)
    (hstart : 0 < startTemperature) (hmin : 0 < minTemperature) (ha : 0 < alpha) :
    (∃ (n : Nat) (o : Outcome Track Task Candidate Rng),
      (∀ fuel : Nat, n ≤ fuel →
        OptimizeR id E fuel
          (NewSimAnnealingOptimizerParams E startTemperature minTemperature alpha seed).1
          track nPoints score rng = some o) ∧
      iterations o = n) ∧
    (1 ≤ alpha →
      ∃ o : Outcome Track Task Candidate Rng,
        (∀ fuel : Nat, 1 ≤ fuel →
          OptimizeR round64 E fuel
            (NewSimAnnealingOptimizerParams E startTemperature minTemperature alpha seed).1
            track nPoints score rng = some o) ∧
        iterations o ≤ 1) := by
  constructor
  · obtain ⟨n, hlt, hle⟩ := exists_first_cool startTemperature minTemperature alpha
      (cooling_reaches_min startTemperature minTemperature alpha hmin ha)
    obtain ⟨o, ho, hit, _⟩ := Optimize_count E
      (NewSimAnnealingOptimizerParams E startTemperature minTemperature alpha seed).1
      track nPoints score rng n hlt hle
    refine ⟨n, o, ?_, hit⟩
    intro fuel hfuel
    rw [OptimizeR_id]
    exact ho fuel hfuel
  · intro h1
    have hq : round64 (1 - alpha) ≤ 0 := round64_nonpos _ (by linarith)
    have hcold : cool round64 alpha startTemperature ≤ 0 :=
      round64_nonpos _ (mul_nonpos_of_nonneg_of_nonpos (le_of_lt hstart) hq)
    have hsteps : ∃ n, n ≤ 1 ∧
        coolingSteps round64 minTemperature alpha 1 startTemperature = some n := by
      by_cases hg : startTemperature > minTemperature
      · refine ⟨1, le_refl _, ?_⟩
        have hng : ¬ cool round64 alpha startTemperature > minTemperature := by
          intro h
          linarith
        simp [coolingSteps, hg, hng]
      · exact ⟨0, Nat.zero_le _, by simp [coolingSteps, hg]⟩
    obtain ⟨n, hn, hs⟩ := hsteps
    obtain ⟨o, ho, hit⟩ := OptimizeR_of_coolingSteps round64 E 1
      (NewSimAnnealingOptimizerParams E startTemperature minTemperature alpha seed).1
      track nPoints score rng n hs
    refine ⟨o, ?_, by rw [hit]; exact hn⟩
    intro fuel hfuel
    exact OptimizeR_mono round64 E 1 fuel _ track nPoints score rng o ho hfuel

/-- Witness for C7, amended: start `10`, floor `1` and `alpha = 3/2`, which is
above `1`; in binary64 arithmetic the run makes one iteration and ends at
temperature `-5`. -/
theorem OptimizeR_terminates_witness :
    ((0 : ℚ) < 10 ∧ (0 : ℚ) < 1 ∧ (0 : ℚ) < 3 / 2 ∧ (1 : ℚ) ≤ 3 / 2) ∧
    (OptimizeR round64 counterE 1 (NewSimAnnealingOptimizerParams counterE 10 1 (3 / 2) 0).1
      () 3 peakScore 0).map (fun o => (iterations o, o.final.sa.currentTemperature))
      = some (1, -5) ∧
    (∃ (n : Nat) (o : Outcome Unit Nat Nat Nat),
      (∀ fuel : Nat, n ≤ fuel →
        OptimizeR id counterE fuel (NewSimAnnealingOptimizerParams counterE 10 1 (3 / 2) 0).1
          () 3 peakScore 0 = some o) ∧
      iterations o = n) ∧
    ∃ o : Outcome Unit Nat Nat Nat,
      (∀ fuel : Nat, 1 ≤ fuel →
        OptimizeR round64 counterE fuel
          (NewSimAnnealingOptimizerParams counterE 10 1 (3 / 2) 0).1
          () 3 peakScore 0 = some o) ∧
      iterations o ≤ 1 := by
  have hyp : (0 : ℚ) < 10 ∧ (0 : ℚ) < 1 ∧ (0 : ℚ) < 3 / 2 ∧ (1 : ℚ) ≤ 3 / 2 := by norm_num
  have hthm := OptimizeR_terminates counterE 10 1 (3 / 2) 0 () 3 peakScore 0
    hyp.1 hyp.2.1 hyp.2.2.1
  exact ⟨hyp, by decide!, hthm.1, hthm.2 hyp.2.2.2⟩

/-- Counterexample to C8: two executed iterations in binary64 arithmetic, both
with `alpha` in `(0, 1)` and `minTemperature ≥ 0`.  At temperature `2` with
floor `1` and `alpha = 2⁻⁶⁰` the temperature after the iteration is `2` again,
not strictly smaller; at temperature `2⁻¹⁰⁷⁴` with floor `0` and `alpha = 1/2`
the temperature after the iteration is `0`, not strictly positive. -/
theorem cooling_step_counterexample :
    ((stuckMachine.sa.currentTemperature > stuckMachine.sa.minTemperature ∧
        0 ≤ stuckMachine.sa.minTemperature ∧ 0 < stuckMachine.sa.alpha ∧
        stuckMachine.sa.alpha < 1) ∧
      stuckMachine.sa.currentTemperature = 2 ∧
      (bodyR round64 counterE stuckMachine).map (fun m => m.sa.currentTemperature) = some 2) ∧
    ((vanishingMachine.sa.currentTemperature > vanishingMachine.sa.minTemperature ∧
        0 ≤ vanishingMachine.sa.minTemperature ∧ 0 < vanishingMachine.sa.alpha ∧
        vanishingMachine.sa.alpha < 1) ∧
      round64 vanishingMachine.sa.currentTemperature = vanishingMachine.sa.currentTemperature ∧
      (bodyR round64 counterE vanishingMachine).map (fun m => m.sa.currentTemperature) =
        some 0) := by
  refine ⟨⟨by decide!, rfl, by decide!⟩, ?_, ?_, ?_⟩
  · refine ⟨?_, ?_, ?_, ?_⟩
    · show (1 : ℚ) / 2 ^ 1074 > 0
      positivity
    · show (0 : ℚ) ≤ 0
      exact le_refl _
    · show (0 : ℚ) < 1 / 2
      norm_num
    · show (1 / 2 : ℚ) < 1
      norm_num
  · show round64 (1 / 2 ^ 1074) = 1 / 2 ^ 1074
    exact round64_of_significand 1 (-1074) _ (by rw [zpow_neg]; norm_num) (by norm_num)
      (by norm_num)
  · obtain ⟨m', hb, _, _, _, hT, _⟩ :=
      bodyR_of_score round64 counterE vanishingMachine peakScore rfl
    rw [hb, Option.map_some', hT]
    show some (round64 ((1 : ℚ) / 2 ^ 1074 * round64 (1 - 1 / 2))) = some 0
    have hq : round64 (1 - 1 / 2) = 1 / 2 := by decide!
    have hx : (1 : ℚ) / 2 ^ 1074 * (1 / 2) = 1 / 2 ^ 1075 := by
      rw [div_mul_div_comm, one_mul, ← pow_succ]
    rw [hq, hx, round64_underflow]

/-- C8, amended.  At an executed loop iteration (the guard
`currentTemperature > minTemperature` true) with `alpha` in `(0, 1)` and
`minTemperature ≥ 0`: when the cooling arithmetic is exact, the temperature after
the iteration is `currentTemperature * (1 - alpha)`, strictly smaller than
before and still strictly positive; in binary64 arithmetic, for a binary64
`currentTemperature`, the temperature after the iteration is again a binary64
value, at most the one before and at least `0`. -/
theorem cooling_step (E : Collaborators Track Task Candidate Rng)
    (m : Machine Track Task Candidate Rng) (score : Task → ℚ)
    (hs : m.sa.score = some score)
    (hg : m.sa.currentTemperature > m.sa.minTemperature)
    (hmin : 0 ≤ m.sa.minTemperature) (h0 : 0 < m.sa.alpha) (h1 : m.sa.alpha < 1) :
    (∃ m', bodyR id E m = some m' ∧
      m'.sa.currentTemperature = m.sa.currentTemperature * (1 - m.sa.alpha) ∧
      m'.sa.currentTemperature < m.sa.currentTemperature ∧
      0 < m'.sa.currentTemperature ∧
      m'.sa.minTemperature = m.sa.minTemperature ∧ m'.sa.alpha = m.sa.alpha) ∧
    (round64 m.sa.currentTemperature = m.sa.currentTemperature →
      ∃ m', bodyR round64 E m = some m' ∧
        m'.sa.currentTemperature = round64 (m.sa.currentTemperature * round64 (1 - m.sa.alpha)) ∧
        m'.sa.currentTemperature ≤ m.sa.currentTemperature ∧
        0 ≤ m'.sa.currentTemperature ∧
        round64 m'.sa.currentTemperature = m'.sa.currentTemperature ∧
        m'.sa.minTemperature = m.sa.minTemperature ∧ m'.sa.alpha = m.sa.alpha) := by
  have hpos : 0 < m.sa.currentTemperature := lt_of_le_of_lt hmin hg
  constructor
  · obtain ⟨m', hb, _, hmin', hal', hT, _⟩ := bodyR_of_score id E m score hs
    rw [cool_id] at hT
    refine ⟨m', hb, hT, ?_, ?_, hmin', hal'⟩
    · rw [hT]
      nlinarith
    · rw [hT]
      exact mul_pos hpos (by linarith)
  · intro hrep
    obtain ⟨m', hb, _, hmin', hal', hT, _⟩ := bodyR_of_score round64 E m score hs
    have hone : round64 1 = 1 := by decide!
    have hq0 : 0 ≤ round64 (1 - m.sa.alpha) := round64_nonneg _ (by linarith)
    have hq1 : round64 (1 - m.sa.alpha) ≤ 1 :=
      round64_le_of_le _ 1 (by linarith) (by linarith) hone
    have hprod0 : 0 ≤ m.sa.currentTemperature * round64 (1 - m.sa.alpha) :=
      mul_nonneg (le_of_lt hpos) hq0
    have hprod1 : m.sa.currentTemperature * round64 (1 - m.sa.alpha) ≤
        m.sa.currentTemperature := by
      nlinarith
    refine ⟨m', hb, hT, ?_, ?_, ?_, hmin', hal'⟩
    · rw [hT]
      exact round64_le_of_le _ _ hprod0 hprod1 hrep
    · rw [hT]
      exact round64_nonneg _ hprod0
    · rw [hT]
      exact round64_idem _

/-- Witness for C8, amended: the first iteration of `demoOptimizer`, from
temperature `10` to `5` in exact and in binary64 arithmetic alike. -/
theorem cooling_step_witness :
    ((entry counterE demoOptimizer () 3 peakScore 0).sa.score = some peakScore ∧
      (entry counterE demoOptimizer () 3 peakScore 0).sa.currentTemperature >
        (entry counterE demoOptimizer () 3 peakScore 0).sa.minTemperature ∧
      0 ≤ (entry counterE demoOptimizer () 3 peakScore 0).sa.minTemperature ∧
      0 < (entry counterE demoOptimizer () 3 peakScore 0).sa.alpha ∧
      (entry counterE demoOptimizer () 3 peakScore 0).sa.alpha < 1 ∧
      round64 (entry counterE demoOptimizer () 3 peakScore 0).sa.currentTemperature =
        (entry counterE demoOptimizer () 3 peakScore 0).sa.currentTemperature) ∧
    (bodyR round64 counterE (entry counterE demoOptimizer () 3 peakScore 0)).map
      (fun m => m.sa.currentTemperature) = some 5 ∧
    (∃ m', bodyR id counterE (entry counterE demoOptimizer () 3 peakScore 0) = some m' ∧
      m'.sa.currentTemperature =
        (entry counterE demoOptimizer () 3 peakScore 0).sa.currentTemperature *
          (1 - (entry counterE demoOptimizer () 3 peakScore 0).sa.alpha) ∧
      m'.sa.currentTemperature <
        (entry counterE demoOptimizer () 3 peakScore 0).sa.currentTemperature ∧
      0 < m'.sa.currentTemperature ∧
      m'.sa.minTemperature = (entry counterE demoOptimizer () 3 peakScore 0).sa.minTemperature ∧
      m'.sa.alpha = (entry counterE demoOptimizer () 3 peakScore 0).sa.alpha) ∧
    ∃ m', bodyR round64 counterE (entry counterE demoOptimizer () 3 peakScore 0) = some m' ∧
      m'.sa.currentTemperature =
        round64 ((entry counterE demoOptimizer () 3 peakScore 0).sa.currentTemperature *
          round64 (1 - (entry counterE demoOptimizer () 3 peakScore 0).sa.alpha)) ∧
      m'.sa.currentTemperature ≤
        (entry counterE demoOptimizer () 3 peakScore 0).sa.currentTemperature ∧
      0 ≤ m'.sa.currentTemperature ∧
      round64 m'.sa.currentTemperature = m'.sa.currentTemperature ∧
      m'.sa.minTemperature = (entry counterE demoOptimizer () 3 peakScore 0).sa.minTemperature ∧
      m'.sa.alpha = (entry counterE demoOptimizer () 3 peakScore 0).sa.alpha := by
  have hg : (entry counterE demoOptimizer () 3 peakScore 0).sa.currentTemperature >
      (entry counterE demoOptimizer () 3 peakScore 0).sa.minTemperature := by decide!
  have hmin : 0 ≤ (entry counterE demoOptimizer () 3 peakScore 0).sa.minTemperature := by
    decide!
  have h0 : 0 < (entry counterE demoOptimizer () 3 peakScore 0).sa.alpha := by decide!
  have h1 : (entry counterE demoOptimizer () 3 peakScore 0).sa.alpha < 1 := by decide!
  have hrep : round64 (entry counterE demoOptimizer () 3 peakScore 0).sa.currentTemperature =
      (entry counterE demoOptimizer () 3 peakScore 0).sa.currentTemperature := by decide!
  have hthm := cooling_step counterE (entry counterE demoOptimizer () 3 peakScore 0) peakScore
    rfl hg hmin h0 h1
  exact ⟨⟨rfl, hg, hmin, h0, h1, hrep⟩, by decide!, hthm.1, hthm.2 hrep⟩

/-- C9. Degenerate configuration.  An optimizer constructed with
`startTemperature ≤ minTemperature` makes `Optimize` return without executing
the loop body, whatever the fuel: zero iterations, the task of the initial
random candidate, and a nil error, for every `alpha`, track, `nPoints`, score
and random source. -/
theorem Optimize_degenerate (E : Collaborators Track Task Candidate Rng)
    (startTemperature minTemperature alpha : ℚ) (seed : Int) (track : Track)
    (nPoints : Int) (score : Task → ℚ) (rng : Rng) (fuel : Nat)
    (h : startTemperature ≤ minTemperature) :
    ∃ o : Outcome Track Task Candidate Rng,
      Optimize E fuel
        (NewSimAnnealingOptimizerParams E startTemperature minTemperature alpha seed).1
        track nPoints score rng = some o ∧
      iterations o = 0 ∧
      o.final.generated = [] ∧
      o.task = E.task (initialCandidate E track nPoints rng) ∧
      o.err = none :=
  ⟨_, Optimize_cold E fuel
      (NewSimAnnealingOptimizerParams E startTemperature minTemperature alpha seed).1
      track nPoints score rng h,
    rfl, rfl, rfl, rfl⟩

/-- Witness for C9: start `1` and floor `1`, with no fuel at all. -/
theorem Optimize_degenerate_witness :
    (1 : ℚ) ≤ 1 ∧
    ∃ o : Outcome Unit Nat Nat Nat,
      Optimize counterE 0 (NewSimAnnealingOptimizerParams counterE 1 1 (1 / 2) 0).1
        () 3 peakScore 0 = some o ∧
      iterations o = 0 ∧
      o.final.generated = [] ∧
      o.task = counterE.task (initialCandidate counterE () 3 0) ∧
      o.err = none :=
  ⟨le_refl 1, Optimize_degenerate counterE 1 1 (1 / 2) 0 () 3 peakScore 0 0 (le_refl 1)⟩

/-- Counterexample to C10: the optimizer built with start `10`, floor `9` and
`alpha = 1/2` performs one iteration in its first call of `Optimize` and ends at
temperature `5`; a second call on the same optimizer performs no iteration. -/
theorem Optimize_second_call_counterexample :
    firstCall.map iterations = some 1 ∧
      firstCall.map (fun o => o.final.sa.currentTemperature) = some 5 ∧
      oneStepOptimizer.currentTemperature = 10 ∧
      secondCall.map iterations = some 0 := by
  decide!

/-- C10, amended.  `initialize` installs track, `nPoints`, score, candidate and
best afresh on every call, and leaves `currentTemperature`, `minTemperature` and
`alpha` as they are.  A second call of `Optimize` on the optimizer a first call
has left behind therefore starts from the temperature at which the first call
ended, and it performs as many loop iterations as the first call exactly when
the first call performed none. -/
theorem Optimize_second_call (E : Collaborators Track Task Candidate Rng)
    (fuel fuel2 : Nat) (sa : simAnnealingOptimizer Track Task Candidate)
    (track track2 : Track) (nPoints nPoints2 : Int) (score score2 : Task → ℚ)
    (rng rng2 : Rng) (o1 o2 : Outcome Track Task Candidate Rng)
    (h1 : Optimize E fuel sa track nPoints score rng = some o1)
    (h2 : Optimize E fuel2 o1.final.sa track2 nPoints2 score2 rng2 = some o2) :
    ((initialise E o1.final.sa track2 nPoints2 score2 rng2).1.currentTemperature =
        o1.final.sa.currentTemperature ∧
      (initialise E o1.final.sa track2 nPoints2 score2 rng2).1.minTemperature =
        o1.final.sa.minTemperature ∧
      (initialise E o1.final.sa track2 nPoints2 score2 rng2).1.alpha = o1.final.sa.alpha) ∧
    ((initialise E o1.final.sa track2 nPoints2 score2 rng2).1.track = some track2 ∧
      (initialise E o1.final.sa track2 nPoints2 score2 rng2).1.nPoints = nPoints2 ∧
      (initialise E o1.final.sa track2 nPoints2 score2 rng2).1.score = some score2 ∧
      (initialise E o1.final.sa track2 nPoints2 score2 rng2).1.candidate =
        initialCandidate E track2 nPoints2 rng2 ∧
      (initialise E o1.final.sa track2 nPoints2 score2 rng2).1.best =
        initialCandidate E track2 nPoints2 rng2) ∧
    (iterations o2 = iterations o1 ↔ iterations o1 = 0) := by
  have hcold := Optimize_final_cold E fuel sa track nPoints score rng o1 h1
  have h2' := Optimize_cold E fuel2 o1.final.sa track2 nPoints2 score2 rng2 hcold
  rw [h2, Option.some.injEq] at h2'
  have hz : iterations o2 = 0 := by
    rw [h2']
    rfl
  refine ⟨⟨rfl, rfl, rfl⟩, ⟨rfl, rfl, rfl, rfl, rfl⟩, ?_⟩
  rw [hz]
  exact eq_comm

/-- Witness for C10, amended: the two calls `firstCall` and `secondCall`. -/
theorem Optimize_second_call_witness :
    ∃ o1 o2 : Outcome Unit Nat Nat Nat,
      Optimize counterE 5 oneStepOptimizer () 3 peakScore 42 = some o1 ∧
      Optimize counterE 5 o1.final.sa () 3 peakScore o1.final.rng = some o2 ∧
      (iterations o2 = iterations o1 ↔ iterations o1 = 0) := by
  have hs1 : firstCall.isSome = true := by decide!
  have hs2 : secondCall.isSome = true := by decide!
  have hd1 : firstCall = some (firstCall.get hs1) := (Option.some_get hs1).symm
  have hd2 : secondCall = some (secondCall.get hs2) := (Option.some_get hs2).symm
  have hd2' : Optimize counterE 5 (firstCall.get hs1).final.sa () 3 peakScore
      (firstCall.get hs1).final.rng = some (secondCall.get hs2) := by
    have e : secondCall = Optimize counterE 5 (firstCall.get hs1).final.sa () 3 peakScore
        (firstCall.get hs1).final.rng := by
      conv_lhs => rw [secondCall, hd1]
      rfl
    rw [← e]
    exact hd2
  exact ⟨firstCall.get hs1, secondCall.get hs2, hd1, hd2',
    (Optimize_second_call counterE 5 5 oneStepOptimizer () () 3 3 peakScore peakScore 42
      (firstCall.get hs1).final.rng (firstCall.get hs1) (secondCall.get hs2) hd1 hd2').2.2⟩

/-- C11. The convenience constructor `NewSimAnnealingOptimizer` builds an optimizer
with `startTemperature = 1000`, `minTemperature = 1` and `alpha = 0.003`.  As
`1000 * 0.997 ^ 2299 > 1` and `1000 * 0.997 ^ 2300 ≤ 1`, the first run of
`Optimize` on it performs exactly `2300` loop iterations, whatever the seed (the
clock reading), the state of the random source, the track and the score. -/
theorem NewSimAnnealingOptimizer_iterations (E : Collaborators Track Task Candidate Rng)
    (now : Int) (track : Track) (nPoints : Int) (score : Task → ℚ) (rng : Rng) :
    ((NewSimAnnealingOptimizer E now).1.currentTemperature = 1000 ∧
      (NewSimAnnealingOptimizer E now).1.minTemperature = 1 ∧
      (NewSimAnnealingOptimizer E now).1.alpha = 3 / 1000 ∧
      (NewSimAnnealingOptimizer E now).2 = E.seed now) ∧
    ((1 : ℚ) < 1000 * (997 / 1000) ^ 2299 ∧ (1000 : ℚ) * (997 / 1000) ^ 2300 ≤ 1) ∧
    ∃ o : Outcome Track Task Candidate Rng,
      (∀ fuel : Nat, 2300 ≤ fuel →
        Optimize E fuel (NewSimAnnealingOptimizer E now).1 track nPoints score rng = some o) ∧
      iterations o = 2300 := by
  have hlo : (1 : ℚ) < 1000 * (1 - 3 / 1000) ^ 2299 := by norm_num
  refine ⟨⟨rfl, rfl, rfl, rfl⟩, ⟨by norm_num, by norm_num⟩, ?_⟩
  obtain ⟨n, hn⟩ : ∃ n : Nat, n = 2300 := ⟨_, rfl⟩
  have hhi : (1000 : ℚ) * (1 - 3 / 1000) ^ n ≤ 1 := by
    rw [hn]
    norm_num
  obtain ⟨o, ho, hit, _⟩ := Optimize_count E (NewSimAnnealingOptimizer E now).1
    track nPoints score rng n
    (by
      intro k hk
      show (1 : ℚ) < 1000 * (1 - 3 / 1000) ^ k
      exact cooling_above_before 1000 1 (3 / 1000) 2299 (by norm_num) (by norm_num)
        (by norm_num) hlo k (by omega))
    hhi
  rw [hn] at ho hit
  exact ⟨o, ho, hit⟩

/-- C12. `Optimize` has no failure path.  Whenever the loop terminates, that is,
whenever cooling brings the temperature to the floor after some number `n` of
steps, `Optimize` returns as soon as the fuel allows `n` iterations; the error
it returns is nil and the task it returns is `best.Task`, and every returning
run, whatever its fuel, gives this same outcome. -/
theorem Optimize_no_failure (E : Collaborators Track Task Candidate Rng)
    (sa : simAnnealingOptimizer Track Task Candidate) (track : Track) (nPoints : Int)
    (score : Task → ℚ) (rng : Rng) (n : Nat)
    (h : sa.currentTemperature * (1 - sa.alpha) ^ n ≤ sa.minTemperature) :
    ∃ o : Outcome Track Task Candidate Rng,
      (∀ fuel : Nat, n ≤ fuel → Optimize E fuel sa track nPoints score rng = some o) ∧
      o.err = none ∧
      o.task = E.task o.final.sa.best ∧
      (∀ (fuel : Nat) (o' : Outcome Track Task Candidate Rng),
        Optimize E fuel sa track nPoints score rng = some o' → o' = o) := by
  obtain ⟨n', hn', hlt, hle⟩ := exists_first_cool_le sa.currentTemperature
    sa.minTemperature sa.alpha n h
  obtain ⟨o, ho, _, _⟩ := Optimize_count E sa track nPoints score rng n' hlt hle
  have hret := ho n' (le_refl _)
  obtain ⟨_, ht, he⟩ := Optimize_some E n' sa track nPoints score rng o hret
  refine ⟨o, fun fuel hf => ho fuel (le_trans hn' hf), he, ht, ?_⟩
  intro fuel o' ho'
  exact Optimize_fuel_irrelevant E sa track nPoints score rng fuel n' o' o ho' hret

/-- Witness for C12: `demoOptimizer`, whose temperature `10 * (1/2) ^ 4` is below `1`. -/
theorem Optimize_no_failure_witness :
    demoOptimizer.currentTemperature * (1 - demoOptimizer.alpha) ^ 4 ≤
      demoOptimizer.minTemperature ∧
    ∃ o : Outcome Unit Nat Nat Nat,
      (∀ fuel : Nat, 4 ≤ fuel → Optimize counterE fuel demoOptimizer () 3 peakScore 0 = some o) ∧
      o.err = none ∧
      o.task = counterE.task o.final.sa.best ∧
      (∀ (fuel : Nat) (o' : Outcome Unit Nat Nat Nat),
        Optimize counterE fuel demoOptimizer () 3 peakScore 0 = some o' → o' = o) :=
  have hyp : demoOptimizer.currentTemperature * (1 - demoOptimizer.alpha) ^ 4 ≤
      demoOptimizer.minTemperature := by decide!
  ⟨hyp, Optimize_no_failure counterE demoOptimizer () 3 peakScore 0 4 hyp⟩

/-- C14. Move decision.  In an iteration at a positive `currentTemperature` and
with a draw of `rand.Float64()` in `[0, 1)`, the test
`acceptanceProb > rand.Float64()` succeeds exactly when the generated neighbour
scores strictly less than the current candidate; so the current candidate
becomes the neighbour in that case and stays as it is when the neighbour scores
the same or more, for every such draw, `0` included. -/
theorem move_decision (E : Collaborators Track Task Candidate Rng)
    (m : Machine Track Task Candidate Rng) (score : Task → ℚ)
    (hs : m.sa.score = some score) (hT : 0 < m.sa.currentTemperature)
    (hr0 : 0 ≤ nextDraw E m) (hr1 : nextDraw E m < 1) :
    (moveAccepted E m = true ↔
      score (E.task (nextCandidate E m)) < score (E.task m.sa.candidate)) ∧
    ∃ m', body E m = some m' ∧
      m'.sa.candidate =
        (if score (E.task (nextCandidate E m)) < score (E.task m.sa.candidate)
         then nextCandidate E m else m.sa.candidate) := by
  have hiff := moveAccepted_iff E m score hs hT hr0 hr1
  obtain ⟨m', hb, hc⟩ := body_candidate E m score hs
  refine ⟨hiff, m', hb, ?_⟩
  rw [hc]
  by_cases ha : moveAccepted E m = true
  · rw [if_pos ha, if_pos (hiff.mp ha)]
  · rw [if_neg ha, if_neg (fun h => ha (hiff.mpr h))]

/-- Witness for C14: from candidate `8` (score `6`) to its neighbour `9` (score
`5`) at temperature `10` with draw `1/2`; the move is accepted. -/
theorem move_decision_witness :
    (downhillMachine.sa.score = some peakScore ∧ 0 < downhillMachine.sa.currentTemperature ∧
      0 ≤ nextDraw counterE downhillMachine ∧ nextDraw counterE downhillMachine < 1) ∧
    moveAccepted counterE downhillMachine = true ∧
    moveAccepted counterE warmMachine = false ∧
    ((moveAccepted counterE downhillMachine = true ↔
      peakScore (counterE.task (nextCandidate counterE downhillMachine)) <
        peakScore (counterE.task downhillMachine.sa.candidate)) ∧
    ∃ m', body counterE downhillMachine = some m' ∧
      m'.sa.candidate =
        (if peakScore (counterE.task (nextCandidate counterE downhillMachine)) <
            peakScore (counterE.task downhillMachine.sa.candidate)
         then nextCandidate counterE downhillMachine else downhillMachine.sa.candidate)) := by
  have hT : 0 < downhillMachine.sa.currentTemperature := by decide!
  have hr0 : 0 ≤ nextDraw counterE downhillMachine := by decide!
  have hr1 : nextDraw counterE downhillMachine < 1 := by decide!
  exact ⟨⟨rfl, hT, hr0, hr1⟩, by decide!, by decide!,
    move_decision counterE downhillMachine peakScore rfl hT hr0 hr1⟩

/-- Counterexample to C15: at a positive `currentTemperature` no optimizer, score
and task make `acceptanceProb` return a value above `1`. -/
theorem acceptanceProb_above_one_counterexample :
    ¬ ∃ (Track Task Candidate Rng : Type) (E : Collaborators Track Task Candidate Rng)
        (sa : simAnnealingOptimizer Track Task Candidate) (task : Task) (p : ℚ),
        0 < sa.currentTemperature ∧ acceptanceProb E sa task = some p ∧ 1 < p := by
  rintro ⟨Track, Task, Candidate, Rng, E, sa, task, p, hT, hp, h1⟩
  cases hs : sa.score with
  | none => simp [acceptanceProb, hs] at hp
  | some score =>
    rw [acceptanceProb_of_score E sa task score hs, Option.some.injEq] at hp
    by_cases hd : score (E.task sa.candidate) - score task > 0
    · rw [if_pos hd] at hp
      rw [← hp] at h1
      exact lt_irrefl _ h1
    · rw [if_neg hd] at hp
      have hq : (score (E.task sa.candidate) - score task) / sa.currentTemperature ≤ 0 :=
        div_nonpos_of_nonpos_of_nonneg (not_lt.mp hd) (le_of_lt hT)
      have hle : mathE * ((score (E.task sa.candidate) - score task) /
          sa.currentTemperature) ≤ 0 :=
        mul_nonpos_of_nonneg_of_nonpos (le_of_lt mathE_pos) hq
      rw [hp] at hle
      linarith

/-- C15, amended.  At a positive `currentTemperature` the value `acceptanceProb`
returns is exactly `1` when `diff > 0` and is `math.E * (diff / currentTemperature)`,
at most `0`, otherwise; it is negative whenever `diff` is negative, and it never
exceeds `1`. -/
theorem acceptanceProb_range (E : Collaborators Track Task Candidate Rng)
    (sa : simAnnealingOptimizer Track Task Candidate) (task : Task) (score : Task → ℚ)
    (hs : sa.score = some score) (hT : 0 < sa.currentTemperature) :
    ∃ p : ℚ, acceptanceProb E sa task = some p ∧
      (score (E.task sa.candidate) - score task > 0 → p = 1) ∧
      (¬ score (E.task sa.candidate) - score task > 0 →
        p = mathE * ((score (E.task sa.candidate) - score task) / sa.currentTemperature) ∧
          p ≤ 0) ∧
      (score (E.task sa.candidate) - score task < 0 → p < 0) ∧
      p ≤ 1 := by
  rw [acceptanceProb_of_score E sa task score hs]
  by_cases hd : score (E.task sa.candidate) - score task > 0
  · refine ⟨1, by rw [if_pos hd], fun _ => rfl, fun h => absurd hd h, ?_, le_refl _⟩
    intro h
    linarith
  · have hq : (score (E.task sa.candidate) - score task) / sa.currentTemperature ≤ 0 :=
      div_nonpos_of_nonpos_of_nonneg (not_lt.mp hd) (le_of_lt hT)
    have hle : mathE * ((score (E.task sa.candidate) - score task) /
        sa.currentTemperature) ≤ 0 :=
      mul_nonpos_of_nonneg_of_nonpos (le_of_lt mathE_pos) hq
    refine ⟨_, by rw [if_neg hd], fun h => absurd h hd, fun _ => ⟨rfl, hle⟩, ?_, by linarith⟩
    intro hneg
    exact mul_neg_of_pos_of_neg mathE_pos (div_neg_of_neg_of_pos hneg hT)

/-- Witness for C15, amended: from candidate `6` to the better task `7` at
temperature `10` the value is `math.E * (-1 / 10)`, which is negative. -/
theorem acceptanceProb_range_witness :
    (warmOptimizer.score = some peakScore ∧ 0 < warmOptimizer.currentTemperature) ∧
    acceptanceProb counterE warmOptimizer 7 = some (mathE * (-1 / 10)) ∧
    mathE * (-1 / 10) < 0 ∧
    ∃ p : ℚ, acceptanceProb counterE warmOptimizer 7 = some p ∧
      (peakScore (counterE.task warmOptimizer.candidate) - peakScore 7 > 0 → p = 1) ∧
      (¬ peakScore (counterE.task warmOptimizer.candidate) - peakScore 7 > 0 →
        p = mathE * ((peakScore (counterE.task warmOptimizer.candidate) - peakScore 7) /
          warmOptimizer.currentTemperature) ∧ p ≤ 0) ∧
      (peakScore (counterE.task warmOptimizer.candidate) - peakScore 7 < 0 → p < 0) ∧
      p ≤ 1 := by
  have hT : 0 < warmOptimizer.currentTemperature := by decide!
  exact ⟨⟨rfl, hT⟩, by decide!, by decide!,
    acceptanceProb_range counterE warmOptimizer 7 peakScore rfl hT⟩

/-- C16. Run-log length.  In every run of `Optimize` that returns after `n` loop
iterations, each of `Candidates`, `Bests` and `Temperature` has exactly `n + 1`
entries, the first being the zero-valued placeholder created before the loop.
In particular the optimizer built with start `10`, floor `9` and `alpha = 1/2`
makes exactly one iteration and logs exactly two entries, whatever the seed,
the random source, the track and the score. -/
theorem RunLog_length (E : Collaborators Track Task Candidate Rng) :
    (∀ (fuel : Nat) (sa : simAnnealingOptimizer Track Task Candidate) (track : Track)
        (nPoints : Int) (score : Task → ℚ) (rng : Rng) (o : Outcome Track Task Candidate Rng),
      Optimize E fuel sa track nPoints score rng = some o →
        o.final.generated.length = iterations o ∧
        o.final.log.Candidates.length = iterations o + 1 ∧
        o.final.log.Bests.length = iterations o + 1 ∧
        o.final.log.Temperature.length = iterations o + 1 ∧
        o.final.log.Candidates[0]? = some E.zeroCandidate ∧
        o.final.log.Bests[0]? = some E.zeroCandidate ∧
        o.final.log.Temperature[0]? = some 0) ∧
    (∀ (seed : Int) (track : Track) (nPoints : Int) (score : Task → ℚ) (rng : Rng),
      ∃ o : Outcome Track Task Candidate Rng,
        (∀ fuel : Nat, 1 ≤ fuel →
          Optimize E fuel (NewSimAnnealingOptimizerParams E 10 9 (1 / 2) seed).1
            track nPoints score rng = some o) ∧
        iterations o = 1 ∧
        o.final.log.Candidates.length = 2 ∧
        o.final.log.Bests.length = 2 ∧
        o.final.log.Temperature.length = 2) := by
  have general : ∀ (fuel : Nat) (sa : simAnnealingOptimizer Track Task Candidate)
      (track : Track) (nPoints : Int) (score : Task → ℚ) (rng : Rng)
      (o : Outcome Track Task Candidate Rng),
      Optimize E fuel sa track nPoints score rng = some o →
        o.final.generated.length = iterations o ∧
        o.final.log.Candidates.length = iterations o + 1 ∧
        o.final.log.Bests.length = iterations o + 1 ∧
        o.final.log.Temperature.length = iterations o + 1 ∧
        o.final.log.Candidates[0]? = some E.zeroCandidate ∧
        o.final.log.Bests[0]? = some E.zeroCandidate ∧
        o.final.log.Temperature[0]? = some 0 := by
    intro fuel sa track nPoints score rng o h
    obtain ⟨hrun, _, hG, hC, hB, hT⟩ := Optimize_trace E fuel sa track nPoints score rng o h
    have hst := runBody_log_stable E (entry E sa track nPoints score rng) score
      (entry_score E sa track nPoints score rng) 0 _ rfl (iterations o) o.final
      (by rw [Nat.zero_add]; exact hrun)
    refine ⟨hG, hC, hB, hT, ?_, ?_, ?_⟩
    · exact hst.1 0 (Nat.zero_lt_one)
    · exact hst.2.1 0 (Nat.zero_lt_one)
    · exact hst.2.2 0 (Nat.zero_lt_one)
  refine ⟨general, ?_⟩
  intro seed track nPoints score rng
  obtain ⟨o, ho, hit, _⟩ := Optimize_count E
    (NewSimAnnealingOptimizerParams E 10 9 (1 / 2) seed).1 track nPoints score rng 1
    (by
      intro k hk
      obtain rfl : k = 0 := by omega
      show (9 : ℚ) < 10 * (1 - 1 / 2) ^ 0
      norm_num)
    (by
      show (10 : ℚ) * (1 - 1 / 2) ^ 1 ≤ 9
      norm_num)
  obtain ⟨_, hC, hB, hT, _⟩ := general 1 _ track nPoints score rng o (ho 1 (le_refl _))
  rw [hit] at hC hB hT
  exact ⟨o, ho, hit, hC, hB, hT⟩

/-- Witness for C16: the run `firstCall` of the optimizer built from `(10, 9, 1/2)`
with seed `42`: one iteration, two entries in each sequence of the log. -/
theorem RunLog_length_witness :
    ∃ o : Outcome Unit Nat Nat Nat, firstCall = some o ∧
      iterations o = 1 ∧
      o.final.generated.length = iterations o ∧
      o.final.log.Candidates.length = iterations o + 1 ∧
      o.final.log.Bests.length = iterations o + 1 ∧
      o.final.log.Temperature.length = iterations o + 1 ∧
      o.final.log.Candidates[0]? = some counterE.zeroCandidate ∧
      o.final.log.Bests[0]? = some counterE.zeroCandidate ∧
      o.final.log.Temperature[0]? = some 0 := by
  have hs : firstCall.isSome = true := by decide!
  have hd : firstCall = some (firstCall.get hs) := (Option.some_get hs).symm
  have h1 : firstCall.map iterations = some 1 := by decide!
  rw [hd, Option.map_some', Option.some.injEq] at h1
  exact ⟨firstCall.get hs, hd, h1,
    (RunLog_length counterE).1 5 oneStepOptimizer () 3 peakScore 42 (firstCall.get hs) hd⟩

/-- Counterexample to C17: the run of the optimizer built from start `1`, floor
`81/256 - 2⁻⁵⁴` and `alpha = 1/4 + 2⁻⁵⁴` in binary64 arithmetic returns after `5`
iterations, and entry `1` of its `Temperature` log is `3/4`, where
`startTemperature * (1 - alpha) ^ 1` is `3/4 - 2⁻⁵⁴`. -/
theorem RunLog_entries_counterexample :
    driftRun.map (fun o => (iterations o, o.final.log.Temperature[1]?)) =
      some (5, some (3 / 4)) ∧
    driftOptimizer.currentTemperature * (1 - driftOptimizer.alpha) ^ 1 = 3 / 4 - 1 / 2 ^ 54 ∧
    (3 / 4 - 1 / 2 ^ 54 : ℚ) ≠ 3 / 4 ∧
    (0 ≤ driftOptimizer.alpha ∧ driftOptimizer.alpha ≤ 2) := by
  decide!

/-- C17, amended.  With `alpha` in `[0, 2]` (where no cooling step can
overflow), in every run of `Optimize`, whether or not it ever returns: once the
loop body has been executed `n` times, entry `0` of the `Temperature` log is
the placeholder `0`, and for every executed iteration `k ≥ 1` entry `k` is the
temperature after `k` cooling steps `T ← fl (T * fl (1 - alpha))` from the
temperature the call starts with, each step rounded as the arithmetic rounds;
when the arithmetic is exact that is `startTemperature * (1 - alpha) ^ k`.
Entries `k` of `Candidates` and of `Bests` are the current and the best
candidate of the state the `k`-th iteration leaves.  A run that returns has
executed the body `iterations o` times, the guard true before each, and its log
is the log of that state. -/
theorem RunLogR_entries (fl : ℚ → ℚ) (E : Collaborators Track Task Candidate Rng)
    (sa : simAnnealingOptimizer Track Task Candidate) (track : Track)
    (nPoints : Int) (score : Task → ℚ) (rng : Rng)
    (halpha : 0 ≤ sa.alpha ∧ sa.alpha ≤ 2) :
    (∀ n : Nat, ∃ mn : Machine Track Task Candidate Rng,
      runBodyR fl E n (entry E sa track nPoints score rng) = some mn ∧
      mn.log.Temperature[0]? = some 0 ∧
      ∀ k : Nat, 1 ≤ k → k ≤ n →
        mn.log.Temperature[k]? = some ((cool fl sa.alpha)^[k] sa.currentTemperature) ∧
        (fl = id →
          mn.log.Temperature[k]? = some (sa.currentTemperature * (1 - sa.alpha) ^ k)) ∧
        ∃ mk : Machine Track Task Candidate Rng,
          runBodyR fl E k (entry E sa track nPoints score rng) = some mk ∧
          mk.sa.currentTemperature = (cool fl sa.alpha)^[k] sa.currentTemperature ∧
          mn.log.Candidates[k]? = some mk.sa.candidate ∧
          mn.log.Bests[k]? = some mk.sa.best) ∧
    ∀ (fuel : Nat) (o : Outcome Track Task Candidate Rng),
      OptimizeR fl E fuel sa track nPoints score rng = some o →
      runBodyR fl E (iterations o) (entry E sa track nPoints score rng) = some o.final ∧
      (∀ k : Nat, k < iterations o →
        ∃ mk : Machine Track Task Candidate Rng,
          runBodyR fl E k (entry E sa track nPoints score rng) = some mk ∧
          mk.sa.currentTemperature > mk.sa.minTemperature) ∧
      o.final.log.Temperature[0]? = some 0 ∧
      ∀ k : Nat, 1 ≤ k → k ≤ iterations o →
        o.final.log.Temperature[k]? = some ((cool fl sa.alpha)^[k] sa.currentTemperature) ∧
        (fl = id →
          o.final.log.Temperature[k]? = some (sa.currentTemperature * (1 - sa.alpha) ^ k)) := by
  have _ := halpha
  have key : ∀ n : Nat, ∃ mn : Machine Track Task Candidate Rng,
      runBodyR fl E n (entry E sa track nPoints score rng) = some mn ∧
      mn.log.Temperature[0]? = some 0 ∧
      ∀ k : Nat, 1 ≤ k → k ≤ n →
        mn.log.Temperature[k]? = some ((cool fl sa.alpha)^[k] sa.currentTemperature) ∧
        (fl = id →
          mn.log.Temperature[k]? = some (sa.currentTemperature * (1 - sa.alpha) ^ k)) ∧
        ∃ mk : Machine Track Task Candidate Rng,
          runBodyR fl E k (entry E sa track nPoints score rng) = some mk ∧
          mk.sa.currentTemperature = (cool fl sa.alpha)^[k] sa.currentTemperature ∧
          mn.log.Candidates[k]? = some mk.sa.candidate ∧
          mn.log.Bests[k]? = some mk.sa.best := by
    intro n
    obtain ⟨mn, hmn, h0, hent⟩ := runBodyR_log_entry fl E sa track nPoints score rng n
    refine ⟨mn, hmn, h0, ?_⟩
    intro k hk1 hkn
    obtain ⟨j, rfl⟩ : ∃ j, k = j + 1 := ⟨k - 1, by omega⟩
    obtain ⟨mk, hmk, hT, hC, hB, hTl⟩ := hent j hkn
    refine ⟨by rw [hTl, hT], ?_, mk, hmk, hT, hC, hB⟩
    intro hfl
    rw [hTl, hT, hfl, cool_id_iterate]
  refine ⟨key, ?_⟩
  intro fuel o h
  obtain ⟨hrun, hg, _, _, _, _⟩ := OptimizeR_trace fl E fuel sa track nPoints score rng o h
  obtain ⟨mn, hmn, h0, hent⟩ := key (iterations o)
  rw [hrun, Option.some.injEq] at hmn
  subst hmn
  refine ⟨hrun, hg, h0, ?_⟩
  intro k hk1 hkn
  exact ⟨(hent k hk1 hkn).1, (hent k hk1 hkn).2.1⟩

/-- Witness for C17, amended: the optimizer `driftOptimizer` in binary64
arithmetic, whose run returns after `5` iterations with the temperatures
`0, 3/4, 9/16, 27/64, 81/256, 243/1024`. -/
theorem RunLogR_entries_witness :
    (0 ≤ driftOptimizer.alpha ∧ driftOptimizer.alpha ≤ 2) ∧
    driftRun.map (fun o => o.final.log.Temperature) =
      some [0, 3 / 4, 9 / 16, 27 / 64, 81 / 256, 243 / 1024] ∧
    (∀ n : Nat, ∃ mn : Machine Unit Nat Nat Nat,
      runBodyR round64 counterE n (entry counterE driftOptimizer () 3 peakScore 0) = some mn ∧
      mn.log.Temperature[0]? = some 0 ∧
      ∀ k : Nat, 1 ≤ k → k ≤ n →
        mn.log.Temperature[k]? =
          some ((cool round64 driftOptimizer.alpha)^[k] driftOptimizer.currentTemperature) ∧
        (round64 = id →
          mn.log.Temperature[k]? =
            some (driftOptimizer.currentTemperature * (1 - driftOptimizer.alpha) ^ k)) ∧
        ∃ mk : Machine Unit Nat Nat Nat,
          runBodyR round64 counterE k (entry counterE driftOptimizer () 3 peakScore 0) =
            some mk ∧
          mk.sa.currentTemperature =
            (cool round64 driftOptimizer.alpha)^[k] driftOptimizer.currentTemperature ∧
          mn.log.Candidates[k]? = some mk.sa.candidate ∧
          mn.log.Bests[k]? = some mk.sa.best) ∧
    ∀ (fuel : Nat) (o : Outcome Unit Nat Nat Nat),
      OptimizeR round64 counterE fuel driftOptimizer () 3 peakScore 0 = some o →
      runBodyR round64 counterE (iterations o) (entry counterE driftOptimizer () 3 peakScore 0) =
        some o.final ∧
      (∀ k : Nat, k < iterations o →
        ∃ mk : Machine Unit Nat Nat Nat,
          runBodyR round64 counterE k (entry counterE driftOptimizer () 3 peakScore 0) =
            some mk ∧
          mk.sa.currentTemperature > mk.sa.minTemperature) ∧
      o.final.log.Temperature[0]? = some 0 ∧
      ∀ k : Nat, 1 ≤ k → k ≤ iterations o →
        o.final.log.Temperature[k]? =
          some ((cool round64 driftOptimizer.alpha)^[k] driftOptimizer.currentTemperature) ∧
        (round64 = id →
          o.final.log.Temperature[k]? =
            some (driftOptimizer.currentTemperature * (1 - driftOptimizer.alpha) ^ k)) := by
  have halpha : 0 ≤ driftOptimizer.alpha ∧ driftOptimizer.alpha ≤ 2 := by decide!
  exact ⟨halpha, by decide!,
    RunLogR_entries round64 counterE driftOptimizer () 3 peakScore 0 halpha⟩

/-- C18. With `minTemperature ≥ 0` and every draw of `rand.Float64()` in `[0, 1)`,
the score of the current candidate never increases during a run of `Optimize`,
whatever the rounding `fl` of the cooling statement and whether or not the run
ever returns: whenever the loop has executed `k` iterations and executes one
more (the guard true before each of them), that iteration leaves a current
candidate that scores at most what the current candidate scored before it,
strictly less exactly when the move is accepted, and never more than the
initial random candidate. -/
theorem current_score_never_increases (fl : ℚ → ℚ)
    (E : Collaborators Track Task Candidate Rng)
    (sa : simAnnealingOptimizer Track Task Candidate) (track : Track)
    (nPoints : Int) (score : Task → ℚ) (rng : Rng)
    (hmin : 0 ≤ sa.minTemperature)
    (hdraw : ∀ g : Rng, 0 ≤ (E.float64 g).1 ∧ (E.float64 g).1 < 1)
    (k : Nat) (mk : Machine Track Task Candidate Rng)
    (hk : runBodyR fl E k (entry E sa track nPoints score rng) = some mk)
    (hguard : ∀ j, j ≤ k → ∃ mj, runBodyR fl E j (entry E sa track nPoints score rng) = some mj ∧
      mj.sa.currentTemperature > mj.sa.minTemperature) :
    ∃ mk' : Machine Track Task Candidate Rng,
      bodyR fl E mk = some mk' ∧
      runBodyR fl E (k + 1) (entry E sa track nPoints score rng) = some mk' ∧
      score (E.task mk'.sa.candidate) ≤ score (E.task mk.sa.candidate) ∧
      (score (E.task mk'.sa.candidate) < score (E.task mk.sa.candidate) ↔
        moveAccepted E mk = true) ∧
      score (E.task mk'.sa.candidate) ≤
        score (E.task (initialCandidate E track nPoints rng)) := by
  have hes := entry_score E sa track nPoints score rng
  obtain ⟨p, hp, hps, _, _, hpmin, _⟩ := runBodyR_of_score fl E
    (entry E sa track nPoints score rng) score hes k
  rw [hk, Option.some.injEq] at hp
  subst hp
  obtain ⟨mj, hmj, hgk⟩ := hguard k (le_refl k)
  rw [hk, Option.some.injEq] at hmj
  subst hmj
  have hT : 0 < mk.sa.currentTemperature := by
    rw [hpmin] at hgk
    exact lt_of_le_of_lt hmin hgk
  obtain ⟨mk', hb, _⟩ := bodyR_of_score fl E mk score hps
  have hstep := bodyR_current_score fl E mk mk' score hps hT (hdraw _).1 (hdraw _).2 hb
  have hle := runBodyR_current_le fl E (entry E sa track nPoints score rng) score hes hmin
    hdraw k mk hk (fun i hi => hguard i (by omega))
  refine ⟨mk', hb, ?_, hstep.1, hstep.2, le_trans hstep.1 hle⟩
  rw [runBodyR_succ, hk]
  exact hb

/-- Witness for C18: the first iteration of `demoOptimizer` on eight points in
binary64 arithmetic.  The initial candidate `8` scores `6`, its neighbour `9`
scores `5`; the move is accepted and the current candidate becomes `9`. -/
theorem current_score_never_increases_witness :
    (0 ≤ demoOptimizer.minTemperature ∧
      (∀ g : Nat, 0 ≤ (counterE.float64 g).1 ∧ (counterE.float64 g).1 < 1) ∧
      runBodyR round64 counterE 0 (entry counterE demoOptimizer () 8 peakScore 0) =
        some descentMachine ∧
      descentMachine.sa.currentTemperature > descentMachine.sa.minTemperature) ∧
    (moveAccepted counterE descentMachine = true ∧
      descentMachine.sa.candidate = 8 ∧
      (bodyR round64 counterE descentMachine).map (fun m => m.sa.candidate) = some 9 ∧
      peakScore 9 < peakScore 8) ∧
    ∃ mk' : Machine Unit Nat Nat Nat,
      bodyR round64 counterE descentMachine = some mk' ∧
      runBodyR round64 counterE (0 + 1) (entry counterE demoOptimizer () 8 peakScore 0) =
        some mk' ∧
      peakScore (counterE.task mk'.sa.candidate) ≤
        peakScore (counterE.task descentMachine.sa.candidate) ∧
      (peakScore (counterE.task mk'.sa.candidate) <
          peakScore (counterE.task descentMachine.sa.candidate) ↔
        moveAccepted counterE descentMachine = true) ∧
      peakScore (counterE.task mk'.sa.candidate) ≤
        peakScore (counterE.task (initialCandidate counterE () 8 0)) := by
  have hmin : 0 ≤ demoOptimizer.minTemperature := by decide!
  have hdraw : ∀ g : Nat, 0 ≤ (counterE.float64 g).1 ∧ (counterE.float64 g).1 < 1 := by
    intro g
    show 0 ≤ (if g % 2 = 0 then (0 : ℚ) else 1 / 2) ∧ (if g % 2 = 0 then (0 : ℚ) else 1 / 2) < 1
    split <;> norm_num
  have hg : descentMachine.sa.currentTemperature > descentMachine.sa.minTemperature := by
    decide!
  have hguard : ∀ j, j ≤ 0 →
      ∃ mj, runBodyR round64 counterE j (entry counterE demoOptimizer () 8 peakScore 0) =
        some mj ∧ mj.sa.currentTemperature > mj.sa.minTemperature := by
    intro j hj
    obtain rfl : j = 0 := by omega
    exact ⟨descentMachine, rfl, hg⟩
  exact ⟨⟨hmin, hdraw, rfl, hg⟩, ⟨by decide!, rfl, by decide!, by decide!⟩,
    current_score_never_increases round64 counterE demoOptimizer () 8 peakScore 0 hmin hdraw
      0 descentMachine rfl hguard⟩

/-- C19. When `Optimize` returns, the `currentTemperature` of the optimizer is at
or below `minTemperature`, and `initialize` does not reset it.  Every later
call of `Optimize` on that optimizer therefore returns, whatever its fuel,
without executing the loop body: its log holds the placeholder only, it
returns the task of the initial random candidate of that call, and it leaves
both temperatures as they were, so that the same holds of the call after it. -/
theorem Optimize_later_calls (E : Collaborators Track Task Candidate Rng)
    (fuel : Nat) (sa : simAnnealingOptimizer Track Task Candidate) (track : Track)
    (nPoints : Int) (score : Task → ℚ) (rng : Rng) (o : Outcome Track Task Candidate Rng)
    (h : Optimize E fuel sa track nPoints score rng = some o) :
    o.final.sa.currentTemperature ≤ o.final.sa.minTemperature ∧
    ∀ (fuel2 : Nat) (track2 : Track) (nPoints2 : Int) (score2 : Task → ℚ) (rng2 : Rng),
      (initialise E o.final.sa track2 nPoints2 score2 rng2).1.currentTemperature =
        o.final.sa.currentTemperature ∧
      ∃ o2 : Outcome Track Task Candidate Rng,
        Optimize E fuel2 o.final.sa track2 nPoints2 score2 rng2 = some o2 ∧
        iterations o2 = 0 ∧
        o2.final.generated = [] ∧
        o2.final.log.Candidates = [E.zeroCandidate] ∧
        o2.final.log.Bests = [E.zeroCandidate] ∧
        o2.final.log.Temperature = [0] ∧
        o2.task = E.task (initialCandidate E track2 nPoints2 rng2) ∧
        o2.err = none ∧
        o2.final.sa.currentTemperature = o.final.sa.currentTemperature ∧
        o2.final.sa.minTemperature = o.final.sa.minTemperature := by
  have hcold := Optimize_final_cold E fuel sa track nPoints score rng o h
  refine ⟨hcold, ?_⟩
  intro fuel2 track2 nPoints2 score2 rng2
  exact ⟨rfl, _, Optimize_cold E fuel2 o.final.sa track2 nPoints2 score2 rng2 hcold,
    rfl, rfl, rfl, rfl, rfl, rfl, rfl, rfl, rfl⟩

/-- Witness for C19: after `firstCall`, which makes one iteration and ends at
temperature `5` under the floor `9`. -/
theorem Optimize_later_calls_witness :
    ∃ o : Outcome Unit Nat Nat Nat, firstCall = some o ∧
      o.final.sa.currentTemperature = 5 ∧
      o.final.sa.currentTemperature ≤ o.final.sa.minTemperature ∧
      ∀ (fuel2 : Nat) (track2 : Unit) (nPoints2 : Int) (score2 : Nat → ℚ) (rng2 : Nat),
        (initialise counterE o.final.sa track2 nPoints2 score2 rng2).1.currentTemperature =
          o.final.sa.currentTemperature ∧
        ∃ o2 : Outcome Unit Nat Nat Nat,
          Optimize counterE fuel2 o.final.sa track2 nPoints2 score2 rng2 = some o2 ∧
          iterations o2 = 0 ∧
          o2.final.generated = [] ∧
          o2.final.log.Candidates = [counterE.zeroCandidate] ∧
          o2.final.log.Bests = [counterE.zeroCandidate] ∧
          o2.final.log.Temperature = [0] ∧
          o2.task = counterE.task (initialCandidate counterE track2 nPoints2 rng2) ∧
          o2.err = none ∧
          o2.final.sa.currentTemperature = o.final.sa.currentTemperature ∧
          o2.final.sa.minTemperature = o.final.sa.minTemperature := by
  have hs : firstCall.isSome = true := by decide!
  have hd : firstCall = some (firstCall.get hs) := (Option.some_get hs).symm
  have h5 : firstCall.map (fun o => o.final.sa.currentTemperature) = some 5 := by decide!
  rw [hd, Option.map_some', Option.some.injEq] at h5
  exact ⟨firstCall.get hs, hd, h5,
    Optimize_later_calls counterE 5 oneStepOptimizer () 3 peakScore 42 (firstCall.get hs) hd⟩

end

end Igc
